import Mathlib

/-!
# Shadow Quest: a shallow embedding of `shadowquest.cpp`

The terminal RPG keeps its state in three globals (`player`, `inventory`,
`worldMap`) and in the hidden state of the C library generator behind `rand()`.
The embedding makes that state explicit:

* `Game` bundles the three globals with the generator, which is a stream of the
  successive results of `rand()` together with the number of calls made so far;
* standard input is an `Input`, a list of lines, each a list of tokens; a token is
  `some v` when it reads as the integer `v` and `none` when it does not;
* functions that only touch `player` are functions on `Player`, functions that only
  touch `inventory` are functions on `List Item`, everything else passes a `Game`;
* `int` is modelled by `Int`: signed overflow is undefined in C++, so the model
  describes every run in which no `int` leaves its range; `/` and `%` are the
  truncating `Int.tdiv` and `Int.tmod`;
* text written to `cout` is not part of the model.
-/

namespace ShadowQuest

/-! ## Constants, enumerations, structures -/

def MAP_SIZE : Int := 10
def MAX_ENEMIES : Nat := 7
def MAX_ITEMS : Nat := 10
def MAX_INVENTORY : Int := 20

inductive EnemyType where
  | SLIME | GOBLIN | WOLF | SKELETON | TROLL | DRAGON | SHADOW_LORD
deriving DecidableEq, Repr

inductive ItemType where
  | HEALTH_POTION | MANA_POTION | SWORD | SHIELD | ARMOR
deriving DecidableEq, Repr

inductive Terrain where
  | GRASS | FOREST | MOUNTAIN | WATER | VILLAGE | DUNGEON | BOSS_ROOM
deriving DecidableEq, Repr

structure Player where
  name : String
  hp : Int
  maxHp : Int
  mp : Int
  maxMp : Int
  attack : Int
  defense : Int
  level : Int
  exp : Int
  gold : Int
  x : Int
  y : Int
deriving DecidableEq, Repr

structure Enemy where
  name : String
  hp : Int
  maxHp : Int
  attack : Int
  defense : Int
  expReward : Int
  goldReward : Int
  type : EnemyType
deriving DecidableEq, Repr

structure Item where
  name : String
  type : ItemType
  value : Int
  quantity : Int
deriving DecidableEq, Repr

/-- Lines of standard input, each split into whitespace-separated tokens: `some v` is a
token that `cin >> value` reads as the integer `v`, `none` one on which it fails. -/
abbrev Input := List (List (Option Int))

/-- The globals of the program and the state of the C library generator: `randStream i`
is what the `i`-th call of `rand()` returns, `randCalls` counts the calls made so far.
`worldMap x y` is the array cell `worldMap[x][y]`; only cells with both indices in
`[0, MAP_SIZE)` are ever read. -/
structure Game where
  player : Player
  inventory : List Item
  worldMap : Int → Int → Terrain
  randStream : Nat → Nat
  randCalls : Nat

/-- How a call that may read input ends: it returns (with what is left of the input), it
calls `exit(0)`, or it is stuck in a read loop because the input has run out. -/
inductive Run (α : Type) where
  | returned (value : α) (g : Game) (input : Input)
  | exited (g : Game)
  | blocked

/-! ## Static tables -/

/-- The table `enemyNames`. -/
def enemyNames : EnemyType → String
  | .SLIME => "Slime"
  | .GOBLIN => "Goblin"
  | .WOLF => "Wolf"
  | .SKELETON => "Skeleton"
  | .TROLL => "Troll"
  | .DRAGON => "Dragon"
  | .SHADOW_LORD => "Shadow Lord"

/-- The table `enemyStats`: one row `[hp, attack, defense, exp, gold]` per enemy type. -/
def enemyStats : EnemyType → Int × Int × Int × Int × Int
  | .SLIME => (30, 5, 2, 10, 5)
  | .GOBLIN => (50, 8, 4, 20, 10)
  | .WOLF => (70, 12, 5, 30, 15)
  | .SKELETON => (100, 15, 8, 50, 25)
  | .TROLL => (150, 20, 12, 80, 40)
  | .DRAGON => (300, 35, 20, 200, 100)
  | .SHADOW_LORD => (500, 50, 30, 500, 500)

/-- The conversion `static_cast<EnemyType>(n)`. The last arm also stands for the values
outside `0..6`, which the program never casts. -/
def enemyTypeOfInt (n : Int) : EnemyType :=
  if n = 0 then .SLIME
  else if n = 1 then .GOBLIN
  else if n = 2 then .WOLF
  else if n = 3 then .SKELETON
  else if n = 4 then .TROLL
  else if n = 5 then .DRAGON
  else .SHADOW_LORD

/-! ## Utility functions -/

/-- One call of `rand()`: the next value of the stream, and the generator advanced. -/
def rand (g : Game) : Int × Game :=
  ((g.randStream g.randCalls : Nat), { g with randCalls := g.randCalls + 1 })

/-- The function `randomInt`: `min + (rand() % (max - min + 1))`. -/
def randomInt (min max : Int) (g : Game) : Int × Game :=
  let (r, g1) := rand g
  (min + Int.tmod r (max - min + 1), g1)

/-- The function `percentChance`: `(rand() % 100) < percent`. -/
def percentChance (percent : Int) (g : Game) : Bool × Game :=
  let (r, g1) := rand g
  (decide (Int.tmod r 100 < percent), g1)

/-- The function `createCharacter`, for the name that `getValidatedString` read. -/
def createCharacter (name : String) : Player :=
  { name := name
    maxHp := 100
    hp := 100
    maxMp := 50
    mp := 50
    attack := 10
    defense := 5
    level := 1
    exp := 0
    gold := 50
    x := 5
    y := 5 }

/-- The function `levelUp`. -/
def levelUp (p : Player) : Player :=
  let p := { p with level := p.level + 1 }
  let p := { p with exp := 0 }
  let p := { p with maxHp := p.maxHp + 20 }
  let p := { p with hp := p.maxHp }
  let p := { p with maxMp := p.maxMp + 10 }
  let p := { p with mp := p.maxMp }
  let p := { p with attack := p.attack + 3 }
  { p with defense := p.defense + 2 }

/-- The loop `while (player.exp >= expNeeded) { levelUp(); expNeeded = 100 * player.level; }`
of `gainExperience`, where `expNeeded` is `100 * player.level` at every test. After one
level-up `exp` is `0`, so a further pass needs `level ≤ 0` and raises `level`. -/
def gainExperienceLoop (p : Player) : Player :=
  if p.exp ≥ 100 * p.level then gainExperienceLoop (levelUp p) else p
termination_by (1 - p.level).toNat + (if p.exp = 0 then 0 else 1)
decreasing_by
  simp only [levelUp]
  split_ifs <;> omega

/-- The function `gainExperience`. -/
def gainExperience (exp : Int) (p : Player) : Player :=
  gainExperienceLoop { p with exp := p.exp + exp }

/-- The function `checkVictory`. -/
def checkVictory (p : Player) : Bool :=
  decide (p.x = 9 ∧ p.y = 9 ∧ p.level ≥ 5)

/-! ## Combat -/

/-- The function `createEnemy`. -/
def createEnemy (type : EnemyType) : Enemy :=
  { type := type
    name := enemyNames type
    maxHp := (enemyStats type).1
    hp := (enemyStats type).1
    attack := (enemyStats type).2.1
    defense := (enemyStats type).2.2.1
    expReward := (enemyStats type).2.2.2.1
    goldReward := (enemyStats type).2.2.2.2 }

/-- The local `damage` of `playerAttack` at the point where it is subtracted from the
enemy (and printed), with the generator after the variance draw. -/
def playerAttackDamage (enemy : Enemy) (g : Game) : Int × Game :=
  let damage := g.player.attack - Int.tdiv enemy.defense 2
  let damage := if damage < 1 then 1 else damage
  let (variance, g1) := randomInt (-2) 5 g
  (damage + variance, g1)

/-- The function `playerAttack`; the enemy is passed by reference, so it is returned. -/
def playerAttack (enemy : Enemy) (g : Game) : Enemy × Game :=
  let (damage, g1) := playerAttackDamage enemy g
  let hp := enemy.hp - damage
  ({ enemy with hp := if hp < 0 then 0 else hp }, g1)

/-- The local `damage` of `enemyAttack` at the point where it is subtracted from the
player (and printed), with the generator after the variance draw. -/
def enemyAttackDamage (enemy : Enemy) (g : Game) : Int × Game :=
  let damage := enemy.attack - Int.tdiv g.player.defense 2
  let damage := if damage < 1 then 1 else damage
  let (variance, g1) := randomInt (-2) 3 g
  (damage + variance, g1)

/-- The function `enemyAttack`; it leaves the enemy as it is. -/
def enemyAttack (enemy : Enemy) (g : Game) : Game :=
  let (damage, g1) := enemyAttackDamage enemy g
  let hp := g1.player.hp - damage
  { g1 with player := { g1.player with hp := if hp < 0 then 0 else hp } }

/-! ## Items and inventory -/

/-- The search loop of `addItemToInventory`: the first entry whose name is that of `item`
gets `item.quantity` added to its quantity; `none` when the loop finds no such entry. -/
def stackOnExisting (item : Item) : List Item → Option (List Item)
  | [] => none
  | entry :: rest =>
    if entry.name = item.name then
      some ({ entry with quantity := entry.quantity + item.quantity } :: rest)
    else
      match stackOnExisting item rest with
      | some rest1 => some (entry :: rest1)
      | none => none

/-- The function `addItemToInventory`. -/
def addItemToInventory (item : Item) (inventory : List Item) : List Item :=
  match stackOnExisting item inventory with
  | some stacked => stacked
  | none =>
    if (inventory.length : Int) < MAX_INVENTORY then inventory ++ [item]
    else inventory

/-- The end of `useItem`: `item.quantity--`, then the entry is erased if its quantity
is `≤ 0`. -/
def consumeItem (index : Nat) (item : Item) (inventory : List Item) : List Item :=
  let item1 := { item with quantity := item.quantity - 1 }
  if item1.quantity ≤ 0 then inventory.eraseIdx index
  else inventory.set index item1

/-- The function `useItem`. -/
def useItem (index : Int) (g : Game) : Bool × Game :=
  if index < 0 ∨ index ≥ (g.inventory.length : Int) then (false, g)
  else
    match g.inventory[index.toNat]? with
    | none => (false, g)
    | some item =>
      match item.type with
      | .HEALTH_POTION =>
        let hp := g.player.hp + item.value
        let hp := if hp > g.player.maxHp then g.player.maxHp else hp
        (true, { g with player := { g.player with hp := hp }
                        inventory := consumeItem index.toNat item g.inventory })
      | .MANA_POTION =>
        let mp := g.player.mp + item.value
        let mp := if mp > g.player.maxMp then g.player.maxMp else mp
        (true, { g with player := { g.player with mp := mp }
                        inventory := consumeItem index.toNat item g.inventory })
      | _ => (false, g)

/-- The inner loop of `sortInventoryByName`, run for `count` values of `j` from the front:
neighbours are swapped when the left name is greater. -/
def bubblePass : Nat → List Item → List Item
  | 0, inventory => inventory
  | _ + 1, [] => []
  | _ + 1, [a] => [a]
  | count + 1, a :: b :: rest =>
    if a.name > b.name then b :: bubblePass count (a :: rest)
    else a :: bubblePass count (b :: rest)

/-- The function `sortInventoryByName`: for `i = 0, …, n - 2` the inner loop makes
`n - i - 1` comparisons. -/
def sortInventoryByName (inventory : List Item) : List Item :=
  let n := inventory.length
  (List.range (n - 1)).foldl (fun inv i => bubblePass (n - i - 1) inv) inventory

/-- The search loop of `findItemInInventory`, started at index `i`. -/
def findItemFrom (itemName : String) (i : Int) : List Item → Int
  | [] => -1
  | entry :: rest =>
    if entry.name = itemName then i else findItemFrom itemName (i + 1) rest

/-- The function `findItemInInventory`. -/
def findItemInInventory (itemName : String) (inventory : List Item) : Int :=
  findItemFrom itemName 0 inventory

/-! ## Input -/

/-- Number of tokens and line ends left in the input. -/
def inputSize : Input → Nat
  | [] => 0
  | line :: rest => line.length + 1 + inputSize rest

/-- The function `getValidatedInt`. A token that is no integer puts `cin` in the failed
state, and the rest of its line is discarded; an integer out of range is dropped and
reading goes on behind it; an integer in range is returned and the rest of its line is
discarded. `none`: the input is used up and the loop never returns. -/
def getValidatedInt (min max : Int) : Input → Option (Int × Input)
  | [] => none
  | [] :: rest => getValidatedInt min max rest
  | (none :: _) :: rest => getValidatedInt min max rest
  | (some value :: line) :: rest =>
    if value < min ∨ value > max then getValidatedInt min max (line :: rest)
    else some (value, rest)
termination_by input => inputSize input
decreasing_by
  all_goals simp only [inputSize, List.length_cons]
  all_goals omega

/-- Every integer that `getValidatedInt` returns costs at least one token of input. -/
theorem getValidatedInt_inputSize (min max : Int) (input : Input) (value : Int)
    (rest : Input) (h : getValidatedInt min max input = some (value, rest)) :
    inputSize rest < inputSize input := by
  induction input using getValidatedInt.induct min max with
  | case1 => simp [getValidatedInt] at h
  | case2 rest1 ih =>
    rw [getValidatedInt] at h
    have := ih h
    simp only [inputSize, List.length_nil]
    omega
  | case3 line rest1 ih =>
    rw [getValidatedInt] at h
    have := ih h
    simp only [inputSize, List.length_cons]
    omega
  | case4 v line rest1 hv ih =>
    rw [getValidatedInt, if_pos hv] at h
    have := ih h
    simp only [inputSize, List.length_cons] at this ⊢
    omega
  | case5 v line rest1 hv =>
    rw [getValidatedInt, if_neg hv] at h
    simp only [Option.some.injEq, Prod.mk.injEq] at h
    rw [← h.2]
    simp only [inputSize, List.length_cons]
    omega

/-! ## Game loop functions -/

/-- How one pass of the loop `while (fighting)` of `startCombat` ends: with the next pass,
or with the end of the call. -/
inductive CombatStep where
  | again (enemy : Enemy) (g : Game) (input : Input)
  | finished (result : Run (Bool × Enemy))

/-- The body of the loop `while (fighting)` of `startCombat`: one menu choice is read and
carried out. -/
def combatTurn (enemy : Enemy) (g : Game) (input : Input) : CombatStep :=
  match getValidatedInt 1 3 input with
  | none => .finished .blocked
  | some (choice, input1) =>
    if choice = 1 then
      let attacked := playerAttack enemy g
      let enemy1 := attacked.1
      let g1 := attacked.2
      if enemy1.hp ≤ 0 then
        let g2 := { g1 with player := gainExperience enemy1.expReward g1.player }
        let g3 := { g2 with player := { g2.player with gold := g2.player.gold + enemy1.goldReward } }
        let roll := percentChance 40 g3
        let g4 := roll.2
        if roll.1 then
          let drop : Item := { name := "Health Potion", type := .HEALTH_POTION, value := 50, quantity := 1 }
          .finished (.returned (true, enemy1)
            { g4 with inventory := addItemToInventory drop g4.inventory } input1)
        else
          .finished (.returned (true, enemy1) g4 input1)
      else
        let g2 := enemyAttack enemy1 g1
        if g2.player.hp ≤ 0 then .finished (.exited g2)
        else .again enemy1 g2 input1
    else if choice = 2 then
      if g.inventory ≠ [] then
        match getValidatedInt 0 (g.inventory.length : Int) input1 with
        | none => .finished .blocked
        | some (itemIndex, input2) =>
          if itemIndex > 0 then .again enemy (useItem (itemIndex - 1) g).2 input2
          else .again enemy g input2
      else .again enemy g input1
    else if choice = 3 then
      if enemy.type = .SHADOW_LORD then .again enemy g input1
      else
        let roll := percentChance 50 g
        let g1 := roll.2
        if roll.1 then .finished (.returned (false, enemy) g1 input1)
        else
          let g2 := enemyAttack enemy g1
          if g2.player.hp ≤ 0 then .finished (.exited g2)
          else .again enemy g2 input1
    else .again enemy g input1

/-- A pass of the combat loop that is followed by another has read at least one token. -/
theorem combatTurn_inputSize (enemy enemy1 : Enemy) (g g1 : Game) (input input1 : Input)
    (h : combatTurn enemy g input = .again enemy1 g1 input1) :
    inputSize input1 < inputSize input := by
  unfold combatTurn at h
  cases hread : getValidatedInt 1 3 input with
  | none => rw [hread] at h; cases h
  | some read =>
    obtain ⟨choice, rest⟩ := read
    have hrest := getValidatedInt_inputSize 1 3 input choice rest hread
    rw [hread] at h
    dsimp only at h
    cases hread2 : getValidatedInt 0 (g.inventory.length : Int) rest with
    | none =>
      rw [hread2] at h
      dsimp only at h
      split_ifs at h <;> cases h <;> exact hrest
    | some read2 =>
      obtain ⟨itemIndex, rest2⟩ := read2
      have hrest2 := getValidatedInt_inputSize 0 _ rest itemIndex rest2 hread2
      rw [hread2] at h
      dsimp only at h
      split_ifs at h <;> cases h <;> omega

/-- The function `startCombat`: the loop `while (fighting)` around `combatTurn`. The
result is the returned `bool` with the enemy, which is passed by reference. -/
def startCombat (enemy : Enemy) (g : Game) (input : Input) : Run (Bool × Enemy) :=
  match h : combatTurn enemy g input with
  | .finished result => result
  | .again enemy1 g1 input1 => startCombat enemy1 g1 input1
termination_by inputSize input
decreasing_by exact combatTurn_inputSize enemy enemy1 g g1 input input1 h

/-- The cell that `movePlayer` computes as `(newX, newY)`; `none` for a character that
is no direction. -/
def moveTarget (direction : Char) (p : Player) : Option (Int × Int) :=
  if direction = 'w' ∨ direction = 'W' then some (p.x - 1, p.y)
  else if direction = 's' ∨ direction = 'S' then some (p.x + 1, p.y)
  else if direction = 'a' ∨ direction = 'A' then some (p.x, p.y - 1)
  else if direction = 'd' ∨ direction = 'D' then some (p.x, p.y + 1)
  else none

/-- The function `movePlayer`. The result of `startCombat` is dropped, as in the source. -/
def movePlayer (direction : Char) (g : Game) (input : Input) : Run Unit :=
  match moveTarget direction g.player with
  | none => .returned () g input
  | some (newX, newY) =>
    if newX < 0 ∨ newX ≥ MAP_SIZE ∨ newY < 0 ∨ newY ≥ MAP_SIZE then .returned () g input
    else if g.worldMap newX newY = .WATER then .returned () g input
    else
      let g1 := { g with player := { g.player with x := newX, y := newY } }
      if g1.worldMap g1.player.x g1.player.y ≠ .VILLAGE then
        let roll := percentChance 30 g1
        let g2 := roll.2
        if roll.1 then
          let picked : EnemyType × Game :=
            if g2.worldMap g2.player.x g2.player.y = .BOSS_ROOM then (.SHADOW_LORD, g2)
            else if g2.worldMap g2.player.x g2.player.y = .DUNGEON then
              (enemyTypeOfInt (randomInt 3 5 g2).1, (randomInt 3 5 g2).2)
            else
              (enemyTypeOfInt (randomInt 0 2 g2).1, (randomInt 0 2 g2).2)
          match startCombat (createEnemy picked.1) picked.2 input with
          | .returned _ g3 input1 => .returned () g3 input1
          | .exited g3 => .exited g3
          | .blocked => .blocked
        else .returned () g2 input
      else .returned () g1 input

/-- The globals at the end of a call that ends: after it returns or calls `exit(0)`. -/
def Run.finalGame {α : Type} : Run α → Option Game
  | .returned _ g _ => some g
  | .exited g => some g
  | .blocked => none

/-- The choice of `enemyType` in `movePlayer` for an encounter, at the state `g` that the
encounter roll leaves: by the tile under the player, with one draw except in the boss
room. -/
def encounterEnemyType (g : Game) : EnemyType × Game :=
  if g.worldMap g.player.x g.player.y = .BOSS_ROOM then (.SHADOW_LORD, g)
  else if g.worldMap g.player.x g.player.y = .DUNGEON then
    (enemyTypeOfInt (randomInt 3 5 g).1, (randomInt 3 5 g).2)
  else
    (enemyTypeOfInt (randomInt 0 2 g).1, (randomInt 0 2 g).2)

/-! ## World map -/

/-- The assignment `worldMap[x][y] = terrain`. -/
def setCell (worldMap : Int → Int → Terrain) (x y : Int) (terrain : Terrain) :
    Int → Int → Terrain :=
  fun i j => if i = x ∧ j = y then terrain else worldMap i j

/-- The terrain that `initializeWorldMap` gives a cell for the draw `rand` in `[1, 100]`. -/
def terrainOfDraw (rand : Int) : Terrain :=
  if rand ≤ 50 then .GRASS
  else if rand ≤ 75 then .FOREST
  else if rand ≤ 85 then .MOUNTAIN
  else .WATER

/-- The body of the inner loop of `initializeWorldMap` for the cell `(i, j)`. -/
def fillCell (i j : Nat) (g : Game) : Game :=
  let draw := randomInt 1 100 g
  { draw.2 with worldMap := setCell draw.2.worldMap i j (terrainOfDraw draw.1) }

/-- The function `initializeWorldMap`: every cell gets its own draw, row by row, then the
three special cells are placed. -/
def initializeWorldMap (g : Game) : Game :=
  let filled := (List.range 10).foldl
    (fun g1 i => (List.range 10).foldl (fun g2 j => fillCell i j g2) g1) g
  let m1 := setCell filled.worldMap 5 5 .VILLAGE
  let m2 := setCell m1 0 0 .DUNGEON
  { filled with worldMap := setCell m2 9 9 .BOSS_ROOM }

/-! ## Save files

The text of a save file is a list of characters. Writing follows `operator<<` (decimal
digits, a leading `-` for a negative number, `endl` is a line feed); reading follows
`getline`, `operator>>` for `int` and `ignore()`. -/

/-- The decimal digit `d` as a character. -/
def digitChar (d : Nat) : Char := Char.ofNat (48 + d)

/-- What `operator<<` writes for an unsigned number: its decimal digits. -/
def showNat (n : Nat) : List Char :=
  if n < 10 then [digitChar n] else showNat (n / 10) ++ [digitChar (n % 10)]
decreasing_by omega

/-- What `operator<<` writes for an `int`. -/
def showInt (n : Int) : List Char :=
  if n < 0 then '-' :: showNat (-n).toNat else showNat n.toNat

/-- The integer that `operator<<` writes for an `ItemType`. -/
def itemTypeTag : ItemType → Int
  | .HEALTH_POTION => 0
  | .MANA_POTION => 1
  | .SWORD => 2
  | .SHIELD => 3
  | .ARMOR => 4

/-- The conversion `static_cast<ItemType>(type)` of `loadGame`; `none` for an integer that
is no enumerator. -/
def itemTypeOfInt (n : Int) : Option ItemType :=
  if n = 0 then some .HEALTH_POTION
  else if n = 1 then some .MANA_POTION
  else if n = 2 then some .SWORD
  else if n = 3 then some .SHIELD
  else if n = 4 then some .ARMOR
  else none

/-- The loop of `saveGame` over the inventory: two lines per item. -/
def saveItems : List Item → List Char
  | [] => []
  | item :: rest =>
    item.name.toList ++ '\n' ::
      (showInt (itemTypeTag item.type) ++ ' ' ::
        (showInt item.value ++ ' ' ::
          (showInt item.quantity ++ '\n' :: saveItems rest)))

/-- The function `saveGame`: the text written to a file that could be created. -/
def saveGame (g : Game) : List Char :=
  g.player.name.toList ++ '\n' ::
    (showInt g.player.hp ++ ' ' :: (showInt g.player.maxHp ++ ' ' ::
      (showInt g.player.mp ++ ' ' :: (showInt g.player.maxMp ++ '\n' ::
        (showInt g.player.attack ++ ' ' :: (showInt g.player.defense ++ '\n' ::
          (showInt g.player.level ++ ' ' :: (showInt g.player.exp ++ ' ' ::
            (showInt g.player.gold ++ '\n' ::
              (showInt g.player.x ++ ' ' :: (showInt g.player.y ++ '\n' ::
                (showNat g.inventory.length ++ '\n' :: saveItems g.inventory))))))))))))

/-- The characters that `operator>>` skips before a number: the white space of the C
locale. -/
def isSpace (c : Char) : Bool :=
  c = ' ' || c = '\t' || c = '\n' || c = '\x0b' || c = '\x0c' || c = '\r'

/-- The digits that `operator>>` takes for a number after `acc`, and the text behind
them. -/
def readDigits (acc : Nat) : List Char → Nat × List Char
  | [] => (acc, [])
  | c :: cs =>
    if c.isDigit then readDigits (acc * 10 + (c.toNat - 48)) cs else (acc, c :: cs)

/-- The number at the front of the text, which has to start with a digit. -/
def readNumber : List Char → Option (Nat × List Char)
  | [] => none
  | c :: cs => if c.isDigit then some (readDigits 0 (c :: cs)) else none

/-- The extraction `stream >> n` for an `int`: white space is skipped, then a sign may
come, then digits have to come. `none`: the extraction fails. -/
def extractInt : List Char → Option (Int × List Char)
  | [] => none
  | c :: cs =>
    if isSpace c then extractInt cs
    else if c = '-' then
      match readNumber cs with
      | some (n, rest) => some (-(n : Int), rest)
      | none => none
    else if c = '+' then
      match readNumber cs with
      | some (n, rest) => some ((n : Int), rest)
      | none => none
    else
      match readNumber (c :: cs) with
      | some (n, rest) => some ((n : Int), rest)
      | none => none

/-- The characters of a line up to its line feed, and the text behind the line feed. -/
def splitLine : List Char → List Char × List Char
  | [] => ([], [])
  | c :: cs => if c = '\n' then ([], cs) else (c :: (splitLine cs).1, (splitLine cs).2)

/-- The call `getline(stream, s)`; `none`: nothing is left to read and the call fails. -/
def getline : List Char → Option (List Char × List Char)
  | [] => none
  | c :: cs => some (splitLine (c :: cs))

/-- The loop of `loadGame` over the inventory, for `count` items. -/
def loadItems : Nat → List Char → Option (List Item × List Char)
  | 0, text => some ([], text)
  | count + 1, text => do
    let (name, text1) ← getline text
    let (type, text2) ← extractInt text1
    let (value, text3) ← extractInt text2
    let (quantity, text4) ← extractInt text3
    let itemType ← itemTypeOfInt type
    let (items, text5) ← loadItems count (text4.drop 1)
    some ({ name := String.mk name, type := itemType, value := value, quantity := quantity }
      :: items, text5)

/-- The function `loadGame` for a file that could be opened, with `text` in it. `none`
stands for the runs in which an extraction fails or an item type is no enumerator; there
the source goes on with a failed stream, which is not modelled. -/
def loadGame (text : List Char) (g : Game) : Option Game :=
  match getline text with
  | none => none
  | some (name, text1) =>
  match extractInt text1 with
  | none => none
  | some (hp, text2) =>
  match extractInt text2 with
  | none => none
  | some (maxHp, text3) =>
  match extractInt text3 with
  | none => none
  | some (mp, text4) =>
  match extractInt text4 with
  | none => none
  | some (maxMp, text5) =>
  match extractInt text5 with
  | none => none
  | some (attack, text6) =>
  match extractInt text6 with
  | none => none
  | some (defense, text7) =>
  match extractInt text7 with
  | none => none
  | some (level, text8) =>
  match extractInt text8 with
  | none => none
  | some (exp, text9) =>
  match extractInt text9 with
  | none => none
  | some (gold, text10) =>
  match extractInt text10 with
  | none => none
  | some (x, text11) =>
  match extractInt text11 with
  | none => none
  | some (y, text12) =>
  match extractInt text12 with
  | none => none
  | some (invSize, text13) =>
  match loadItems invSize.toNat (text13.drop 1) with
  | none => none
  | some (items, _) =>
    some (initializeWorldMap
      { g with
        player :=
          { name := String.mk name, hp := hp, maxHp := maxHp, mp := mp, maxMp := maxMp
            attack := attack, defense := defense, level := level, exp := exp, gold := gold
            x := x, y := y }
        inventory := items })

/-! ## The exam question (`question1.cpp`) -/

namespace Exam

/-- The loop `for (int i = 0; i < n; i++) s = s + s;` of `getRichQuick`, for `count`
passes. -/
def doubleTimes : Nat → String → String
  | 0, s => s
  | count + 1, s => doubleTimes count (s ++ s)

/-- The function `getRichQuick`; strings are of any length in the model. -/
def getRichQuick (n : Int) : String :=
  if n < 0 then "" else doubleTimes n.toNat "$"

end Exam

/-! ## High scores (`game run.cpp` and `py.cpp`)

Both arcade programs have the same function `addHighScore`, word for word up to the name
of the vector. -/

namespace HighScores

/-- The statement `std::swap(hs[i], hs[j])`. -/
def swapAt (hs : List Int) (i j : Nat) : List Int :=
  (hs.set i (hs.getD j 0)).set j (hs.getD i 0)

/-- The loop `for (i = size - 1; i > 0; --i)` of `addHighScore` from the index `i` on:
the entry at `i` moves one place to the front while it is greater than the entry before
it; the first entry that is not ends the loop. -/
def bubbleToFront : Nat → List Int → List Int
  | 0, hs => hs
  | i + 1, hs =>
    if hs.getD (i + 1) 0 > hs.getD i 0 then bubbleToFront i (swapAt hs (i + 1) i)
    else hs

/-- The function `addHighScore`. -/
def addHighScore (hs : List Int) (score : Int) : List Int :=
  let pushed := hs ++ [score]
  let placed := bubbleToFront (pushed.length - 1) pushed
  if (placed.length : Int) > 10 then placed.take 10 else placed

end HighScores

/-! ## Car Dodger (`game run.cpp`) -/

namespace CarDodger

structure Obstacle where
  row : Int
  col : Int
deriving DecidableEq, Repr

/-- The first loop of `updateObstacles`: `obs[i].row += 1` for every index. -/
def moveDown (obs : List Obstacle) : List Obstacle :=
  obs.map (fun o => { o with row := o.row + 1 })

/-- The second loop of `updateObstacles`, `for (i = size - 1; i >= 0; --i)`, with the
indices below `count` still to visit: an obstacle below the player's row is erased, one in
the player's cell sets `collision`. The index is in range at every visit, as an erase
at `i` leaves the entries before `i` in place. -/
def sweep (playerRow playerCol : Int) : Nat → List Obstacle → Bool → List Obstacle × Bool
  | 0, obs, collision => (obs, collision)
  | i + 1, obs, collision =>
    match obs[i]? with
    | none => (obs, collision)
    | some o =>
      if o.row > playerRow then sweep playerRow playerCol i (obs.eraseIdx i) collision
      else if o.row = playerRow ∧ o.col = playerCol then sweep playerRow playerCol i obs true
      else sweep playerRow playerCol i obs collision

/-- The function `updateObstacles` of Car Dodger: the obstacles left, and the value
returned. -/
def updateObstacles (obs : List Obstacle) (playerRow playerCol : Int) :
    List Obstacle × Bool :=
  let moved := moveDown obs
  sweep playerRow playerCol moved.length moved false

end CarDodger

/-! ## Neon Lane Runner (`py.cpp`) -/

namespace NeonLaneRunner

inductive ObstacleType where
  | NORMAL | FAST | WIDE
deriving DecidableEq, Repr

inductive PowerUpType where
  | SHIELD | MULTIPLIER | SLOW
deriving DecidableEq, Repr

structure Obstacle where
  row : Int
  col : Int
  type : ObstacleType
deriving DecidableEq, Repr

structure PowerUp where
  row : Int
  col : Int
  type : PowerUpType
deriving DecidableEq, Repr

/-- The rows that an obstacle moves in one call of `updateObstacles`: 2 for `FAST`, else
1, and one less (not below 0) when `slowActive`. -/
def obstacleStep (type : ObstacleType) (slowActive : Bool) : Int :=
  let step : Int := if type = .FAST then 2 else 1
  if slowActive then max 0 (step - 1) else step

/-- The first loop of `updateObstacles`: every obstacle moves down by its step. -/
def moveObstacles (obstacles : List Obstacle) (slowActive : Bool) : List Obstacle :=
  obstacles.map (fun o => { o with row := o.row + obstacleStep o.type slowActive })

/-- The value of `hit` for the obstacle `o`: it is in the player's row, and in the player's
column or, when `WIDE`, in the column left of the player. -/
def obstacleHit (o : Obstacle) (playerRow playerCol : Int) : Bool :=
  if o.row = playerRow then
    if o.type = .WIDE then decide (playerCol = o.col ∨ playerCol = o.col + 1)
    else decide (playerCol = o.col)
  else false

/-- The second loop of `updateObstacles`, `for (i = size - 1; i >= 0; --i)`, with the
indices below `count` still to visit. -/
def sweepObstacles (playerRow playerCol : Int) :
    Nat → List Obstacle → Bool → List Obstacle × Bool
  | 0, obstacles, collision => (obstacles, collision)
  | i + 1, obstacles, collision =>
    match obstacles[i]? with
    | none => (obstacles, collision)
    | some o =>
      let collision1 := if obstacleHit o playerRow playerCol then true else collision
      if o.row > playerRow then
        sweepObstacles playerRow playerCol i (obstacles.eraseIdx i) collision1
      else sweepObstacles playerRow playerCol i obstacles collision1

/-- The function `updateObstacles` of Neon Lane Runner: the obstacles left, and the value
returned. -/
def updateObstacles (obstacles : List Obstacle) (playerRow playerCol : Int)
    (slowActive : Bool) : List Obstacle × Bool :=
  let moved := moveObstacles obstacles slowActive
  sweepObstacles playerRow playerCol moved.length moved false

/-- The first loop of `updatePowerUps`: `powerups[i].row += 1` for every index. -/
def movePowerUps (powerups : List PowerUp) : List PowerUp :=
  powerups.map (fun p => { p with row := p.row + 1 })

/-- The second loop of `updatePowerUps`, `for (i = size - 1; i >= 0; --i)`, with the
indices below `count` still to visit: a power-up below the player's row is erased, the
first one met in the player's cell ends the call with its index; `-1` when the loop
runs out. -/
def collectFrom (playerRow playerCol : Int) : Nat → List PowerUp → List PowerUp × Int
  | 0, powerups => (powerups, -1)
  | i + 1, powerups =>
    match powerups[i]? with
    | none => (powerups, -1)
    | some p =>
      if p.row > playerRow then collectFrom playerRow playerCol i (powerups.eraseIdx i)
      else if p.row = playerRow ∧ p.col = playerCol then (powerups, (i : Int))
      else collectFrom playerRow playerCol i powerups

/-- The function `updatePowerUps`: the power-ups left, and the index returned. -/
def updatePowerUps (powerups : List PowerUp) (playerRow playerCol : Int) :
    List PowerUp × Int :=
  let moved := movePowerUps powerups
  collectFrom playerRow playerCol moved.length moved

end NeonLaneRunner

/-! ## The level-up loop with a bound on its passes -/

/-- The loop of `gainExperience` cut off after `fuel` passes: `none` when the test
`player.exp >= 100 * player.level` still holds then. -/
def gainExperienceWithin : Nat → Player → Option Player
  | 0, p => if p.exp ≥ 100 * p.level then none else some p
  | fuel + 1, p =>
    if p.exp ≥ 100 * p.level then gainExperienceWithin fuel (levelUp p) else some p

/-! ## Predicates used in the statements -/

/-- Two player states agree on level, exp and the six stats. -/
def sameProgress (p q : Player) : Prop :=
  p.level = q.level ∧ p.exp = q.exp ∧ p.maxHp = q.maxHp ∧ p.hp = q.hp ∧
  p.maxMp = q.maxMp ∧ p.mp = q.mp ∧ p.attack = q.attack ∧ p.defense = q.defense

instance (p q : Player) : Decidable (sameProgress p q) := by
  unfold sameProgress
  infer_instance

/-- The game after the assignments `player.x = newX; player.y = newY` of `movePlayer`. -/
def movedTo (g : Game) (newX newY : Int) : Game :=
  { g with player := { g.player with x := newX, y := newY } }

/-- How `movePlayer` ends after the call of `startCombat`, whose result it drops. -/
def afterCombat : Run (Bool × Enemy) → Run Unit
  | .returned _ g input => .returned () g input
  | .exited g => .exited g
  | .blocked => .blocked

/-- The value of `rand() % 100` at the next call of `rand()`: the roll of `percentChance`. -/
def nextRoll (g : Game) : Int :=
  Int.tmod (g.randStream g.randCalls : Nat) 100

/-- The game after the item prompt of `startCombat`: `if (itemIndex > 0)
useItem(itemIndex - 1);`. -/
def afterItemChoice (itemIndex : Int) (g : Game) : Game :=
  if itemIndex > 0 then (useItem (itemIndex - 1) g).2 else g

/-- The game that `startCombat` leaves when the attack of the player has brought the
enemy `defeated` to hp 0, from the game `g` before the attack: experience and gold are
granted, the attack and the drop roll are the two calls of `rand()`, and the potion
goes through `addItemToInventory` when the drop roll is below 40. -/
def victoryGame (defeated : Enemy) (g : Game) : Game :=
  { player :=
      { gainExperience defeated.expReward g.player with
        gold := (gainExperience defeated.expReward g.player).gold + defeated.goldReward }
    inventory :=
      if nextRoll (rand g).2 < 40 then
        addItemToInventory
          { name := "Health Potion", type := .HEALTH_POTION, value := 50, quantity := 1 }
          g.inventory
      else g.inventory
    worldMap := g.worldMap
    randStream := g.randStream
    randCalls := g.randCalls + 2 }

/-! ## Sample states -/

/-- A game right after character creation, on a map of grass around the three special
cells, whose generator returns `r` at every call. -/
def sampleGame (r : Nat) : Game :=
  { player := createCharacter "Hero"
    inventory := [{ name := "Health Potion", type := .HEALTH_POTION, value := 50, quantity := 3 }]
    worldMap := fun x y =>
      if x = 5 ∧ y = 5 then .VILLAGE
      else if x = 0 ∧ y = 0 then .DUNGEON
      else if x = 9 ∧ y = 9 then .BOSS_ROOM
      else .GRASS
    randStream := fun _ => r
    randCalls := 0 }

/-- The item that a defeated enemy may drop. -/
def healthPotionDrop : Item :=
  { name := "Health Potion", type := .HEALTH_POTION, value := 50, quantity := 1 }

/-- A mana potion. -/
def manaPotion : Item :=
  { name := "Mana Potion", type := .MANA_POTION, value := 30, quantity := 1 }

/-- Twenty entries with the names `A` to `T`: a full inventory. -/
def fullInventory : List Item :=
  ["A", "B", "C", "D", "E", "F", "G", "H", "I", "J",
   "K", "L", "M", "N", "O", "P", "Q", "R", "S", "T"].map
    fun n => { name := n, type := .SWORD, value := 1, quantity := 1 }

/-- The sample game with water on the cell north of the player, `(4, 5)`. -/
def waterGame : Game :=
  { sampleGame 0 with
    worldMap := fun x y => if x = 4 ∧ y = 5 then .WATER else (sampleGame 0).worldMap x y }

/-- An enemy with the attack 10 and the defense 5 of a new player. -/
def mirrorEnemy : Enemy :=
  { createEnemy .SLIME with attack := 10, defense := 5 }

/-- A Slime with 1 hp left. -/
def weakSlime : Enemy :=
  { createEnemy .SLIME with hp := 1 }

/-- The sample game with the full inventory, in which nothing is named Health Potion. -/
def fullGame : Game :=
  { sampleGame 0 with inventory := fullInventory }

/-- The sample game with one Health Potion of quantity 0 in the inventory. -/
def emptyPotionGame : Game :=
  { sampleGame 0 with inventory := [{ healthPotionDrop with quantity := 0 }] }

/-- The draw of `initializeWorldMap` for the cell `(i, j)`: the value of
`randomInt(1, 100)` at the call number `10 * i + j` of the loops. -/
def cellDraw (g : Game) (i j : Nat) : Int :=
  1 + Int.tmod (g.randStream (g.randCalls + 10 * i + j) : Nat) 100

/-- The state of the bubble sort after `t` passes: the last `t` entries are in order and
not below any entry before them. -/
def SortedTail (t : Nat) (l : List Item) : Prop :=
  ∃ front back : List Item, l = front ++ back ∧ back.length = t ∧
    back.Pairwise (fun a b => a.name ≤ b.name) ∧
    ∀ a ∈ front, ∀ b ∈ back, a.name ≤ b.name

/-! ## Facts about the generator -/

theorem randomInt_fst (min max : Int) (g : Game) :
    (randomInt min max g).1 = min + Int.tmod (g.randStream g.randCalls : Nat) (max - min + 1) :=
  rfl

theorem randomInt_snd (min max : Int) (g : Game) :
    (randomInt min max g).2 = { g with randCalls := g.randCalls + 1 } :=
  rfl

/-- The remainder `rand() % m` lies in `[0, m)` for a positive `m`, as `rand()` is not
negative. -/
theorem tmod_rand_bounds (r : Nat) (m : Int) (hm : 0 < m) :
    0 ≤ Int.tmod (r : Int) m ∧ Int.tmod (r : Int) m < m := by
  rw [Int.tmod_eq_emod (Int.ofNat_nonneg r) (le_of_lt hm)]
  exact ⟨Int.emod_nonneg _ (ne_of_gt hm), Int.emod_lt_of_pos _ hm⟩

/-! ## Combat damage -/

theorem playerAttackDamage_fst (enemy : Enemy) (g : Game) :
    (playerAttackDamage enemy g).1 =
      (if g.player.attack - Int.tdiv enemy.defense 2 < 1 then 1
        else g.player.attack - Int.tdiv enemy.defense 2)
      + (-2 + Int.tmod (g.randStream g.randCalls : Nat) 8) :=
  rfl

theorem playerAttack_hp (enemy : Enemy) (g : Game) :
    (playerAttack enemy g).1.hp =
      if enemy.hp - (playerAttackDamage enemy g).1 < 0 then 0
      else enemy.hp - (playerAttackDamage enemy g).1 :=
  rfl

theorem enemyAttackDamage_fst (enemy : Enemy) (g : Game) :
    (enemyAttackDamage enemy g).1 =
      (if enemy.attack - Int.tdiv g.player.defense 2 < 1 then 1
        else enemy.attack - Int.tdiv g.player.defense 2)
      + (-2 + Int.tmod (g.randStream g.randCalls : Nat) 6) :=
  rfl

theorem enemyAttack_hp (enemy : Enemy) (g : Game) :
    (enemyAttack enemy g).player.hp =
      if g.player.hp - (enemyAttackDamage enemy g).1 < 0 then 0
      else g.player.hp - (enemyAttackDamage enemy g).1 :=
  rfl

/-- Both attacks deal at least `-1`: the floor of 1 comes before the variance. -/
theorem attackDamage_ge (enemy : Enemy) (g : Game) :
    -1 ≤ (playerAttackDamage enemy g).1 ∧ -1 ≤ (enemyAttackDamage enemy g).1 := by
  have h8 := tmod_rand_bounds (g.randStream g.randCalls) 8 (by norm_num)
  have h6 := tmod_rand_bounds (g.randStream g.randCalls) 6 (by norm_num)
  rw [playerAttackDamage_fst, enemyAttackDamage_fst]
  constructor <;> split_ifs <;> omega

/-- What the attacks do keep: from hp in `[0, maxHp]` the hp after an attack is never
below 0 and at most `maxHp + 1`, and the maxHp is not touched. -/
theorem attack_hp_bounds (enemy : Enemy) (g : Game)
    (he : 0 ≤ enemy.hp ∧ enemy.hp ≤ enemy.maxHp)
    (hp : 0 ≤ g.player.hp ∧ g.player.hp ≤ g.player.maxHp) :
    (0 ≤ (playerAttack enemy g).1.hp ∧ (playerAttack enemy g).1.hp ≤ enemy.maxHp + 1 ∧
      (playerAttack enemy g).1.maxHp = enemy.maxHp) ∧
    (0 ≤ (enemyAttack enemy g).player.hp ∧
      (enemyAttack enemy g).player.hp ≤ g.player.maxHp + 1 ∧
      (enemyAttack enemy g).player.maxHp = g.player.maxHp) := by
  have hd := attackDamage_ge enemy g
  rw [playerAttack_hp, enemyAttack_hp]
  refine ⟨⟨?_, ?_, rfl⟩, ⟨?_, ?_, rfl⟩⟩ <;> split_ifs <;> omega

/-- C1, evaluated where the code leaves the range: a new player (attack 10) hits a fresh
Dragon (defense 20, hp 300 of 300) with the generator returning 0; the damage is
`max(1, 10 - 10) + (-2) = -1`, and `playerAttack` leaves the Dragon at hp 301, above its
maxHp 300. In the same way a Slime (attack 5) hits a level-5 player at full hp 180
(defense 13) for `max(1, 5 - 6) + (-2) = -1`, and `enemyAttack` leaves the player at
hp 181, above maxHp 180. -/
theorem attack_exceeds_maxHp :
    (createEnemy .DRAGON).hp = 300 ∧ (createEnemy .DRAGON).maxHp = 300 ∧
    (playerAttackDamage (createEnemy .DRAGON) (sampleGame 0)).1 = -1 ∧
    (playerAttack (createEnemy .DRAGON) (sampleGame 0)).1.hp = 301 ∧
    (playerAttack (createEnemy .DRAGON) (sampleGame 0)).1.maxHp = 300 ∧
    (levelUp (levelUp (levelUp (levelUp (createCharacter "Hero"))))).hp = 180 ∧
    (levelUp (levelUp (levelUp (levelUp (createCharacter "Hero"))))).maxHp = 180 ∧
    (enemyAttack (createEnemy .SLIME)
      { sampleGame 0 with
        player := levelUp (levelUp (levelUp (levelUp (createCharacter "Hero")))) }).player.hp
      = 181 ∧
    (enemyAttack (createEnemy .SLIME)
      { sampleGame 0 with
        player := levelUp (levelUp (levelUp (levelUp (createCharacter "Hero")))) }).player.maxHp
      = 180 := by
  decide

/-- C2: the damage that `playerAttack` takes off the enemy is
`max(1, attack - defense / 2) + v` with `/` the truncating division and
`v = -2 + rand() % 8` in `[-2, 5]`; the part before the variance is at least 1; the
enemy is left at `max(0, hp - damage)`; with attack 10 against defense 2 the part before
the variance is 9 and the damage lies in `[7, 14]`. -/
theorem playerAttack_damage_formula (enemy : Enemy) (g : Game) :
    (∃ v : Int, -2 ≤ v ∧ v ≤ 5 ∧
      (playerAttackDamage enemy g).1
        = max 1 (g.player.attack - Int.tdiv enemy.defense 2) + v) ∧
    1 ≤ max 1 (g.player.attack - Int.tdiv enemy.defense 2) ∧
    (playerAttack enemy g).1.hp = max 0 (enemy.hp - (playerAttackDamage enemy g).1) ∧
    max 1 ((10 : Int) - Int.tdiv 2 2) = 9 ∧
    7 ≤ (playerAttackDamage { enemy with defense := 2 }
          { g with player := { g.player with attack := 10 } }).1 ∧
    (playerAttackDamage { enemy with defense := 2 }
          { g with player := { g.player with attack := 10 } }).1 ≤ 14 := by
  have hr := tmod_rand_bounds (g.randStream g.randCalls) 8 (by norm_num)
  refine ⟨⟨-2 + Int.tmod (g.randStream g.randCalls : Nat) 8, by omega, by omega, ?_⟩,
    le_max_left _ _, ?_, by decide, ?_, ?_⟩
  · rw [playerAttackDamage_fst]
    congr 1
    split_ifs with h
    · exact (max_eq_left (by omega)).symm
    · exact (max_eq_right (by omega)).symm
  · rw [playerAttack_hp]
    split_ifs with h
    · exact (max_eq_left (by omega)).symm
    · exact (max_eq_right (by omega)).symm
  · rw [playerAttackDamage_fst]
    have : Int.tdiv (2 : Int) 2 = 1 := by decide
    simp only [this]
    norm_num
    omega
  · rw [playerAttackDamage_fst]
    have : Int.tdiv (2 : Int) 2 = 1 := by decide
    simp only [this]
    norm_num
    omega

/-! ## Experience and levels -/

theorem gainExperienceLoop_of_lt (p : Player) (h : p.exp < 100 * p.level) :
    gainExperienceLoop p = p := by
  rw [gainExperienceLoop, if_neg (by omega)]

theorem gainExperienceLoop_of_ge (p : Player) (hl : 1 ≤ p.level)
    (h : p.exp ≥ 100 * p.level) : gainExperienceLoop p = levelUp p := by
  rw [gainExperienceLoop, if_pos h]
  apply gainExperienceLoop_of_lt
  simp only [levelUp]
  omega

/-- At a level `≥ 1` the loop of `gainExperience` makes no pass or exactly one. -/
theorem gainExperience_eq (amount : Int) (p : Player) (hl : 1 ≤ p.level) :
    gainExperience amount p =
      if p.exp + amount ≥ 100 * p.level then levelUp { p with exp := p.exp + amount }
      else { p with exp := p.exp + amount } := by
  unfold gainExperience
  split_ifs with h
  · exact gainExperienceLoop_of_ge _ hl h
  · exact gainExperienceLoop_of_lt _ (by simpa using h)

/-- The function `levelUp` forgets the experience it is given. -/
theorem levelUp_exp_irrelevant (p : Player) (e : Int) :
    levelUp { p with exp := e } = levelUp p :=
  rfl

/-- C3 fails as stated: from a new player (level 1, exp 0), `gainExperience(100)` and then
`gainExperience(200)` end at level 3, while `gainExperience(300)` ends at level 2. -/
theorem gainExperience_split_differs :
    1 ≤ (createCharacter "Hero").level ∧ 0 ≤ (createCharacter "Hero").exp ∧
    (0 : Int) ≤ 100 ∧ (0 : Int) ≤ 200 ∧
    (gainExperience 200 (gainExperience 100 (createCharacter "Hero"))).level = 3 ∧
    (gainExperience (100 + 200) (createCharacter "Hero")).level = 2 ∧
    ¬ sameProgress (gainExperience 200 (gainExperience 100 (createCharacter "Hero")))
        (gainExperience (100 + 200) (createCharacter "Hero")) := by
  have h1 : gainExperience 100 (createCharacter "Hero")
      = levelUp (createCharacter "Hero") := by
    rw [gainExperience_eq _ _ (by decide)]; decide
  have h2 : gainExperience 200 (levelUp (createCharacter "Hero"))
      = levelUp (levelUp (createCharacter "Hero")) := by
    rw [gainExperience_eq _ _ (by decide)]; decide
  have h3 : gainExperience (100 + 200) (createCharacter "Hero")
      = levelUp (createCharacter "Hero") := by
    rw [gainExperience_eq _ _ (by decide)]; decide
  rw [h1, h2, h3]
  decide

/-- C3 as amended: for a player with level ≥ 1 and amounts `a` and `b ≥ 0` (so also for
exp ≥ 0 and `a ≥ 0`), `gainExperience(a)` followed by `gainExperience(b)` agrees with
`gainExperience(a + b)` on level, exp and the six stats exactly when the first call does
not level up (`exp + a < 100 × level`) or `b = 0`. -/
theorem gainExperience_split_iff (p : Player) (a b : Int) (hl : 1 ≤ p.level)
    (hb : 0 ≤ b) :
    sameProgress (gainExperience b (gainExperience a p)) (gainExperience (a + b) p)
      ↔ (p.exp + a < 100 * p.level ∨ b = 0) := by
  by_cases h : p.exp + a ≥ 100 * p.level
  · have hq : gainExperience a p = levelUp p := by
      rw [gainExperience_eq _ _ hl, if_pos h, levelUp_exp_irrelevant]
    have hs : gainExperience (a + b) p = levelUp p := by
      rw [gainExperience_eq _ _ hl, if_pos (by omega), levelUp_exp_irrelevant]
    have hl2 : 1 ≤ (levelUp p).level := by simp only [levelUp]; omega
    rw [hq, hs, gainExperience_eq _ _ hl2]
    have hexp : (levelUp p).exp = 0 := rfl
    have hlev : (levelUp p).level = p.level + 1 := rfl
    split_ifs with hb2
    · constructor
      · intro hsame
        have := hsame.1
        simp only [levelUp] at this
        omega
      · rintro (h1 | h1)
        · omega
        · rw [hexp, hlev] at hb2; omega
    · constructor
      · intro hsame
        have := hsame.2.1
        simp only [levelUp] at this
        omega
      · rintro (h1 | h1)
        · omega
        · subst h1
          simp [sameProgress, levelUp]
  · have hq : gainExperience a p = { p with exp := p.exp + a } := by
      rw [gainExperience_eq _ _ hl, if_neg h]
    have : gainExperience b { p with exp := p.exp + a } = gainExperience (a + b) p := by
      unfold gainExperience
      simp only [add_assoc]
    rw [hq, this]
    constructor
    · intro _; left; omega
    · intro _; exact ⟨rfl, rfl, rfl, rfl, rfl, rfl, rfl, rfl⟩

theorem gainExperience_split_iff_witness :
    1 ≤ (createCharacter "Hero").level ∧ (0 : Int) ≤ 70 ∧
    (sameProgress (gainExperience 70 (gainExperience 40 (createCharacter "Hero")))
        (gainExperience (40 + 70) (createCharacter "Hero"))
      ↔ ((createCharacter "Hero").exp + 40 < 100 * (createCharacter "Hero").level
          ∨ (70 : Int) = 0)) :=
  ⟨by decide, by decide,
    gainExperience_split_iff (createCharacter "Hero") 40 70 (by decide) (by decide)⟩

/-- C4 fails as stated: a new player (level 1, exp 0) who gains 250 experience in one call
is not at level 3. -/
theorem gainExperience_250_not_level_3 :
    (createCharacter "Hero").level = 1 ∧ (createCharacter "Hero").exp = 0 ∧
    (gainExperience 250 (createCharacter "Hero")).level ≠ 3 := by
  rw [gainExperience_eq _ _ (by decide)]
  decide

/-- C4 as amended: starting from a level-1 player with exp 0, a single call
`gainExperience(250)` ends with the player at level 2, with exp 0. -/
theorem gainExperience_250_level_2 (p : Player) (hl : p.level = 1) (he : p.exp = 0) :
    (gainExperience 250 p).level = 2 ∧ (gainExperience 250 p).exp = 0 := by
  rw [gainExperience_eq _ _ (by omega), if_pos (by omega)]
  exact ⟨by simp only [levelUp]; omega, rfl⟩

theorem gainExperience_250_level_2_witness :
    (createCharacter "Hero").level = 1 ∧ (createCharacter "Hero").exp = 0 ∧
    (gainExperience 250 (createCharacter "Hero")).level = 2 ∧
    (gainExperience 250 (createCharacter "Hero")).exp = 0 :=
  ⟨rfl, rfl, gainExperience_250_level_2 (createCharacter "Hero") rfl rfl⟩

/-- C5: for a player with level ≥ 1 and any amount, `gainExperience(amount)` raises the
level if and only if `exp + amount ≥ 100 × level`; and either it raises the level, or the
resulting player is the old one with `exp + amount` for exp and nothing else changed. -/
theorem gainExperience_raises_iff (p : Player) (amount : Int) (hl : 1 ≤ p.level) :
    (p.level < (gainExperience amount p).level ↔ p.exp + amount ≥ 100 * p.level) ∧
    (p.level < (gainExperience amount p).level
      ∨ gainExperience amount p = { p with exp := p.exp + amount }) := by
  rw [gainExperience_eq _ _ hl]
  split_ifs with h
  · have : p.level < (levelUp { p with exp := p.exp + amount }).level := by
      simp only [levelUp]; omega
    exact ⟨⟨fun _ => h, fun _ => this⟩, Or.inl this⟩
  · exact ⟨⟨fun hlt => absurd hlt (lt_irrefl _), fun hge => absurd hge h⟩, Or.inr rfl⟩

theorem gainExperience_raises_iff_witness :
    1 ≤ (createCharacter "Hero").level ∧
    ((createCharacter "Hero").level < (gainExperience 30 (createCharacter "Hero")).level
      ↔ (createCharacter "Hero").exp + 30 ≥ 100 * (createCharacter "Hero").level) ∧
    ((createCharacter "Hero").level < (gainExperience 30 (createCharacter "Hero")).level
      ∨ gainExperience 30 (createCharacter "Hero")
        = { createCharacter "Hero" with exp := (createCharacter "Hero").exp + 30 }) :=
  ⟨by decide, gainExperience_raises_iff (createCharacter "Hero") 30 (by decide)⟩

/-- C6: `levelUp` adds 1 to level, sets exp to 0, adds 20 to maxHp, 10 to maxMp, 3 to
attack and 2 to defense, sets hp to the new maxHp and mp to the new maxMp, and leaves
name, gold, x and y as they are. -/
theorem levelUp_effect (p : Player) :
    levelUp p =
      { name := p.name
        hp := p.maxHp + 20
        maxHp := p.maxHp + 20
        mp := p.maxMp + 10
        maxMp := p.maxMp + 10
        attack := p.attack + 3
        defense := p.defense + 2
        level := p.level + 1
        exp := 0
        gold := p.gold
        x := p.x
        y := p.y } :=
  rfl

/-! ## Inventory -/

theorem stackOnExisting_none (item : Item) (inventory : List Item)
    (h : ∀ entry ∈ inventory, entry.name ≠ item.name) :
    stackOnExisting item inventory = none := by
  induction inventory with
  | nil => rfl
  | cons entry rest ih =>
    have h1 : entry.name ≠ item.name := h entry (List.mem_cons_self _ _)
    have h2 := ih (fun e he => h e (List.mem_cons_of_mem _ he))
    simp only [stackOnExisting, if_neg h1, h2]

theorem stackOnExisting_some (item : Item) (inventory : List Item)
    (h : ∃ entry ∈ inventory, entry.name = item.name) :
    ∃ before entry after,
      inventory = before ++ entry :: after ∧
      (∀ e ∈ before, e.name ≠ item.name) ∧
      entry.name = item.name ∧
      stackOnExisting item inventory
        = some (before ++ { entry with quantity := entry.quantity + item.quantity } :: after) := by
  induction inventory with
  | nil =>
    obtain ⟨e, he, _⟩ := h
    cases he
  | cons first rest ih =>
    by_cases hf : first.name = item.name
    · refine ⟨[], first, rest, rfl, ?_, hf, ?_⟩
      · intro e he; cases he
      · simp only [stackOnExisting, if_pos hf, List.nil_append]
    · have hrest : ∃ entry ∈ rest, entry.name = item.name := by
        obtain ⟨e, he, hn⟩ := h
        rcases List.mem_cons.1 he with heq | hmem
        · exact absurd (heq ▸ hn) hf
        · exact ⟨e, hmem, hn⟩
      obtain ⟨before, entry, after, hsplit, hbefore, hname, hstack⟩ := ih hrest
      refine ⟨first :: before, entry, after, ?_, ?_, hname, ?_⟩
      · rw [hsplit, List.cons_append]
      · intro e he
        rcases List.mem_cons.1 he with heq | hmem
        · exact heq ▸ hf
        · exact hbefore e hmem
      · simp only [stackOnExisting, if_neg hf, hstack, List.cons_append]

/-- Whatever the search loop finds, it is either nothing (then no entry has the name) or
a list with the same names in the same places, and the same length. -/
theorem stackOnExisting_cases (item : Item) (inventory : List Item) :
    (stackOnExisting item inventory = none ∧ ∀ entry ∈ inventory, entry.name ≠ item.name) ∨
    (∃ stacked, stackOnExisting item inventory = some stacked ∧
      stacked.map Item.name = inventory.map Item.name ∧
      stacked.length = inventory.length) := by
  by_cases h : ∃ entry ∈ inventory, entry.name = item.name
  · obtain ⟨before, entry, after, hsplit, _, _, hstack⟩ := stackOnExisting_some item inventory h
    refine Or.inr ⟨_, hstack, ?_, ?_⟩
    · rw [hsplit]; simp only [List.map_append, List.map_cons]
    · rw [hsplit]; simp only [List.length_append, List.length_cons]
  · have h1 : ∀ entry ∈ inventory, entry.name ≠ item.name :=
      fun e he hn => h ⟨e, he, hn⟩
    exact Or.inl ⟨stackOnExisting_none item inventory h1, h1⟩

theorem addItemToInventory_names_nodup (item : Item) (inventory : List Item)
    (h : (inventory.map Item.name).Nodup) :
    ((addItemToInventory item inventory).map Item.name).Nodup := by
  unfold addItemToInventory
  rcases stackOnExisting_cases item inventory with ⟨hnone, hnew⟩ | ⟨stacked, hsome, hnames, _⟩
  · rw [hnone]
    dsimp only
    split_ifs
    · rw [List.map_append, List.map_cons, List.map_nil]
      refine List.Nodup.append h (List.nodup_singleton _) ?_
      intro n hn hn1
      obtain ⟨e, he, hen⟩ := List.mem_map.1 hn
      rw [List.mem_singleton] at hn1
      exact hnew e he (hen.trans hn1)
    · exact h
  · rw [hsome]
    dsimp only
    rw [hnames]
    exact h

theorem addItemToInventory_length_le (item : Item) (inventory : List Item)
    (h : (inventory.length : Int) ≤ MAX_INVENTORY) :
    ((addItemToInventory item inventory).length : Int) ≤ MAX_INVENTORY := by
  unfold addItemToInventory
  rcases stackOnExisting_cases item inventory with ⟨hnone, _⟩ | ⟨stacked, hsome, _, hlen⟩
  · rw [hnone]
    dsimp only
    split_ifs with hlt
    · rw [List.length_append, List.length_singleton]
      push_cast
      omega
    · exact h
  · rw [hsome]
    dsimp only
    rw [hlen]
    exact h

theorem map_name_set (inventory : List Item) (i : Nat) (item item1 : Item)
    (hget : inventory[i]? = some item) (hname : item1.name = item.name) :
    (inventory.set i item1).map Item.name = inventory.map Item.name := by
  induction inventory generalizing i with
  | nil => rfl
  | cons first rest ih =>
    cases i with
    | zero =>
      simp only [List.getElem?_cons_zero, Option.some.injEq] at hget
      simp only [List.set_cons_zero, List.map_cons, hname, hget]
    | succ j =>
      simp only [List.getElem?_cons_succ] at hget
      simp only [List.set_cons_succ, List.map_cons, ih j hget]

/-- The end of `useItem` leaves a list whose names are a sublist of the old names. -/
theorem consumeItem_names_sublist (inventory : List Item) (i : Nat) (item : Item)
    (hget : inventory[i]? = some item) :
    List.Sublist ((consumeItem i item inventory).map Item.name) (inventory.map Item.name) := by
  unfold consumeItem
  dsimp only
  split_ifs
  · exact (List.eraseIdx_sublist inventory i).map Item.name
  · rw [map_name_set inventory i item { item with quantity := item.quantity - 1 } hget rfl]

theorem consumeItem_length_le (inventory : List Item) (i : Nat) (item : Item) :
    (consumeItem i item inventory).length ≤ inventory.length := by
  unfold consumeItem
  dsimp only
  split_ifs
  · exact List.length_eraseIdx_le inventory i
  · rw [List.length_set]

/-- What `useItem` does to the inventory: nothing, or the end of `useItem` at an entry
that is in the list. -/
theorem useItem_inventory (index : Int) (g : Game) :
    (useItem index g).2.inventory = g.inventory ∨
    ∃ item, g.inventory[index.toNat]? = some item ∧
      (useItem index g).2.inventory = consumeItem index.toNat item g.inventory := by
  unfold useItem
  split_ifs with h
  · exact Or.inl rfl
  · cases hget : g.inventory[index.toNat]? with
    | none => exact Or.inl rfl
    | some item =>
      cases htype : item.type <;> simp only [htype]
      · exact Or.inr ⟨item, rfl, rfl⟩
      · exact Or.inr ⟨item, rfl, rfl⟩
      · exact Or.inl trivial
      · exact Or.inl trivial
      · exact Or.inl trivial

theorem bubblePass_perm (count : Nat) (inventory : List Item) :
    (bubblePass count inventory).Perm inventory := by
  induction count, inventory using bubblePass.induct with
  | case1 inventory => rw [bubblePass]
  | case2 n => rw [bubblePass]
  | case3 n a => rw [bubblePass]
  | case4 count a b rest hgt ih =>
    rw [bubblePass, if_pos hgt]
    exact ((ih.cons b).trans (List.Perm.swap a b rest))
  | case5 count a b rest hgt ih =>
    rw [bubblePass, if_neg hgt]
    exact ih.cons a

theorem foldl_bubblePass_perm (n : Nat) (steps : List Nat) (inventory : List Item) :
    (steps.foldl (fun inv i => bubblePass (n - i - 1) inv) inventory).Perm inventory := by
  induction steps generalizing inventory with
  | nil => exact List.Perm.refl _
  | cons i rest ih =>
    rw [List.foldl_cons]
    exact (ih _).trans (bubblePass_perm _ _)

theorem sortInventoryByName_perm (inventory : List Item) :
    (sortInventoryByName inventory).Perm inventory :=
  foldl_bubblePass_perm _ _ _

/-- C7: when some entry has the name of `item`, `addItemToInventory` keeps the number of
entries, and the inventory splits as `before ++ entry :: after` with `entry` the first
entry of that name, such that the result is the same list with only the quantity of
`entry` raised by `item.quantity`: its name, type and value, its place, and all other
entries are as before. -/
theorem addItemToInventory_stacks (inventory : List Item) (item : Item)
    (h : ∃ entry ∈ inventory, entry.name = item.name) :
    (addItemToInventory item inventory).length = inventory.length ∧
    ∃ before entry after,
      inventory = before ++ entry :: after ∧
      (∀ e ∈ before, e.name ≠ item.name) ∧
      entry.name = item.name ∧
      addItemToInventory item inventory
        = before ++ { name := entry.name, type := entry.type, value := entry.value,
                      quantity := entry.quantity + item.quantity } :: after := by
  obtain ⟨before, entry, after, hsplit, hbefore, hname, hstack⟩ :=
    stackOnExisting_some item inventory h
  have hres : addItemToInventory item inventory
      = before ++ { name := entry.name, type := entry.type, value := entry.value,
                    quantity := entry.quantity + item.quantity } :: after := by
    unfold addItemToInventory
    rw [hstack]
  refine ⟨?_, before, entry, after, hsplit, hbefore, hname, hres⟩
  rw [hres, hsplit]
  simp only [List.length_append, List.length_cons]

theorem addItemToInventory_stacks_witness :
    (∃ entry ∈ (sampleGame 0).inventory, entry.name = healthPotionDrop.name) ∧
    (addItemToInventory healthPotionDrop (sampleGame 0).inventory).length
      = (sampleGame 0).inventory.length ∧
    ∃ before entry after,
      (sampleGame 0).inventory = before ++ entry :: after ∧
      (∀ e ∈ before, e.name ≠ healthPotionDrop.name) ∧
      entry.name = healthPotionDrop.name ∧
      addItemToInventory healthPotionDrop (sampleGame 0).inventory
        = before ++ { name := entry.name, type := entry.type, value := entry.value,
                      quantity := entry.quantity + healthPotionDrop.quantity } :: after :=
  ⟨⟨_, List.mem_cons_self _ _, rfl⟩,
    addItemToInventory_stacks (sampleGame 0).inventory healthPotionDrop
      ⟨_, List.mem_cons_self _ _, rfl⟩⟩

/-- C8: if no two entries of the inventory share a name, then no two entries share a name
after `addItemToInventory` (any item), after `useItem` (any index) and after
`sortInventoryByName`. -/
theorem names_nodup_preserved (g : Game) (item : Item) (index : Int)
    (h : (g.inventory.map Item.name).Nodup) :
    ((addItemToInventory item g.inventory).map Item.name).Nodup ∧
    ((useItem index g).2.inventory.map Item.name).Nodup ∧
    ((sortInventoryByName g.inventory).map Item.name).Nodup := by
  refine ⟨addItemToInventory_names_nodup item g.inventory h, ?_, ?_⟩
  · rcases useItem_inventory index g with hsame | ⟨entry, hget, hres⟩
    · rw [hsame]; exact h
    · rw [hres]
      exact (consumeItem_names_sublist g.inventory _ entry hget).nodup h
  · exact (((sortInventoryByName_perm g.inventory).map Item.name).nodup_iff).2 h

theorem names_nodup_preserved_witness :
    ((sampleGame 0).inventory.map Item.name).Nodup ∧
    ((addItemToInventory manaPotion (sampleGame 0).inventory).map Item.name).Nodup ∧
    ((useItem 0 (sampleGame 0)).2.inventory.map Item.name).Nodup ∧
    ((sortInventoryByName (sampleGame 0).inventory).map Item.name).Nodup :=
  ⟨by decide,
    names_nodup_preserved (sampleGame 0)
      manaPotion 0
      (by decide)⟩

/-- C9: from an inventory of at most `MAX_INVENTORY = 20` entries, `addItemToInventory`
(any item), `useItem` (any index) and `sortInventoryByName` leave at most 20 entries; and
adding an item whose name no entry has to an inventory of 20 entries leaves the
inventory as it is. -/
theorem inventory_size_bounded (g : Game) (item : Item) (index : Int)
    (h : (g.inventory.length : Int) ≤ MAX_INVENTORY) :
    MAX_INVENTORY = 20 ∧
    ((addItemToInventory item g.inventory).length : Int) ≤ MAX_INVENTORY ∧
    ((useItem index g).2.inventory.length : Int) ≤ MAX_INVENTORY ∧
    ((sortInventoryByName g.inventory).length : Int) ≤ MAX_INVENTORY ∧
    (g.inventory.length = 20 → (∀ entry ∈ g.inventory, entry.name ≠ item.name) →
      addItemToInventory item g.inventory = g.inventory) := by
  refine ⟨rfl, addItemToInventory_length_le item g.inventory h, ?_, ?_, ?_⟩
  · rcases useItem_inventory index g with hsame | ⟨entry, _, hres⟩
    · rw [hsame]; exact h
    · rw [hres]
      have := consumeItem_length_le g.inventory index.toNat entry
      omega
  · rw [(sortInventoryByName_perm g.inventory).length_eq]
    exact h
  · intro hfull hnew
    unfold addItemToInventory
    rw [stackOnExisting_none item g.inventory hnew]
    dsimp only
    rw [if_neg]
    rw [hfull]
    decide

theorem inventory_size_bounded_witness :
    (({ sampleGame 0 with inventory := fullInventory } : Game).inventory.length : Int)
      ≤ MAX_INVENTORY ∧
    ((useItem 3 { sampleGame 0 with inventory := fullInventory }).2.inventory.length : Int)
      ≤ MAX_INVENTORY ∧
    addItemToInventory healthPotionDrop fullInventory = fullInventory :=
  ⟨by decide,
    (inventory_size_bounded { sampleGame 0 with inventory := fullInventory }
      healthPotionDrop 3
      (by decide)).2.2.1,
    (inventory_size_bounded { sampleGame 0 with inventory := fullInventory }
      healthPotionDrop 3
      (by decide)).2.2.2.2 (by decide) (by decide)⟩

/-! ## The combat loop -/

/-- A pass that ends the call gives the result of `startCombat`. -/
theorem startCombat_finished (enemy : Enemy) (g : Game) (input : Input)
    (result : Run (Bool × Enemy)) (h : combatTurn enemy g input = .finished result) :
    startCombat enemy g input = result := by
  rw [startCombat]
  split
  · rename_i result1 h1
    rw [h] at h1
    cases h1
    rfl
  · rename_i enemy1 g1 input1 h1
    rw [h] at h1
    cases h1

/-- A pass that does not end the call is followed by the loop on the state it leaves. -/
theorem startCombat_again (enemy enemy1 : Enemy) (g g1 : Game) (input input1 : Input)
    (h : combatTurn enemy g input = .again enemy1 g1 input1) :
    startCombat enemy g input = startCombat enemy1 g1 input1 := by
  rw [startCombat]
  split
  · rename_i result1 h1
    rw [h] at h1
    cases h1
  · rename_i enemy2 g2 input2 h1
    rw [h] at h1
    cases h1
    rfl

/-! ## Movement -/

/-- C10: when the cell that `movePlayer` computes for the direction is on the map and is
WATER, `movePlayer` returns with the whole game state as it was (player with its
position, inventory, map) and with the generator not called (`randCalls` as it was, so
no encounter roll); no input is read. -/
theorem movePlayer_water (g : Game) (input : Input) (direction : Char) (newX newY : Int)
    (htarget : moveTarget direction g.player = some (newX, newY))
    (hx : 0 ≤ newX ∧ newX < MAP_SIZE) (hy : 0 ≤ newY ∧ newY < MAP_SIZE)
    (hwater : g.worldMap newX newY = .WATER) :
    movePlayer direction g input = .returned () g input := by
  unfold movePlayer
  rw [htarget]
  dsimp only
  rw [if_neg (by omega), if_pos hwater]

theorem movePlayer_water_witness :
    moveTarget 'w' waterGame.player = some (4, 5) ∧
    ((0 : Int) ≤ 4 ∧ (4 : Int) < MAP_SIZE) ∧ ((0 : Int) ≤ 5 ∧ (5 : Int) < MAP_SIZE) ∧
    waterGame.worldMap 4 5 = .WATER ∧
    movePlayer 'w' waterGame [[some 1]] = .returned () waterGame [[some 1]] :=
  ⟨by decide, by decide, by decide, by decide,
    movePlayer_water waterGame [[some 1]] 'w' 4 5 (by decide) (by decide) (by decide)
      (by decide)⟩

/-! ## World map -/

/-- A loop whose body keeps a part of the game state keeps it. -/
theorem foldl_keeps {β : Type} (part : Game → β) (body : Game → Nat → Game)
    (hbody : ∀ g a, part (body g a) = part g) (steps : List Nat) (g : Game) :
    part (steps.foldl body g) = part g := by
  induction steps generalizing g with
  | nil => rfl
  | cons a rest ih => rw [List.foldl_cons, ih, hbody]

/-- The nested loops that fill the map keep any part of the state that `fillCell`
keeps. -/
theorem fillLoops_keeps {β : Type} (part : Game → β)
    (hcell : ∀ i j g, part (fillCell i j g) = part g) (rows cols : List Nat) (g : Game) :
    part (rows.foldl (fun g1 i => cols.foldl (fun g2 j => fillCell i j g2) g1) g)
      = part g :=
  foldl_keeps part (fun g1 i => cols.foldl (fun g2 j => fillCell i j g2) g1)
    (fun g1 i => foldl_keeps part (fun g2 j => fillCell i j g2) (fun g2 j => hcell i j g2)
      cols g1)
    rows g

/-- Filling the map touches the map and the generator only. -/
theorem initializeWorldMap_player_inventory (g : Game) :
    (initializeWorldMap g).player = g.player ∧
    (initializeWorldMap g).inventory = g.inventory := by
  have hp := fillLoops_keeps Game.player (fun _ _ _ => rfl) (List.range 10) (List.range 10) g
  have hi := fillLoops_keeps Game.inventory (fun _ _ _ => rfl) (List.range 10)
    (List.range 10) g
  unfold initializeWorldMap
  exact ⟨hp, hi⟩

/-- The three special cells of a new map. -/
theorem initializeWorldMap_special (g : Game) :
    (initializeWorldMap g).worldMap 5 5 = .VILLAGE ∧
    (initializeWorldMap g).worldMap 0 0 = .DUNGEON ∧
    (initializeWorldMap g).worldMap 9 9 = .BOSS_ROOM := by
  simp [initializeWorldMap, setCell]

/-! ## Save files -/

theorem digitChar_facts (d : Nat) (h : d < 10) :
    (digitChar d).isDigit = true ∧ (digitChar d).toNat - 48 = d ∧
    isSpace (digitChar d) = false ∧ digitChar d ≠ '-' ∧ digitChar d ≠ '+' := by
  interval_cases d <;> decide

theorem readDigits_showNat (n : Nat) : ∀ (acc : Nat) (rest : List Char),
    readDigits acc (showNat n ++ rest)
      = readDigits (acc * 10 ^ (showNat n).length + n) rest := by
  induction n using Nat.strong_induction_on with
  | _ n ih =>
    intro acc rest
    rw [showNat]
    split_ifs with h
    · have hd := digitChar_facts n h
      simp only [List.singleton_append, List.length_singleton, pow_one, readDigits, hd.1,
        if_true, hd.2.1]
      rfl
    · have hd := digitChar_facts (n % 10) (Nat.mod_lt _ (by norm_num))
      rw [List.append_assoc, ih (n / 10) (by omega)]
      simp only [List.singleton_append, readDigits, hd.1, if_true, hd.2.1,
        List.length_append, List.length_singleton, pow_succ]
      congr 1
      have := Nat.div_add_mod n 10
      nlinarith [this]

theorem showNat_head (n : Nat) : ∃ d tail, d < 10 ∧ showNat n = digitChar d :: tail := by
  induction n using Nat.strong_induction_on with
  | _ n ih =>
    rw [showNat]
    split_ifs with h
    · exact ⟨n, [], h, rfl⟩
    · obtain ⟨d, tail, hd, heq⟩ := ih (n / 10) (by omega)
      exact ⟨d, tail ++ [digitChar (n % 10)], hd, by rw [heq]; rfl⟩

theorem readNumber_showNat (n : Nat) (c : Char) (rest : List Char) (hc : c.isDigit = false) :
    readNumber (showNat n ++ c :: rest) = some (n, c :: rest) := by
  obtain ⟨d, tail, hd, heq⟩ := showNat_head n
  have hfacts := digitChar_facts d hd
  have hread := readDigits_showNat n 0 (c :: rest)
  rw [heq] at hread ⊢
  simp only [List.cons_append, readNumber, hfacts.1, if_true]
  rw [List.cons_append] at hread
  rw [hread]
  simp [readDigits, hc]

theorem extractInt_showInt (n : Int) (c : Char) (rest : List Char) (hc : c.isDigit = false) :
    extractInt (showInt n ++ c :: rest) = some (n, c :: rest) := by
  unfold showInt
  split_ifs with hneg
  · have hminus : isSpace '-' = false := by decide
    rw [List.cons_append, extractInt]
    simp only [hminus, Bool.false_eq_true, if_false, if_true, readNumber_showNat _ c rest hc]
    congr 2
    omega
  · obtain ⟨d, tail, hd, heq⟩ := showNat_head n.toNat
    have hfacts := digitChar_facts d hd
    have hnum := readNumber_showNat n.toNat c rest hc
    rw [heq] at hnum ⊢
    rw [List.cons_append] at hnum ⊢
    rw [extractInt]
    simp only [hfacts.2.2.1, Bool.false_eq_true, if_false, hfacts.2.2.2.1, hfacts.2.2.2.2, hnum]
    congr 2
    omega

/-- A number is read back behind one blank or line feed, up to the next one. -/
theorem extractInt_separated (n : Int) (sep c : Char) (rest : List Char)
    (hsep : isSpace sep = true) (hc : c.isDigit = false) :
    extractInt (sep :: (showInt n ++ c :: rest)) = some (n, c :: rest) := by
  rw [extractInt, if_pos hsep]
  exact extractInt_showInt n c rest hc

theorem splitLine_line (line rest : List Char) (h : '\n' ∉ line) :
    splitLine (line ++ '\n' :: rest) = (line, rest) := by
  induction line with
  | nil => simp [splitLine]
  | cons c cs ih =>
    have hc : c ≠ '\n' := fun heq => h (heq ▸ List.mem_cons_self _ _)
    have hcs : '\n' ∉ cs := fun hmem => h (List.mem_cons_of_mem _ hmem)
    simp only [List.cons_append, splitLine, if_neg hc]
    rw [show cs.append ('\n' :: rest) = cs ++ '\n' :: rest from rfl, ih hcs]

theorem getline_line (line rest : List Char) (h : '\n' ∉ line) :
    getline (line ++ '\n' :: rest) = some (line, rest) := by
  cases line with
  | nil => simp [getline, splitLine]
  | cons c cs =>
    rw [List.cons_append, getline, ← List.cons_append, splitLine_line _ _ h]

theorem itemTypeOfInt_tag (t : ItemType) : itemTypeOfInt (itemTypeTag t) = some t := by
  cases t <;> rfl

theorem loadItems_saveItems (items : List Item)
    (h : ∀ item ∈ items, '\n' ∉ item.name.toList) :
    loadItems items.length (saveItems items) = some (items, []) := by
  induction items with
  | nil => rfl
  | cons item rest ih =>
    have hname : '\n' ∉ item.name.toList := h item (List.mem_cons_self _ _)
    have hrest := ih (fun it hit => h it (List.mem_cons_of_mem _ hit))
    have hblank : (' ' : Char).isDigit = false := by decide
    have hfeed : ('\n' : Char).isDigit = false := by decide
    have hsp : isSpace ' ' = true := by decide
    simp only [List.length_cons, saveItems, loadItems, getline_line _ _ hname,
      extractInt_showInt _ _ _ hblank, extractInt_separated _ _ _ _ hsp hblank,
      extractInt_separated _ _ _ _ hsp hfeed, Option.bind_eq_bind, Option.some_bind,
      itemTypeOfInt_tag, List.drop_succ_cons, List.drop_zero, hrest]
    rfl

/-- C11: for a player and an inventory whose names contain no line feed, `loadGame` on
the text that `saveGame` writes succeeds, and the game it leaves has the same player
(name, hp, maxHp, mp, maxMp, attack, defense, level, exp, gold, x, y) and the same
inventory (every entry with its name, type, value and quantity, in the same order),
whatever the globals were before the load. -/
theorem loadGame_saveGame (g before : Game)
    (hplayer : '\n' ∉ g.player.name.toList)
    (hitems : ∀ item ∈ g.inventory, '\n' ∉ item.name.toList) :
    loadGame (saveGame g) before
      = some (initializeWorldMap { before with player := g.player, inventory := g.inventory }) ∧
    (initializeWorldMap { before with player := g.player, inventory := g.inventory }).player
      = g.player ∧
    (initializeWorldMap { before with player := g.player, inventory := g.inventory }).inventory
      = g.inventory := by
  have hblank : (' ' : Char).isDigit = false := by decide
  have hfeed : ('\n' : Char).isDigit = false := by decide
  have hsp : isSpace ' ' = true := by decide
  have hnl : isSpace '\n' = true := by decide
  have hcount : extractInt ('\n' :: (showNat g.inventory.length ++ '\n' :: saveItems g.inventory))
      = some ((g.inventory.length : Int), '\n' :: saveItems g.inventory) := by
    have := extractInt_separated (g.inventory.length : Int) '\n' '\n' (saveItems g.inventory)
      hnl hfeed
    simpa [showInt] using this
  refine ⟨?_, ?_, ?_⟩
  · simp only [saveGame, loadGame, getline_line _ _ hplayer,
      extractInt_showInt _ _ _ hblank, extractInt_separated _ _ _ _ hsp hblank,
      extractInt_separated _ _ _ _ hsp hfeed, extractInt_separated _ _ _ _ hnl hblank,
      extractInt_separated _ _ _ _ hnl hfeed, hcount, Int.toNat_ofNat, List.drop_succ_cons,
      List.drop_zero, loadItems_saveItems _ hitems]
    rfl
  · exact (initializeWorldMap_player_inventory _).1
  · exact (initializeWorldMap_player_inventory _).2

theorem loadGame_saveGame_witness :
    '\n' ∉ (sampleGame 0).player.name.toList ∧
    (∀ item ∈ (sampleGame 0).inventory, '\n' ∉ item.name.toList) ∧
    loadGame (saveGame (sampleGame 0)) waterGame
      = some (initializeWorldMap
          { waterGame with player := (sampleGame 0).player, inventory := (sampleGame 0).inventory }) ∧
    (initializeWorldMap
        { waterGame with player := (sampleGame 0).player, inventory := (sampleGame 0).inventory }).player
      = (sampleGame 0).player ∧
    (initializeWorldMap
        { waterGame with player := (sampleGame 0).player, inventory := (sampleGame 0).inventory }).inventory
      = (sampleGame 0).inventory :=
  ⟨by decide, by decide,
    loadGame_saveGame (sampleGame 0) waterGame (by decide) (by decide)⟩

/-! ## Frame facts for the combat loop -/

theorem gainExperienceLoop_frame (p : Player) :
    (gainExperienceLoop p).x = p.x ∧ (gainExperienceLoop p).y = p.y ∧
    (gainExperienceLoop p).name = p.name ∧ (gainExperienceLoop p).gold = p.gold := by
  induction p using gainExperienceLoop.induct with
  | case1 p h ih =>
    rw [gainExperienceLoop, if_pos h]
    exact ih
  | case2 p h =>
    rw [gainExperienceLoop, if_neg h]
    exact ⟨rfl, rfl, rfl, rfl⟩

theorem gainExperience_frame (amount : Int) (p : Player) :
    (gainExperience amount p).x = p.x ∧ (gainExperience amount p).y = p.y ∧
    (gainExperience amount p).name = p.name ∧ (gainExperience amount p).gold = p.gold :=
  gainExperienceLoop_frame { p with exp := p.exp + amount }

/-- The function `useItem` calls no `rand()`, leaves the map and the position alone, and
either changes nothing and returns false, or is used on a potion at a valid index. -/
theorem useItem_frame (index : Int) (g : Game) :
    (useItem index g).2.randCalls = g.randCalls ∧
    (useItem index g).2.randStream = g.randStream ∧
    (useItem index g).2.worldMap = g.worldMap ∧
    (useItem index g).2.player.x = g.player.x ∧
    (useItem index g).2.player.y = g.player.y ∧
    (useItem index g = (false, g) ∨
      ∃ item, 0 ≤ index ∧ g.inventory[index.toNat]? = some item ∧
        (item.type = .HEALTH_POTION ∨ item.type = .MANA_POTION) ∧
        (useItem index g).1 = true) := by
  unfold useItem
  split_ifs with h
  · exact ⟨rfl, rfl, rfl, rfl, rfl, Or.inl rfl⟩
  · cases hget : g.inventory[index.toNat]? with
    | none => exact ⟨rfl, rfl, rfl, rfl, rfl, Or.inl rfl⟩
    | some item =>
      obtain ⟨name, type, value, quantity⟩ := item
      cases type
      · exact ⟨rfl, rfl, rfl, rfl, rfl, Or.inr ⟨_, by omega, rfl, Or.inl rfl, rfl⟩⟩
      · exact ⟨rfl, rfl, rfl, rfl, rfl, Or.inr ⟨_, by omega, rfl, Or.inr rfl, rfl⟩⟩
      · exact ⟨rfl, rfl, rfl, rfl, rfl, Or.inl rfl⟩
      · exact ⟨rfl, rfl, rfl, rfl, rfl, Or.inl rfl⟩
      · exact ⟨rfl, rfl, rfl, rfl, rfl, Or.inl rfl⟩

/-- Induction along the passes of the combat loop. -/
theorem startCombat_induct (P : Enemy → Game → Input → Run (Bool × Enemy) → Prop)
    (hfinished : ∀ e g i r, combatTurn e g i = .finished r → P e g i r)
    (hagain : ∀ e g i e1 g1 i1, combatTurn e g i = .again e1 g1 i1 →
      P e1 g1 i1 (startCombat e1 g1 i1) → P e g i (startCombat e1 g1 i1))
    (enemy : Enemy) (g : Game) (input : Input) :
    P enemy g input (startCombat enemy g input) := by
  suffices hall : ∀ n e g i, inputSize i = n → P e g i (startCombat e g i) from
    hall _ enemy g input rfl
  intro n
  induction n using Nat.strong_induction_on with
  | _ n ih =>
    intro e g i hsize
    cases hturn : combatTurn e g i with
    | finished r =>
      rw [startCombat_finished _ _ _ _ hturn]
      exact hfinished _ _ _ _ hturn
    | again e1 g1 i1 =>
      rw [startCombat_again _ _ _ _ _ _ hturn]
      refine hagain _ _ _ _ _ _ hturn (ih (inputSize i1) ?_ e1 g1 i1 rfl)
      rw [← hsize]
      exact combatTurn_inputSize _ _ _ _ _ _ hturn

/-- What a pass of the combat loop that is followed by another keeps: the type of the
enemy, the position of the player and the map. -/
theorem combatTurn_again_frame (enemy enemy1 : Enemy) (g g1 : Game) (input input1 : Input)
    (h : combatTurn enemy g input = .again enemy1 g1 input1) :
    enemy1.type = enemy.type ∧ g1.player.x = g.player.x ∧ g1.player.y = g.player.y ∧
    g1.worldMap = g.worldMap := by
  have huse := fun index => useItem_frame index g
  unfold combatTurn at h
  cases hread : getValidatedInt 1 3 input with
  | none => rw [hread] at h; cases h
  | some read =>
    obtain ⟨choice, rest⟩ := read
    rw [hread] at h
    dsimp only at h
    cases hread2 : getValidatedInt 0 (g.inventory.length : Int) rest with
    | none =>
      rw [hread2] at h
      dsimp only at h
      split_ifs at h <;> cases h <;> exact ⟨rfl, rfl, rfl, rfl⟩
    | some read2 =>
      obtain ⟨itemIndex, rest2⟩ := read2
      rw [hread2] at h
      dsimp only at h
      split_ifs at h <;> cases h <;>
        first
          | exact ⟨rfl, rfl, rfl, rfl⟩
          | exact ⟨rfl, (huse _).2.2.2.1, (huse _).2.2.2.2.1, (huse _).2.2.1⟩

/-- What holds when a pass of the combat loop ends the call: input was read, the position
of the player is kept, and the result is false only for an enemy that is not the Shadow
Lord. -/
theorem combatTurn_finished_frame (enemy : Enemy) (g : Game) (input : Input)
    (result : Run (Bool × Enemy)) (h : combatTurn enemy g input = .finished result) :
    (∀ won e1 g1 rest, result = .returned (won, e1) g1 rest →
      inputSize rest < inputSize input ∧ g1.player.x = g.player.x ∧
      g1.player.y = g.player.y ∧ (won = false → enemy.type ≠ .SHADOW_LORD)) ∧
    (∀ g1, result = .exited g1 → g1.player.x = g.player.x ∧ g1.player.y = g.player.y) := by
  unfold combatTurn at h
  cases hread : getValidatedInt 1 3 input with
  | none =>
    rw [hread] at h
    cases h
    exact ⟨fun _ _ _ _ hr => (by cases hr), fun _ hr => (by cases hr)⟩
  | some read =>
    obtain ⟨choice, rest⟩ := read
    have hrest := getValidatedInt_inputSize 1 3 input choice rest hread
    rw [hread] at h
    dsimp only at h
    cases hread2 : getValidatedInt 0 (g.inventory.length : Int) rest with
    | none =>
      rw [hread2] at h
      dsimp only at h
      split_ifs at h with h1 h2 h3 h4 h5 h6 h7 h8 h9 h10 <;> cases h <;>
        refine ⟨fun _ _ _ _ hr => ?_, fun _ hr => ?_⟩ <;> cases hr <;>
        first
          | exact ⟨rfl, rfl⟩
          | exact ⟨hrest, (gainExperience_frame _ _).1, (gainExperience_frame _ _).2.1,
              fun hw => by cases hw⟩
          | exact ⟨hrest, rfl, rfl, fun _ => by assumption⟩
    | some read2 =>
      obtain ⟨itemIndex, rest2⟩ := read2
      rw [hread2] at h
      dsimp only at h
      split_ifs at h with h1 h2 h3 h4 h5 h6 h7 h8 h9 h10 <;> cases h <;>
        refine ⟨fun _ _ _ _ hr => ?_, fun _ hr => ?_⟩ <;> cases hr <;>
        first
          | exact ⟨rfl, rfl⟩
          | exact ⟨hrest, (gainExperience_frame _ _).1, (gainExperience_frame _ _).2.1,
              fun hw => by cases hw⟩
          | exact ⟨hrest, rfl, rfl, fun _ => by assumption⟩

/-! ## Claims about combat -/

/-- For an enemy that is the Shadow Lord, `startCombat` never returns false. -/
theorem startCombat_shadow_lord_not_fled (enemy : Enemy) (g : Game) (input : Input) :
    enemy.type = .SHADOW_LORD →
      ∀ e1 g1 rest, startCombat enemy g input ≠ .returned (false, e1) g1 rest := by
  refine startCombat_induct
    (fun e _ _ r => e.type = .SHADOW_LORD → ∀ e1 g1 rest, r ≠ .returned (false, e1) g1 rest)
    ?_ ?_ enemy g input
  · intro e g i r hturn htype e1 g1 rest hr
    exact ((combatTurn_finished_frame e g i r hturn).1 false e1 g1 rest hr).2.2.2 rfl htype
  · intro e g i e1 g1 i1 hturn ih htype
    exact ih ((combatTurn_again_frame e e1 g g1 i i1 hturn).1.trans htype)

/-- C12: when the enemy is the Shadow Lord and the choice read is 3 (Flee), the pass of
the combat loop ends with the same enemy and the same game state (player, inventory, and
the count of `rand()` calls, so no roll is made), and `startCombat` goes on with the next
choice on the rest of the input; the call does not end as fled, neither in this pass
nor later. -/
theorem flee_from_shadow_lord (enemy : Enemy) (g : Game) (input input1 : Input)
    (htype : enemy.type = .SHADOW_LORD)
    (hread : getValidatedInt 1 3 input = some (3, input1)) :
    combatTurn enemy g input = .again enemy g input1 ∧
    startCombat enemy g input = startCombat enemy g input1 ∧
    ∀ e1 g1 rest, startCombat enemy g input ≠ .returned (false, e1) g1 rest := by
  have hturn : combatTurn enemy g input = .again enemy g input1 := by
    unfold combatTurn
    rw [hread]
    dsimp only
    rw [if_neg (by decide), if_neg (by decide), if_pos rfl, if_pos htype]
  exact ⟨hturn, startCombat_again _ _ _ _ _ _ hturn,
    startCombat_shadow_lord_not_fled enemy g input htype⟩

theorem flee_from_shadow_lord_witness :
    (createEnemy .SHADOW_LORD).type = .SHADOW_LORD ∧
    getValidatedInt 1 3 [[some 3], [some 1]] = some (3, [[some 1]]) ∧
    combatTurn (createEnemy .SHADOW_LORD) (sampleGame 0) [[some 3], [some 1]]
      = .again (createEnemy .SHADOW_LORD) (sampleGame 0) [[some 1]] ∧
    startCombat (createEnemy .SHADOW_LORD) (sampleGame 0) [[some 3], [some 1]]
      = startCombat (createEnemy .SHADOW_LORD) (sampleGame 0) [[some 1]] ∧
    ∀ e1 g1 rest, startCombat (createEnemy .SHADOW_LORD) (sampleGame 0) [[some 3], [some 1]]
      ≠ .returned (false, e1) g1 rest :=
  ⟨rfl, by simp [getValidatedInt],
    flee_from_shadow_lord (createEnemy .SHADOW_LORD) (sampleGame 0) [[some 3], [some 1]]
      [[some 1]] rfl (by simp [getValidatedInt])⟩

/-- C13: `checkVictory` is true exactly when `x = 9`, `y = 9` and `level ≥ 5`; it reads
nothing but the player, gives the same answer whatever the name, hp, maxHp, mp, maxMp,
attack, defense, exp and gold are, and `(9, 9)` is the cell where `initializeWorldMap`
puts the boss room. -/
theorem checkVictory_iff (p : Player) (name : String)
    (hp maxHp mp maxMp attack defense exp gold : Int) (g : Game) :
    (checkVictory p = true ↔ p.x = 9 ∧ p.y = 9 ∧ p.level ≥ 5) ∧
    checkVictory
        { name := name, hp := hp, maxHp := maxHp, mp := mp, maxMp := maxMp, attack := attack,
          defense := defense, level := p.level, exp := exp, gold := gold, x := p.x, y := p.y }
      = checkVictory p ∧
    (initializeWorldMap g).worldMap 9 9 = .BOSS_ROOM := by
  refine ⟨?_, rfl, (initializeWorldMap_special g).2.2⟩
  unfold checkVictory
  exact decide_eq_true_iff

/-- C17: for every enemy type `t`, `createEnemy t` has type `t`, the name of `t` in
`enemyNames`, the maxHp, attack, defense, expReward and goldReward of row `t` of
`enemyStats`, and hp equal to maxHp; the seven enemies are listed (name, hp, maxHp, attack,
defense, expReward, goldReward, type). -/
theorem createEnemy_table (t : EnemyType) :
    (createEnemy t).type = t ∧ (createEnemy t).name = enemyNames t ∧
    ((createEnemy t).maxHp, (createEnemy t).attack, (createEnemy t).defense,
      (createEnemy t).expReward, (createEnemy t).goldReward) = enemyStats t ∧
    (createEnemy t).hp = (createEnemy t).maxHp ∧
    createEnemy .SLIME = ⟨"Slime", 30, 30, 5, 2, 10, 5, .SLIME⟩ ∧
    createEnemy .GOBLIN = ⟨"Goblin", 50, 50, 8, 4, 20, 10, .GOBLIN⟩ ∧
    createEnemy .WOLF = ⟨"Wolf", 70, 70, 12, 5, 30, 15, .WOLF⟩ ∧
    createEnemy .SKELETON = ⟨"Skeleton", 100, 100, 15, 8, 50, 25, .SKELETON⟩ ∧
    createEnemy .TROLL = ⟨"Troll", 150, 150, 20, 12, 80, 40, .TROLL⟩ ∧
    createEnemy .DRAGON = ⟨"Dragon", 300, 300, 35, 20, 200, 100, .DRAGON⟩ ∧
    createEnemy .SHADOW_LORD = ⟨"Shadow Lord", 500, 500, 50, 30, 500, 500, .SHADOW_LORD⟩ :=
  ⟨rfl, rfl, rfl, rfl, rfl, rfl, rfl, rfl, rfl, rfl, rfl⟩

/-- C18 fails as stated: with attack 10 against defense 5 and `rand()` returning 6, the
player's attack computes `8 + (-2 + 6 % 8) = 12` and the enemy's attack computes
`8 + (-2 + 6 % 6) = 6`. -/
theorem attack_damages_differ :
    (sampleGame 6).player.attack = mirrorEnemy.attack ∧
    (sampleGame 6).player.defense = mirrorEnemy.defense ∧
    (playerAttackDamage mirrorEnemy (sampleGame 6)).1 = 12 ∧
    (enemyAttackDamage mirrorEnemy (sampleGame 6)).1 = 6 := by
  decide

/-- C18 as amended: for a player with attack `a` hitting an enemy with defense `d`, and an
enemy with attack `a` hitting a player with defense `d`, from the same value `r` of
`rand()`: both damages are `max(1, a - d / 2)` plus a variance, which is `-2 + r % 8` for
the player's attack and `-2 + r % 6` for the enemy's attack; the damages are equal if and
only if `r % 8 = r % 6`. -/
theorem attack_damages_compared (g1 g2 : Game) (e1 e2 : Enemy)
    (hattack : e2.attack = g1.player.attack) (hdefense : g2.player.defense = e1.defense)
    (hrand : g2.randStream g2.randCalls = g1.randStream g1.randCalls) :
    (playerAttackDamage e1 g1).1
      = max 1 (g1.player.attack - Int.tdiv e1.defense 2)
        + (-2 + ((g1.randStream g1.randCalls % 8 : Nat) : Int)) ∧
    (enemyAttackDamage e2 g2).1
      = max 1 (g1.player.attack - Int.tdiv e1.defense 2)
        + (-2 + ((g1.randStream g1.randCalls % 6 : Nat) : Int)) ∧
    ((enemyAttackDamage e2 g2).1 = (playerAttackDamage e1 g1).1
      ↔ g1.randStream g1.randCalls % 8 = g1.randStream g1.randCalls % 6) := by
  have hplayer : (playerAttackDamage e1 g1).1
      = max 1 (g1.player.attack - Int.tdiv e1.defense 2)
        + (-2 + ((g1.randStream g1.randCalls % 8 : Nat) : Int)) := by
    rw [playerAttackDamage_fst, Int.ofNat_tmod]
    congr 1
    split_ifs with h
    · exact (max_eq_left (by omega)).symm
    · exact (max_eq_right (by omega)).symm
  have henemy : (enemyAttackDamage e2 g2).1
      = max 1 (g1.player.attack - Int.tdiv e1.defense 2)
        + (-2 + ((g1.randStream g1.randCalls % 6 : Nat) : Int)) := by
    rw [enemyAttackDamage_fst, hattack, hdefense, hrand, Int.ofNat_tmod]
    congr 1
    split_ifs with h
    · exact (max_eq_left (by omega)).symm
    · exact (max_eq_right (by omega)).symm
  refine ⟨hplayer, henemy, ?_⟩
  rw [hplayer, henemy]
  constructor
  · intro h
    omega
  · intro h
    rw [h]

theorem attack_damages_compared_witness :
    mirrorEnemy.attack = (sampleGame 3).player.attack ∧
    (sampleGame 3).player.defense = mirrorEnemy.defense ∧
    (sampleGame 3).randStream (sampleGame 3).randCalls
      = (sampleGame 3).randStream (sampleGame 3).randCalls ∧
    ((enemyAttackDamage mirrorEnemy (sampleGame 3)).1
        = (playerAttackDamage mirrorEnemy (sampleGame 3)).1
      ↔ (sampleGame 3).randStream (sampleGame 3).randCalls % 8
          = (sampleGame 3).randStream (sampleGame 3).randCalls % 6) :=
  ⟨rfl, rfl, rfl,
    (attack_damages_compared (sampleGame 3) (sampleGame 3) mirrorEnemy mirrorEnemy
      rfl rfl rfl).2.2⟩

/-! ## Movement and encounters -/

theorem afterCombat_finalGame (r : Run (Bool × Enemy)) :
    (afterCombat r).finalGame = r.finalGame := by
  cases r <;> rfl

theorem percentChance_eq (percent : Int) (g : Game) :
    percentChance percent g
      = (decide (nextRoll g < percent), { g with randCalls := g.randCalls + 1 }) :=
  rfl

theorem encounterEnemyType_player (g : Game) :
    (encounterEnemyType g).2.player = g.player := by
  unfold encounterEnemyType
  split_ifs <;> rfl

/-- A combat that returns has read input. -/
theorem startCombat_reads (enemy : Enemy) (g : Game) (input : Input) :
    ∀ result g1 rest, startCombat enemy g input = .returned result g1 rest →
      inputSize rest < inputSize input := by
  refine startCombat_induct
    (fun _ _ i r => ∀ result g1 rest, r = .returned result g1 rest →
      inputSize rest < inputSize i) ?_ ?_ enemy g input
  · intro e g i r hturn result g1 rest hr
    exact ((combatTurn_finished_frame e g i r hturn).1 result.1 result.2 g1 rest hr).1
  · intro e g i e1 g1 i1 hturn ih result g2 rest hr
    exact lt_trans (ih result g2 rest hr) (combatTurn_inputSize _ _ _ _ _ _ hturn)

/-- A combat that ends leaves the player where he was. -/
theorem startCombat_position (enemy : Enemy) (g : Game) (input : Input) :
    ∀ g1, (startCombat enemy g input).finalGame = some g1 →
      g1.player.x = g.player.x ∧ g1.player.y = g.player.y := by
  refine startCombat_induct
    (fun _ g _ r => ∀ g1, r.finalGame = some g1 →
      g1.player.x = g.player.x ∧ g1.player.y = g.player.y) ?_ ?_ enemy g input
  · intro e g i r hturn g1 hfinal
    have hframe := combatTurn_finished_frame e g i r hturn
    cases r with
    | returned value g2 rest =>
      cases hfinal
      have := hframe.1 value.1 value.2 g1 rest rfl
      exact ⟨this.2.1, this.2.2.1⟩
    | exited g2 =>
      cases hfinal
      exact hframe.2 g1 rfl
    | blocked => cases hfinal
  · intro e g i e1 g1 i1 hturn ih g2 hfinal
    have hframe := combatTurn_again_frame e e1 g g1 i i1 hturn
    have := ih g2 hfinal
    exact ⟨this.1.trans hframe.2.1, this.2.trans hframe.2.2.1⟩

/-- The function `movePlayer` on a move that is carried out: onto a village nothing
more happens; elsewhere one roll decides between a combat and the end of the call. -/
theorem movePlayer_success (g : Game) (input : Input) (direction : Char) (newX newY : Int)
    (htarget : moveTarget direction g.player = some (newX, newY))
    (hx : 0 ≤ newX ∧ newX < MAP_SIZE) (hy : 0 ≤ newY ∧ newY < MAP_SIZE)
    (hland : g.worldMap newX newY ≠ .WATER) :
    movePlayer direction g input =
      if g.worldMap newX newY = .VILLAGE then .returned () (movedTo g newX newY) input
      else if (percentChance 30 (movedTo g newX newY)).1 = true then
        afterCombat (startCombat
          (createEnemy (encounterEnemyType (percentChance 30 (movedTo g newX newY)).2).1)
          (encounterEnemyType (percentChance 30 (movedTo g newX newY)).2).2 input)
      else .returned () (percentChance 30 (movedTo g newX newY)).2 input := by
  unfold movePlayer
  rw [htarget]
  dsimp only
  rw [if_neg (by omega), if_neg hland]
  by_cases hvillage : g.worldMap newX newY = .VILLAGE
  · rw [if_neg (fun h => h hvillage), if_pos hvillage]
    rfl
  · rw [if_pos hvillage, if_neg hvillage]
    rfl

theorem percentChance_fst (percent : Int) (g : Game) :
    (percentChance percent g).1 = decide (nextRoll g < percent) :=
  rfl

theorem percentChance_snd (percent : Int) (g : Game) :
    (percentChance percent g).2 = (rand g).2 :=
  rfl

/-- The value `min + rand() % 3` of `randomInt(min, min + 2)` is one of three. -/
theorem randomInt_three (low : Int) (g : Game) :
    (randomInt low (low + 2) g).1 = low ∨ (randomInt low (low + 2) g).1 = low + 1 ∨
    (randomInt low (low + 2) g).1 = low + 2 := by
  rw [randomInt_fst]
  have hmod : low + 2 - low + 1 = 3 := by omega
  rw [hmod]
  have hbounds := tmod_rand_bounds (g.randStream g.randCalls) 3 (by norm_num)
  omega

/-- The enemy type of an encounter, by the tile under the player. -/
theorem encounterEnemyType_cases (g : Game) :
    (g.worldMap g.player.x g.player.y = .BOSS_ROOM →
      (encounterEnemyType g).1 = .SHADOW_LORD) ∧
    (g.worldMap g.player.x g.player.y = .DUNGEON →
      (encounterEnemyType g).1 = .SKELETON ∨ (encounterEnemyType g).1 = .TROLL ∨
      (encounterEnemyType g).1 = .DRAGON) ∧
    (g.worldMap g.player.x g.player.y ≠ .BOSS_ROOM →
      g.worldMap g.player.x g.player.y ≠ .DUNGEON →
      (encounterEnemyType g).1 = .SLIME ∨ (encounterEnemyType g).1 = .GOBLIN ∨
      (encounterEnemyType g).1 = .WOLF) ∧
    ((encounterEnemyType g).1 = .SHADOW_LORD →
      g.worldMap g.player.x g.player.y = .BOSS_ROOM) := by
  have hhigh : enemyTypeOfInt (randomInt 3 5 g).1 = .SKELETON ∨
      enemyTypeOfInt (randomInt 3 5 g).1 = .TROLL ∨
      enemyTypeOfInt (randomInt 3 5 g).1 = .DRAGON := by
    rcases randomInt_three 3 g with h | h | h
    · exact Or.inl (by rw [show (randomInt 3 5 g).1 = 3 from h]; rfl)
    · exact Or.inr (Or.inl (by rw [show (randomInt 3 5 g).1 = 4 from h]; rfl))
    · exact Or.inr (Or.inr (by rw [show (randomInt 3 5 g).1 = 5 from h]; rfl))
  have hlow : enemyTypeOfInt (randomInt 0 2 g).1 = .SLIME ∨
      enemyTypeOfInt (randomInt 0 2 g).1 = .GOBLIN ∨
      enemyTypeOfInt (randomInt 0 2 g).1 = .WOLF := by
    rcases randomInt_three 0 g with h | h | h
    · exact Or.inl (by rw [show (randomInt 0 2 g).1 = 0 from h]; rfl)
    · exact Or.inr (Or.inl (by rw [show (randomInt 0 2 g).1 = 1 from h]; rfl))
    · exact Or.inr (Or.inr (by rw [show (randomInt 0 2 g).1 = 2 from h]; rfl))
  by_cases hboss : g.worldMap g.player.x g.player.y = .BOSS_ROOM
  · have heq : encounterEnemyType g = (.SHADOW_LORD, g) := by
      unfold encounterEnemyType
      rw [if_pos hboss]
    rw [heq]
    refine ⟨fun _ => rfl, fun h => ?_, fun h => absurd hboss h, fun _ => hboss⟩
    rw [hboss] at h
    cases h
  · by_cases hdungeon : g.worldMap g.player.x g.player.y = .DUNGEON
    · have heq : encounterEnemyType g
          = (enemyTypeOfInt (randomInt 3 5 g).1, (randomInt 3 5 g).2) := by
        unfold encounterEnemyType
        rw [if_neg hboss, if_pos hdungeon]
      rw [heq]
      refine ⟨fun h => absurd h hboss, fun _ => hhigh, fun _ h => absurd hdungeon h, ?_⟩
      intro h
      rcases hhigh with h1 | h1 | h1 <;> rw [h1] at h <;> cases h
    · have heq : encounterEnemyType g
          = (enemyTypeOfInt (randomInt 0 2 g).1, (randomInt 0 2 g).2) := by
        unfold encounterEnemyType
        rw [if_neg hboss, if_neg hdungeon]
      rw [heq]
      refine ⟨fun h => absurd h hboss, fun h => absurd h hdungeon, fun _ _ => hlow, ?_⟩
      intro h
      rcases hlow with h1 | h1 | h1 <;> rw [h1] at h <;> cases h

/-- C14: from a position on the map (`0 ≤ x, y < 10`), for every map and character:
the target cell is `(x - 1, y)` for `w`/`W`, `(x + 1, y)` for `s`/`S`, `(x, y - 1)` for
`a`/`A`, `(x, y + 1)` for `d`/`D`, and there is none for any other character; when
there is no target that is on the map and not WATER, `movePlayer` returns with the whole
state as it was; when there is one, the move is carried out: `movePlayer` puts the player
on that cell and then returns at once on a village tile or after a failed encounter roll,
with no input read, and else ends as the combat that `startCombat` runs with the player
on that cell; every run of `movePlayer` that ends leaves the player on exactly that cell;
and every run that ends leaves the position on the map. -/
theorem movePlayer_position (g : Game) (input : Input) (direction : Char)
    (hx : 0 ≤ g.player.x ∧ g.player.x < MAP_SIZE)
    (hy : 0 ≤ g.player.y ∧ g.player.y < MAP_SIZE) :
    (moveTarget direction g.player =
      if direction = 'w' ∨ direction = 'W' then some (g.player.x - 1, g.player.y)
      else if direction = 's' ∨ direction = 'S' then some (g.player.x + 1, g.player.y)
      else if direction = 'a' ∨ direction = 'A' then some (g.player.x, g.player.y - 1)
      else if direction = 'd' ∨ direction = 'D' then some (g.player.x, g.player.y + 1)
      else none) ∧
    ((∀ nx ny, moveTarget direction g.player = some (nx, ny) →
        ¬ ((0 ≤ nx ∧ nx < MAP_SIZE) ∧ (0 ≤ ny ∧ ny < MAP_SIZE) ∧ g.worldMap nx ny ≠ .WATER)) →
      movePlayer direction g input = .returned () g input) ∧
    (∀ nx ny, moveTarget direction g.player = some (nx, ny) →
      (0 ≤ nx ∧ nx < MAP_SIZE) → (0 ≤ ny ∧ ny < MAP_SIZE) → g.worldMap nx ny ≠ .WATER →
      (movePlayer direction g input =
        if g.worldMap nx ny = .VILLAGE then .returned () (movedTo g nx ny) input
        else if (percentChance 30 (movedTo g nx ny)).1 = true then
          afterCombat (startCombat
            (createEnemy (encounterEnemyType (percentChance 30 (movedTo g nx ny)).2).1)
            (encounterEnemyType (percentChance 30 (movedTo g nx ny)).2).2 input)
        else .returned () (percentChance 30 (movedTo g nx ny)).2 input) ∧
      (movedTo g nx ny).player.x = nx ∧ (movedTo g nx ny).player.y = ny ∧
      (percentChance 30 (movedTo g nx ny)).2.player = (movedTo g nx ny).player ∧
      (encounterEnemyType (percentChance 30 (movedTo g nx ny)).2).2.player
        = (movedTo g nx ny).player ∧
      (g.worldMap nx ny = .VILLAGE ∨ (percentChance 30 (movedTo g nx ny)).1 = false →
        ∃ g1, movePlayer direction g input = .returned () g1 input ∧
          g1.player.x = nx ∧ g1.player.y = ny ∧
          (movePlayer direction g input).finalGame = some g1)) ∧
    (∀ nx ny, moveTarget direction g.player = some (nx, ny) →
      (0 ≤ nx ∧ nx < MAP_SIZE) → (0 ≤ ny ∧ ny < MAP_SIZE) → g.worldMap nx ny ≠ .WATER →
      ∀ g1, (movePlayer direction g input).finalGame = some g1 →
        g1.player.x = nx ∧ g1.player.y = ny) ∧
    (∀ g1, (movePlayer direction g input).finalGame = some g1 →
      (0 ≤ g1.player.x ∧ g1.player.x < MAP_SIZE) ∧
      (0 ≤ g1.player.y ∧ g1.player.y < MAP_SIZE)) := by
  have hcarried : ∀ nx ny, moveTarget direction g.player = some (nx, ny) →
      (0 ≤ nx ∧ nx < MAP_SIZE) → (0 ≤ ny ∧ ny < MAP_SIZE) → g.worldMap nx ny ≠ .WATER →
      (movePlayer direction g input =
        if g.worldMap nx ny = .VILLAGE then .returned () (movedTo g nx ny) input
        else if (percentChance 30 (movedTo g nx ny)).1 = true then
          afterCombat (startCombat
            (createEnemy (encounterEnemyType (percentChance 30 (movedTo g nx ny)).2).1)
            (encounterEnemyType (percentChance 30 (movedTo g nx ny)).2).2 input)
        else .returned () (percentChance 30 (movedTo g nx ny)).2 input) ∧
      (movedTo g nx ny).player.x = nx ∧ (movedTo g nx ny).player.y = ny ∧
      (percentChance 30 (movedTo g nx ny)).2.player = (movedTo g nx ny).player ∧
      (encounterEnemyType (percentChance 30 (movedTo g nx ny)).2).2.player
        = (movedTo g nx ny).player ∧
      (g.worldMap nx ny = .VILLAGE ∨ (percentChance 30 (movedTo g nx ny)).1 = false →
        ∃ g1, movePlayer direction g input = .returned () g1 input ∧
          g1.player.x = nx ∧ g1.player.y = ny ∧
          (movePlayer direction g input).finalGame = some g1) := by
    intro nx ny htarget hnx hny hland
    have heq := movePlayer_success g input direction nx ny htarget hnx hny hland
    refine ⟨heq, rfl, rfl, rfl, encounterEnemyType_player _, ?_⟩
    intro hquiet
    rw [heq]
    by_cases hvillage : g.worldMap nx ny = .VILLAGE
    · rw [if_pos hvillage]
      exact ⟨movedTo g nx ny, rfl, rfl, rfl, rfl⟩
    · have hroll : (percentChance 30 (movedTo g nx ny)).1 = false := by
        rcases hquiet with h | h
        · exact absurd h hvillage
        · exact h
      rw [if_neg hvillage, if_neg (by rw [hroll]; decide)]
      exact ⟨(percentChance 30 (movedTo g nx ny)).2, rfl, rfl, rfl, rfl⟩
  have hstay : (∀ nx ny, moveTarget direction g.player = some (nx, ny) →
        ¬ ((0 ≤ nx ∧ nx < MAP_SIZE) ∧ (0 ≤ ny ∧ ny < MAP_SIZE) ∧ g.worldMap nx ny ≠ .WATER)) →
      movePlayer direction g input = .returned () g input := by
    intro hnone
    unfold movePlayer
    cases htarget : moveTarget direction g.player with
    | none => rfl
    | some target =>
      obtain ⟨nx, ny⟩ := target
      have hbad := hnone nx ny htarget
      dsimp only
      by_cases hout : nx < 0 ∨ nx ≥ MAP_SIZE ∨ ny < 0 ∨ ny ≥ MAP_SIZE
      · rw [if_pos hout]
      · rw [if_neg hout]
        by_cases hwater : g.worldMap nx ny = .WATER
        · rw [if_pos hwater]
        · exact absurd ⟨by omega, by omega, hwater⟩ hbad
  have hmove : ∀ nx ny, moveTarget direction g.player = some (nx, ny) →
      (0 ≤ nx ∧ nx < MAP_SIZE) → (0 ≤ ny ∧ ny < MAP_SIZE) → g.worldMap nx ny ≠ .WATER →
      ∀ g1, (movePlayer direction g input).finalGame = some g1 →
        g1.player.x = nx ∧ g1.player.y = ny := by
    intro nx ny htarget hnx hny hland g1 hfinal
    rw [movePlayer_success g input direction nx ny htarget hnx hny hland] at hfinal
    split_ifs at hfinal with hvillage hroll
    · cases hfinal
      exact ⟨rfl, rfl⟩
    · rw [afterCombat_finalGame] at hfinal
      have hpos := startCombat_position _ _ _ g1 hfinal
      rw [encounterEnemyType_player] at hpos
      exact hpos
    · cases hfinal
      exact ⟨rfl, rfl⟩
  refine ⟨rfl, hstay, hcarried, hmove, ?_⟩
  intro g1 hfinal
  by_cases hvalid : ∃ nx ny, moveTarget direction g.player = some (nx, ny) ∧
      (0 ≤ nx ∧ nx < MAP_SIZE) ∧ (0 ≤ ny ∧ ny < MAP_SIZE) ∧ g.worldMap nx ny ≠ .WATER
  · obtain ⟨nx, ny, htarget, hnx, hny, hland⟩ := hvalid
    obtain ⟨h1, h2⟩ := hmove nx ny htarget hnx hny hland g1 hfinal
    rw [h1, h2]
    exact ⟨hnx, hny⟩
  · rw [hstay (fun nx ny htarget hgood => hvalid ⟨nx, ny, htarget, hgood⟩)] at hfinal
    cases hfinal
    exact ⟨hx, hy⟩

/-- The sample game with the generator returning 35 moves north without an encounter. -/
theorem movePlayer_sample_north :
    movePlayer 'w' (sampleGame 35) [] = .returned () (rand (movedTo (sampleGame 35) 4 5)).2 [] := by
  rw [movePlayer_success (sampleGame 35) [] 'w' 4 5 (by decide) (by decide) (by decide)
    (by decide), if_neg (by decide), if_neg (by decide)]
  rfl

theorem movePlayer_position_witness :
    (0 ≤ (sampleGame 35).player.x ∧ (sampleGame 35).player.x < MAP_SIZE) ∧
    (0 ≤ (sampleGame 35).player.y ∧ (sampleGame 35).player.y < MAP_SIZE) ∧
    (∃ g1, movePlayer 'w' (sampleGame 35) [] = .returned () g1 [] ∧
      g1.player.x = 4 ∧ g1.player.y = 5 ∧
      (movePlayer 'w' (sampleGame 35) []).finalGame = some g1) ∧
    (rand (movedTo (sampleGame 35) 4 5)).2.player.x = 4 ∧
    (rand (movedTo (sampleGame 35) 4 5)).2.player.y = 5 :=
  ⟨by decide, by decide,
    ((movePlayer_position (sampleGame 35) [] 'w' (by decide) (by decide)).2.2.1 4 5
      (by decide) (by decide) (by decide) (by decide)).2.2.2.2.2 (Or.inr (by decide)),
    (movePlayer_position (sampleGame 35) [] 'w' (by decide) (by decide)).2.2.2.1 4 5
      (by decide) (by decide) (by decide) (by decide) _
      (by rw [movePlayer_sample_north]; rfl)⟩

/-- The function `movePlayer` on a move that is carried out, by the tile and the roll. -/
theorem movePlayer_by_roll (g : Game) (input : Input) (direction : Char)
    (newX newY : Int) (htarget : moveTarget direction g.player = some (newX, newY))
    (hx : 0 ≤ newX ∧ newX < MAP_SIZE) (hy : 0 ≤ newY ∧ newY < MAP_SIZE)
    (hland : g.worldMap newX newY ≠ .WATER) :
    movePlayer direction g input =
      if g.worldMap newX newY ≠ .VILLAGE ∧ nextRoll g < 30 then
        afterCombat (startCombat
          (createEnemy (encounterEnemyType (rand (movedTo g newX newY)).2).1)
          (encounterEnemyType (rand (movedTo g newX newY)).2).2 input)
      else if g.worldMap newX newY = .VILLAGE then .returned () (movedTo g newX newY) input
      else .returned () (rand (movedTo g newX newY)).2 input := by
  rw [movePlayer_success g input direction newX newY htarget hx hy hland]
  by_cases hvillage : g.worldMap newX newY = .VILLAGE
  · rw [if_pos hvillage, if_neg (fun h => h.1 hvillage), if_pos hvillage]
  · rw [if_neg hvillage]
    by_cases hroll : nextRoll g < 30
    · rw [if_pos (And.intro hvillage hroll),
        if_pos (show (percentChance 30 (movedTo g newX newY)).1 = true from
          decide_eq_true hroll)]
      rfl
    · rw [if_neg (show ¬ (percentChance 30 (movedTo g newX newY)).1 = true from
          fun h => hroll (of_decide_eq_true h)),
        if_neg (show ¬ (g.worldMap newX newY ≠ .VILLAGE ∧ nextRoll g < 30) from
          fun h => hroll h.2), if_neg hvillage]
      rfl

/-- C15: for a move that is carried out (the target is on the map and not WATER), with
`nextRoll g` the value of `rand() % 100` at the next call of `rand()`: if the
destination is not VILLAGE and the roll is below 30, `movePlayer` ends as the combat
that `startCombat` runs after the roll; otherwise no combat starts, and `movePlayer`
returns with the player moved and no input read, after no call of `rand()` on a VILLAGE
tile and after the one roll elsewhere. `movePlayer` returns without having read input
if and only if it is not the case that the destination is not VILLAGE and the roll is
below 30. -/
theorem movePlayer_encounter_iff (g : Game) (input : Input) (direction : Char)
    (newX newY : Int) (htarget : moveTarget direction g.player = some (newX, newY))
    (hx : 0 ≤ newX ∧ newX < MAP_SIZE) (hy : 0 ≤ newY ∧ newY < MAP_SIZE)
    (hland : g.worldMap newX newY ≠ .WATER) :
    (movePlayer direction g input =
      if g.worldMap newX newY ≠ .VILLAGE ∧ nextRoll g < 30 then
        afterCombat (startCombat
          (createEnemy (encounterEnemyType (rand (movedTo g newX newY)).2).1)
          (encounterEnemyType (rand (movedTo g newX newY)).2).2 input)
      else if g.worldMap newX newY = .VILLAGE then .returned () (movedTo g newX newY) input
      else .returned () (rand (movedTo g newX newY)).2 input) ∧
    ((∃ g1, movePlayer direction g input = .returned () g1 input) ↔
      ¬ (g.worldMap newX newY ≠ .VILLAGE ∧ nextRoll g < 30)) ∧
    nextRoll g = Int.tmod (g.randStream g.randCalls : Nat) 100 ∧
    (movedTo g newX newY).randCalls = g.randCalls ∧
    (rand (movedTo g newX newY)).2.randCalls = g.randCalls + 1 := by
  have heq := movePlayer_by_roll g input direction newX newY htarget hx hy hland
  refine ⟨heq, ?_, rfl, rfl, rfl⟩
  rw [heq]
  by_cases hencounter : g.worldMap newX newY ≠ .VILLAGE ∧ nextRoll g < 30
  · rw [if_pos hencounter]
    constructor
    · rintro ⟨g1, hret⟩
      exfalso
      cases hcombat : startCombat
          (createEnemy (encounterEnemyType (rand (movedTo g newX newY)).2).1)
          (encounterEnemyType (rand (movedTo g newX newY)).2).2 input with
      | returned value g2 rest =>
        have hless := startCombat_reads _ _ _ value g2 rest hcombat
        rw [hcombat] at hret
        unfold afterCombat at hret
        cases hret
        exact lt_irrefl _ hless
      | exited g2 =>
        rw [hcombat] at hret
        cases hret
      | blocked =>
        rw [hcombat] at hret
        cases hret
    · intro h
      exact absurd hencounter h
  · rw [if_neg hencounter]
    constructor
    · intro _
      exact hencounter
    · intro _
      split_ifs
      · exact ⟨_, rfl⟩
      · exact ⟨_, rfl⟩

theorem movePlayer_encounter_iff_witness :
    moveTarget 'w' (sampleGame 35).player = some (4, 5) ∧
    ((0 : Int) ≤ 4 ∧ (4 : Int) < MAP_SIZE) ∧ ((0 : Int) ≤ 5 ∧ (5 : Int) < MAP_SIZE) ∧
    (sampleGame 35).worldMap 4 5 ≠ .WATER ∧
    ((∃ g1, movePlayer 'w' (sampleGame 35) [[some 1]] = .returned () g1 [[some 1]]) ↔
      ¬ ((sampleGame 35).worldMap 4 5 ≠ .VILLAGE ∧ nextRoll (sampleGame 35) < 30)) :=
  ⟨by decide, by decide, by decide, by decide,
    (movePlayer_encounter_iff (sampleGame 35) [[some 1]] 'w' 4 5 (by decide) (by decide)
      (by decide) (by decide)).2.1⟩

/-- C16: for a move that is carried out onto a tile that is not VILLAGE with the
encounter roll below 30, `movePlayer` ends as the combat against `createEnemy t`, where
`t` is SHADOW_LORD when the destination is BOSS_ROOM, one of SKELETON, TROLL, DRAGON
when it is DUNGEON, and one of SLIME, GOBLIN, WOLF on every other tile; `t` is
SHADOW_LORD only when the destination is BOSS_ROOM. -/
theorem movePlayer_enemy_type (g : Game) (input : Input) (direction : Char)
    (newX newY : Int) (htarget : moveTarget direction g.player = some (newX, newY))
    (hx : 0 ≤ newX ∧ newX < MAP_SIZE) (hy : 0 ≤ newY ∧ newY < MAP_SIZE)
    (hland : g.worldMap newX newY ≠ .WATER) (hvillage : g.worldMap newX newY ≠ .VILLAGE)
    (hroll : nextRoll g < 30) :
    movePlayer direction g input =
      afterCombat (startCombat
        (createEnemy (encounterEnemyType (rand (movedTo g newX newY)).2).1)
        (encounterEnemyType (rand (movedTo g newX newY)).2).2 input) ∧
    (g.worldMap newX newY = .BOSS_ROOM →
      (encounterEnemyType (rand (movedTo g newX newY)).2).1 = .SHADOW_LORD) ∧
    (g.worldMap newX newY = .DUNGEON →
      (encounterEnemyType (rand (movedTo g newX newY)).2).1 = .SKELETON ∨
      (encounterEnemyType (rand (movedTo g newX newY)).2).1 = .TROLL ∨
      (encounterEnemyType (rand (movedTo g newX newY)).2).1 = .DRAGON) ∧
    (g.worldMap newX newY ≠ .BOSS_ROOM → g.worldMap newX newY ≠ .DUNGEON →
      (encounterEnemyType (rand (movedTo g newX newY)).2).1 = .SLIME ∨
      (encounterEnemyType (rand (movedTo g newX newY)).2).1 = .GOBLIN ∨
      (encounterEnemyType (rand (movedTo g newX newY)).2).1 = .WOLF) ∧
    ((encounterEnemyType (rand (movedTo g newX newY)).2).1 = .SHADOW_LORD →
      g.worldMap newX newY = .BOSS_ROOM) := by
  refine ⟨?_, encounterEnemyType_cases (rand (movedTo g newX newY)).2⟩
  rw [movePlayer_by_roll g input direction newX newY htarget hx hy hland,
    if_pos (And.intro hvillage hroll)]

theorem movePlayer_enemy_type_witness :
    moveTarget 'w' (sampleGame 7).player = some (4, 5) ∧
    ((0 : Int) ≤ 4 ∧ (4 : Int) < MAP_SIZE) ∧ ((0 : Int) ≤ 5 ∧ (5 : Int) < MAP_SIZE) ∧
    (sampleGame 7).worldMap 4 5 ≠ .WATER ∧ (sampleGame 7).worldMap 4 5 ≠ .VILLAGE ∧
    nextRoll (sampleGame 7) < 30 ∧
    ((encounterEnemyType (rand (movedTo (sampleGame 7) 4 5)).2).1 = .SLIME ∨
      (encounterEnemyType (rand (movedTo (sampleGame 7) 4 5)).2).1 = .GOBLIN ∨
      (encounterEnemyType (rand (movedTo (sampleGame 7) 4 5)).2).1 = .WOLF) :=
  ⟨by decide, by decide, by decide, by decide, by decide, by decide,
    (movePlayer_enemy_type (sampleGame 7) [] 'w' 4 5 (by decide) (by decide) (by decide)
      (by decide) (by decide) (by decide)).2.2.2.1 (by decide) (by decide)⟩

/-! ## Victory and the use of items in combat -/

/-- The pass of the combat loop in which the attack of the player brings the enemy to
hp 0: `startCombat` returns true with the game of `victoryGame`. -/
theorem startCombat_victory (enemy : Enemy) (g : Game) (input input1 : Input)
    (hread : getValidatedInt 1 3 input = some (1, input1))
    (hkill : (playerAttack enemy g).1.hp ≤ 0) :
    startCombat enemy g input
      = .returned (true, (playerAttack enemy g).1)
          (victoryGame (playerAttack enemy g).1 g) input1 := by
  apply startCombat_finished
  unfold combatTurn
  rw [hread]
  dsimp only
  rw [if_pos rfl, if_pos hkill]
  unfold victoryGame
  by_cases hdrop : nextRoll (rand g).2 < 40
  · rw [if_pos hdrop]
    split_ifs with h
    · rfl
    · exact absurd (decide_eq_true hdrop) h
  · rw [if_neg hdrop]
    split_ifs with h
    · exact absurd (of_decide_eq_true h) hdrop
    · rfl

/-- Adding an item of quantity 1 changes the inventory exactly when an entry has its name
or there is room for a new entry. -/
theorem addItemToInventory_changes_iff (item : Item) (inventory : List Item)
    (hquantity : item.quantity = 1) :
    addItemToInventory item inventory ≠ inventory ↔
      ((∃ entry ∈ inventory, entry.name = item.name) ∨
        (inventory.length : Int) < MAX_INVENTORY) := by
  by_cases hexists : ∃ entry ∈ inventory, entry.name = item.name
  · obtain ⟨before, entry, after, hsplit, _, _, hstack⟩ :=
      stackOnExisting_some item inventory hexists
    have hres : addItemToInventory item inventory
        = before ++ { entry with quantity := entry.quantity + item.quantity } :: after := by
      unfold addItemToInventory
      rw [hstack]
    constructor
    · intro _
      exact Or.inl hexists
    · intro _ heq
      rw [hres] at heq
      have hentry := List.append_cancel_left (heq.trans hsplit)
      have hq := congrArg Item.quantity (List.cons.inj hentry).1
      simp only [hquantity] at hq
      omega
  · have hnone : ∀ entry ∈ inventory, entry.name ≠ item.name :=
      fun e he hn => hexists ⟨e, he, hn⟩
    unfold addItemToInventory
    rw [stackOnExisting_none item inventory hnone]
    dsimp only
    split_ifs with hroom
    · constructor
      · intro _
        exact Or.inr hroom
      · intro _ heq
        have := congrArg List.length heq
        rw [List.length_append, List.length_singleton] at this
        omega
    · constructor
      · intro h
        exact absurd rfl h
      · rintro (h | h)
        · exact absurd h hexists
        · exact absurd h hroom

/-- C19 fails as stated: the player (attack 10) hits a Slime with 1 hp left while the
inventory holds 20 entries, none named Health Potion, and `rand()` returns 0. The attack
brings the Slime to hp 0, `startCombat` returns true, the drop roll 0 is below 40, and
yet the inventory is as it was, with no Health Potion in it. -/
theorem victory_drop_not_added :
    getValidatedInt 1 3 [[some 1]] = some (1, []) ∧
    (playerAttack weakSlime fullGame).1.hp = 0 ∧
    nextRoll (rand fullGame).2 < 40 ∧
    startCombat weakSlime fullGame [[some 1]]
      = .returned (true, (playerAttack weakSlime fullGame).1)
          (victoryGame (playerAttack weakSlime fullGame).1 fullGame) [] ∧
    (victoryGame (playerAttack weakSlime fullGame).1 fullGame).inventory
      = fullGame.inventory ∧
    ∀ entry ∈ (victoryGame (playerAttack weakSlime fullGame).1 fullGame).inventory,
      entry.name ≠ "Health Potion" := by
  have hread : getValidatedInt 1 3 [[some 1]] = some (1, []) := by simp [getValidatedInt]
  have hinventory : (victoryGame (playerAttack weakSlime fullGame).1 fullGame).inventory
      = fullGame.inventory := by decide
  refine ⟨hread, by decide, by decide,
    startCombat_victory weakSlime fullGame [[some 1]] [] hread (by decide), hinventory, ?_⟩
  rw [hinventory]
  decide

/-- C19 as amended: when the choice read is 1 (Attack) and the attack of the player brings
the enemy to hp 0, `startCombat` returns true at once: the enemy makes no attack (the only
calls of `rand()` are the variance of the attack and the drop roll), the player is the
one `gainExperience(enemy.expReward)` leaves with `enemy.goldReward` more gold, and
`addItemToInventory` is called with one Health Potion (value 50, quantity 1) if and only
if the drop roll `rand() % 100` is below 40. The inventory changes, by the potion stacked
on the entry named Health Potion or put at the end, if and only if the roll is below 40
and the inventory has an entry named Health Potion or fewer than 20 entries. -/
theorem attack_victory (enemy : Enemy) (g : Game) (input input1 : Input)
    (hread : getValidatedInt 1 3 input = some (1, input1))
    (hkill : (playerAttack enemy g).1.hp ≤ 0) :
    startCombat enemy g input
      = .returned (true, (playerAttack enemy g).1)
          (victoryGame (playerAttack enemy g).1 g) input1 ∧
    (playerAttack enemy g).1.hp = 0 ∧
    (victoryGame (playerAttack enemy g).1 g).player
      = { gainExperience enemy.expReward g.player with
          gold := g.player.gold + enemy.goldReward } ∧
    (victoryGame (playerAttack enemy g).1 g).randCalls = g.randCalls + 2 ∧
    (victoryGame (playerAttack enemy g).1 g).inventory
      = (if nextRoll (rand g).2 < 40 then addItemToInventory healthPotionDrop g.inventory
          else g.inventory) ∧
    ((victoryGame (playerAttack enemy g).1 g).inventory ≠ g.inventory ↔
      nextRoll (rand g).2 < 40 ∧
        ((∃ entry ∈ g.inventory, entry.name = "Health Potion") ∨
          (g.inventory.length : Int) < MAX_INVENTORY)) ∧
    nextRoll (rand g).2 = Int.tmod (g.randStream (g.randCalls + 1) : Nat) 100 := by
  have hzero : (playerAttack enemy g).1.hp = 0 := by
    have hhp := playerAttack_hp enemy g
    rw [hhp] at hkill ⊢
    split_ifs at hkill ⊢ with h
    · rfl
    · omega
  have hplayer : (victoryGame (playerAttack enemy g).1 g).player
      = { gainExperience enemy.expReward g.player with
          gold := g.player.gold + enemy.goldReward } := by
    unfold victoryGame
    dsimp only
    rw [show (playerAttack enemy g).1.expReward = enemy.expReward from rfl,
      show (playerAttack enemy g).1.goldReward = enemy.goldReward from rfl,
      (gainExperience_frame enemy.expReward g.player).2.2.2]
  refine ⟨startCombat_victory enemy g input input1 hread hkill, hzero, hplayer, rfl, rfl,
    ?_, rfl⟩
  have hinv : (victoryGame (playerAttack enemy g).1 g).inventory
      = (if nextRoll (rand g).2 < 40 then addItemToInventory healthPotionDrop g.inventory
          else g.inventory) := rfl
  rw [hinv]
  have hchange := addItemToInventory_changes_iff healthPotionDrop g.inventory rfl
  split_ifs with hdrop
  · rw [hchange]
    exact ⟨fun h => ⟨hdrop, h⟩, fun h => h.2⟩
  · exact ⟨fun h => absurd rfl h, fun h => absurd h.1 hdrop⟩

theorem attack_victory_witness :
    getValidatedInt 1 3 [[some 1]] = some (1, []) ∧
    (playerAttack weakSlime (sampleGame 0)).1.hp ≤ 0 ∧
    startCombat weakSlime (sampleGame 0) [[some 1]]
      = .returned (true, (playerAttack weakSlime (sampleGame 0)).1)
          (victoryGame (playerAttack weakSlime (sampleGame 0)).1 (sampleGame 0)) [] ∧
    (victoryGame (playerAttack weakSlime (sampleGame 0)).1 (sampleGame 0)).randCalls
      = (sampleGame 0).randCalls + 2 :=
  ⟨by simp [getValidatedInt], by decide,
    (attack_victory weakSlime (sampleGame 0) [[some 1]] [] (by simp [getValidatedInt])
      (by decide)).1,
    (attack_victory weakSlime (sampleGame 0) [[some 1]] [] (by simp [getValidatedInt])
      (by decide)).2.2.2.1⟩

/-- C20: when the choice read is 2 (Use item), the pass of the combat loop ends with the
same enemy and with the game `afterItemChoice itemIndex g`, and `startCombat` goes on
with the next choice; here `itemIndex` is what the item prompt read (0 with no prompt for
an empty inventory). That game has the count of `rand()` calls, the generator and the map
of `g`; it is `g` itself when `itemIndex` is 0 (cancelled) and when the entry chosen is
neither a health nor a mana potion; and when it is not `g`, it is what `useItem` leaves
for a potion at a valid index. -/
theorem use_item_turn (enemy : Enemy) (g : Game) (input input1 input2 : Input)
    (itemIndex : Int) (hread : getValidatedInt 1 3 input = some (2, input1))
    (hprompt : (g.inventory = [] ∧ itemIndex = 0 ∧ input2 = input1) ∨
      (g.inventory ≠ [] ∧
        getValidatedInt 0 (g.inventory.length : Int) input1 = some (itemIndex, input2))) :
    combatTurn enemy g input = .again enemy (afterItemChoice itemIndex g) input2 ∧
    startCombat enemy g input = startCombat enemy (afterItemChoice itemIndex g) input2 ∧
    (afterItemChoice itemIndex g).randCalls = g.randCalls ∧
    (afterItemChoice itemIndex g).randStream = g.randStream ∧
    (afterItemChoice itemIndex g).worldMap = g.worldMap ∧
    (itemIndex = 0 → afterItemChoice itemIndex g = g) ∧
    (∀ item, g.inventory[(itemIndex - 1).toNat]? = some item →
      item.type ≠ .HEALTH_POTION → item.type ≠ .MANA_POTION →
      afterItemChoice itemIndex g = g) ∧
    (afterItemChoice itemIndex g = g ∨
      (itemIndex > 0 ∧ afterItemChoice itemIndex g = (useItem (itemIndex - 1) g).2 ∧
        ∃ item, g.inventory[(itemIndex - 1).toNat]? = some item ∧
          (item.type = .HEALTH_POTION ∨ item.type = .MANA_POTION))) := by
  have hframe := useItem_frame (itemIndex - 1) g
  have hturn : combatTurn enemy g input = .again enemy (afterItemChoice itemIndex g) input2 := by
    unfold combatTurn afterItemChoice
    rw [hread]
    dsimp only
    rw [if_neg (by decide), if_pos rfl]
    rcases hprompt with ⟨hempty, hindex, hinput⟩ | ⟨hitems, hread2⟩
    · rw [if_neg (fun h => h hempty), hindex, hinput, if_neg (by decide)]
    · rw [if_pos hitems, hread2]
      dsimp only
      split_ifs <;> rfl
  refine ⟨hturn, startCombat_again _ _ _ _ _ _ hturn, ?_, ?_, ?_, ?_, ?_, ?_⟩
  · unfold afterItemChoice
    split_ifs
    · exact hframe.1
    · rfl
  · unfold afterItemChoice
    split_ifs
    · exact hframe.2.1
    · rfl
  · unfold afterItemChoice
    split_ifs
    · exact hframe.2.2.1
    · rfl
  · intro hzero
    unfold afterItemChoice
    rw [if_neg (by omega)]
  · intro item hget hhealth hmana
    unfold afterItemChoice
    split_ifs with hpos
    · rcases hframe.2.2.2.2.2 with hsame | ⟨item1, _, hget1, htype, _⟩
      · rw [hsame]
      · rw [hget] at hget1
        cases hget1
        rcases htype with h | h
        · exact absurd h hhealth
        · exact absurd h hmana
    · rfl
  · unfold afterItemChoice
    split_ifs with hpos
    · rcases hframe.2.2.2.2.2 with hsame | ⟨item1, _, hget1, htype, _⟩
      · exact Or.inl (by rw [hsame])
      · exact Or.inr ⟨hpos, rfl, item1, hget1, htype⟩
    · exact Or.inl rfl

theorem use_item_turn_witness :
    getValidatedInt 1 3 [[some 2], [some 1]] = some (2, [[some 1]]) ∧
    ((sampleGame 0).inventory ≠ [] ∧
      getValidatedInt 0 ((sampleGame 0).inventory.length : Int) [[some 1]] = some (1, [])) ∧
    combatTurn weakSlime (sampleGame 0) [[some 2], [some 1]]
      = .again weakSlime (afterItemChoice 1 (sampleGame 0)) [] ∧
    (afterItemChoice 1 (sampleGame 0)).randCalls = (sampleGame 0).randCalls :=
  ⟨by simp [getValidatedInt], ⟨by decide, by simp [getValidatedInt, sampleGame]⟩,
    (use_item_turn weakSlime (sampleGame 0) [[some 2], [some 1]] [[some 1]] [] 1
      (by simp [getValidatedInt])
      (Or.inr ⟨by decide, by simp [getValidatedInt, sampleGame]⟩)).1,
    (use_item_turn weakSlime (sampleGame 0) [[some 2], [some 1]] [[some 1]] [] 1
      (by simp [getValidatedInt])
      (Or.inr ⟨by decide, by simp [getValidatedInt, sampleGame]⟩)).2.2.1⟩

/-! ## The function `useItem`, case by case -/

theorem useItem_out_of_range (index : Int) (g : Game)
    (h : index < 0 ∨ index ≥ (g.inventory.length : Int)) : useItem index g = (false, g) := by
  unfold useItem
  rw [if_pos h]

/-- An entry found at a position that is not negative is at an index in range. -/
theorem index_in_range (index : Int) (g : Game) (item : Item) (hindex : 0 ≤ index)
    (hget : g.inventory[index.toNat]? = some item) :
    ¬ (index < 0 ∨ index ≥ (g.inventory.length : Int)) := by
  obtain ⟨hlt, _⟩ := List.getElem?_eq_some.1 hget
  omega

theorem useItem_health (index : Int) (g : Game) (item : Item) (hindex : 0 ≤ index)
    (hget : g.inventory[index.toNat]? = some item) (htype : item.type = .HEALTH_POTION) :
    useItem index g =
      (true,
        { g with
          player := { g.player with hp := min (g.player.hp + item.value) g.player.maxHp }
          inventory := consumeItem index.toNat item g.inventory }) := by
  have hmin : min (g.player.hp + item.value) g.player.maxHp
      = if g.player.hp + item.value > g.player.maxHp then g.player.maxHp
        else g.player.hp + item.value := by
    split_ifs with h
    · exact min_eq_right (le_of_lt h)
    · exact min_eq_left (not_lt.1 h)
  unfold useItem
  rw [if_neg (index_in_range index g item hindex hget), hget, hmin]
  obtain ⟨name, type, value, quantity⟩ := item
  cases htype
  rfl

theorem useItem_mana (index : Int) (g : Game) (item : Item) (hindex : 0 ≤ index)
    (hget : g.inventory[index.toNat]? = some item) (htype : item.type = .MANA_POTION) :
    useItem index g =
      (true,
        { g with
          player := { g.player with mp := min (g.player.mp + item.value) g.player.maxMp }
          inventory := consumeItem index.toNat item g.inventory }) := by
  have hmin : min (g.player.mp + item.value) g.player.maxMp
      = if g.player.mp + item.value > g.player.maxMp then g.player.maxMp
        else g.player.mp + item.value := by
    split_ifs with h
    · exact min_eq_right (le_of_lt h)
    · exact min_eq_left (not_lt.1 h)
  unfold useItem
  rw [if_neg (index_in_range index g item hindex hget), hget, hmin]
  obtain ⟨name, type, value, quantity⟩ := item
  cases htype
  rfl

theorem useItem_other (index : Int) (g : Game) (item : Item)
    (hget : g.inventory[index.toNat]? = some item) (hhealth : item.type ≠ .HEALTH_POTION)
    (hmana : item.type ≠ .MANA_POTION) : useItem index g = (false, g) := by
  unfold useItem
  split_ifs
  · rfl
  · rw [hget]
    obtain ⟨name, type, value, quantity⟩ := item
    cases type
    · exact absurd rfl hhealth
    · exact absurd rfl hmana
    · rfl
    · rfl
    · rfl

/-! ## Claims about the inventory functions -/

/-- C24: if every entry of the inventory has quantity ≥ 1, then so has every entry after
`addItemToInventory` with an item of quantity ≥ 1 and every entry after `useItem` (any
index); `useItem` leaves the inventory as it was, or erases the entry used, whose quantity
was 1, or lowers the quantity of the entry used, which was ≥ 2, by 1 in its place: the
other entries keep their order. -/
theorem quantities_stay_positive (g : Game) (item : Item) (index : Int)
    (hall : ∀ entry ∈ g.inventory, 1 ≤ entry.quantity) (hitem : 1 ≤ item.quantity) :
    (∀ entry ∈ addItemToInventory item g.inventory, 1 ≤ entry.quantity) ∧
    (∀ entry ∈ (useItem index g).2.inventory, 1 ≤ entry.quantity) ∧
    ((useItem index g).2.inventory = g.inventory ∨
      ∃ used, g.inventory[index.toNat]? = some used ∧
        ((used.quantity = 1 ∧
            (useItem index g).2.inventory = g.inventory.eraseIdx index.toNat) ∨
          (2 ≤ used.quantity ∧
            (useItem index g).2.inventory
              = g.inventory.set index.toNat { used with quantity := used.quantity - 1 }))) := by
  refine ⟨?_, ?_, ?_⟩
  · intro entry hmem
    by_cases hexists : ∃ e ∈ g.inventory, e.name = item.name
    · obtain ⟨before, found, after, hsplit, _, _, hstack⟩ :=
        stackOnExisting_some item g.inventory hexists
      have hfound : 1 ≤ found.quantity := hall found (by rw [hsplit]; simp)
      unfold addItemToInventory at hmem
      rw [hstack] at hmem
      rcases List.mem_append.1 hmem with h | h
      · exact hall entry (by rw [hsplit]; exact List.mem_append_left _ h)
      · rcases List.mem_cons.1 h with h | h
        · rw [h]
          show 1 ≤ found.quantity + item.quantity
          omega
        · exact hall entry (by rw [hsplit]; simp [h])
    · have hnone : ∀ e ∈ g.inventory, e.name ≠ item.name :=
        fun e he hn => hexists ⟨e, he, hn⟩
      unfold addItemToInventory at hmem
      rw [stackOnExisting_none item g.inventory hnone] at hmem
      dsimp only at hmem
      split_ifs at hmem
      · rcases List.mem_append.1 hmem with h | h
        · exact hall entry h
        · rw [List.mem_singleton.1 h]
          exact hitem
      · exact hall entry hmem
  · intro entry hmem
    rcases useItem_inventory index g with hsame | ⟨used, hget, hres⟩
    · rw [hsame] at hmem
      exact hall entry hmem
    · rw [hres] at hmem
      unfold consumeItem at hmem
      dsimp only at hmem
      split_ifs at hmem with hlast
      · exact hall entry ((List.eraseIdx_sublist _ _).subset hmem)
      · rcases List.mem_or_eq_of_mem_set hmem with h | h
        · exact hall entry h
        · rw [h]
          show 1 ≤ used.quantity - 1
          omega
  · rcases useItem_inventory index g with hsame | ⟨used, hget, hres⟩
    · exact Or.inl hsame
    · have hused : 1 ≤ used.quantity := hall used (List.getElem?_mem hget)
      refine Or.inr ⟨used, hget, ?_⟩
      rw [hres]
      unfold consumeItem
      dsimp only
      split_ifs with hlast
      · exact Or.inl ⟨by omega, rfl⟩
      · exact Or.inr ⟨by omega, rfl⟩

theorem quantities_stay_positive_witness :
    (∀ entry ∈ (sampleGame 0).inventory, 1 ≤ entry.quantity) ∧ 1 ≤ healthPotionDrop.quantity ∧
    (∀ entry ∈ addItemToInventory healthPotionDrop (sampleGame 0).inventory,
      1 ≤ entry.quantity) ∧
    (∀ entry ∈ (useItem 0 (sampleGame 0)).2.inventory, 1 ≤ entry.quantity) :=
  ⟨by decide, by decide,
    (quantities_stay_positive (sampleGame 0) healthPotionDrop 0 (by decide) (by decide)).1,
    (quantities_stay_positive (sampleGame 0) healthPotionDrop 0 (by decide) (by decide)).2.1⟩

/-- C25 fails as stated: the inventory holds one Health Potion of quantity 0; `useItem(0)`
returns true and erases the entry, although the quantity lowered by 1 is `-1`, not 0. -/
theorem useItem_erases_below_zero :
    emptyPotionGame.inventory[0]? = some { healthPotionDrop with quantity := 0 } ∧
    (0 : Int) ≤ 0 ∧ (0 : Int) < (emptyPotionGame.inventory.length : Int) ∧
    (useItem 0 emptyPotionGame).1 = true ∧
    (useItem 0 emptyPotionGame).2.inventory = [] ∧
    ({ healthPotionDrop with quantity := 0 } : Item).quantity - 1 ≠ 0 := by
  decide

/-- C25 as amended: for an entry `item` at a valid index that is a HEALTH_POTION
(respectively a MANA_POTION), `useItem` returns true, sets hp to `min(hp + value, maxHp)`
(respectively mp to `min(mp + value, maxMp)`), changes no other field of the player, and
lowers the quantity of the entry by 1 in its place, or erases the entry, which it does
exactly when the lowered quantity is `≤ 0`; for an entry of quantity ≥ 1 that is exactly
when it is 0. The map and the generator are not touched. -/
theorem useItem_potion (g : Game) (index : Int) (item : Item) (hindex : 0 ≤ index)
    (hget : g.inventory[index.toNat]? = some item)
    (htype : item.type = .HEALTH_POTION ∨ item.type = .MANA_POTION) :
    (useItem index g).1 = true ∧
    (useItem index g).2.player =
      (if item.type = .HEALTH_POTION then
        { g.player with hp := min (g.player.hp + item.value) g.player.maxHp }
      else { g.player with mp := min (g.player.mp + item.value) g.player.maxMp }) ∧
    (useItem index g).2.inventory =
      (if item.quantity - 1 ≤ 0 then g.inventory.eraseIdx index.toNat
      else g.inventory.set index.toNat { item with quantity := item.quantity - 1 }) ∧
    (1 ≤ item.quantity → (item.quantity - 1 ≤ 0 ↔ item.quantity - 1 = 0)) ∧
    (useItem index g).2.worldMap = g.worldMap ∧
    (useItem index g).2.randStream = g.randStream ∧
    (useItem index g).2.randCalls = g.randCalls := by
  have hquantity : 1 ≤ item.quantity → (item.quantity - 1 ≤ 0 ↔ item.quantity - 1 = 0) := by
    intro h
    omega
  rcases htype with h | h
  · rw [useItem_health index g item hindex hget h, if_pos h]
    exact ⟨rfl, rfl, rfl, hquantity, rfl, rfl, rfl⟩
  · have hnot : item.type ≠ .HEALTH_POTION := by rw [h]; decide
    rw [useItem_mana index g item hindex hget h, if_neg hnot]
    exact ⟨rfl, rfl, rfl, hquantity, rfl, rfl, rfl⟩

theorem useItem_potion_witness :
    (0 : Int) ≤ 0 ∧
    (sampleGame 0).inventory[(0 : Int).toNat]? = some { healthPotionDrop with quantity := 3 } ∧
    (useItem 0 (sampleGame 0)).1 = true ∧
    (useItem 0 (sampleGame 0)).2.randCalls = (sampleGame 0).randCalls :=
  ⟨by decide, by decide,
    (useItem_potion (sampleGame 0) 0 { healthPotionDrop with quantity := 3 } (by decide)
      (by decide) (Or.inl rfl)).1,
    (useItem_potion (sampleGame 0) 0 { healthPotionDrop with quantity := 3 } (by decide)
      (by decide) (Or.inl rfl)).2.2.2.2.2.2⟩

/-- C26: `useItem` returns false with the game (player, inventory and the rest) as it was
if and only if the index is out of range (`index < 0` or `index ≥` the size of the
inventory) or the entry at the index is a SWORD, a SHIELD or an ARMOR, that is neither a
HEALTH_POTION nor a MANA_POTION; otherwise it returns true. -/
theorem useItem_false_iff (g : Game) (index : Int) :
    (useItem index g = (false, g) ↔
      (index < 0 ∨ index ≥ (g.inventory.length : Int) ∨
        ∃ item, g.inventory[index.toNat]? = some item ∧
          (item.type = .SWORD ∨ item.type = .SHIELD ∨ item.type = .ARMOR))) ∧
    ((useItem index g).1 = false ↔ useItem index g = (false, g)) ∧
    (useItem index g ≠ (false, g) → (useItem index g).1 = true) ∧
    (∀ item : Item, (item.type = .SWORD ∨ item.type = .SHIELD ∨ item.type = .ARMOR) ↔
      (item.type ≠ .HEALTH_POTION ∧ item.type ≠ .MANA_POTION)) := by
  have htypes : ∀ item : Item,
      (item.type = .SWORD ∨ item.type = .SHIELD ∨ item.type = .ARMOR) ↔
      (item.type ≠ .HEALTH_POTION ∧ item.type ≠ .MANA_POTION) := by
    intro item
    cases item.type <;> decide
  by_cases hrange : index < 0 ∨ index ≥ (g.inventory.length : Int)
  · have hres := useItem_out_of_range index g hrange
    refine ⟨⟨fun _ => ?_, fun _ => hres⟩, ⟨fun _ => hres, fun _ => by rw [hres]⟩,
      fun h => absurd hres h, htypes⟩
    rcases hrange with h | h
    · exact Or.inl h
    · exact Or.inr (Or.inl h)
  · have hlt : index.toNat < g.inventory.length := by omega
    have hget : g.inventory[index.toNat]? = some (g.inventory[index.toNat]) :=
      List.getElem?_eq_getElem hlt
    generalize g.inventory[index.toNat] = item at hget
    by_cases hpotion : item.type = .HEALTH_POTION ∨ item.type = .MANA_POTION
    · have htrue : (useItem index g).1 = true := by
        rcases hpotion with h | h
        · rw [useItem_health index g item (by omega) hget h]
        · rw [useItem_mana index g item (by omega) hget h]
      have hne : useItem index g ≠ (false, g) := by
        intro h
        rw [h] at htrue
        cases htrue
      refine ⟨⟨fun h => absurd h hne, ?_⟩, ⟨fun h => ?_, fun h => absurd h hne⟩,
        fun _ => htrue, htypes⟩
      · rintro (h | h | ⟨item1, hget1, hother⟩)
        · exact absurd (Or.inl h) hrange
        · exact absurd (Or.inr h) hrange
        · rw [hget] at hget1
          cases hget1
          have := (htypes item).1 hother
          rcases hpotion with h | h
          · exact absurd h this.1
          · exact absurd h this.2
      · rw [htrue] at h
        cases h
    · have hboth : item.type ≠ .HEALTH_POTION ∧ item.type ≠ .MANA_POTION :=
        ⟨fun h => hpotion (Or.inl h), fun h => hpotion (Or.inr h)⟩
      have hres := useItem_other index g item hget hboth.1 hboth.2
      exact ⟨⟨fun _ => Or.inr (Or.inr ⟨item, hget, (htypes item).2 hboth⟩), fun _ => hres⟩,
        ⟨fun _ => hres, fun _ => by rw [hres]⟩, fun h => absurd hres h, htypes⟩

/-- The search loop of `findItemInInventory` from the index `start ≥ 0`: it ends with
`-1` and no entry has the name, or with `start + n` for the first place `n` of the list
at which the name is found. -/
theorem findItemFrom_spec (itemName : String) (inventory : List Item) :
    ∀ start : Int, 0 ≤ start →
      (findItemFrom itemName start inventory = -1 ∧
        ∀ entry ∈ inventory, entry.name ≠ itemName) ∨
      (∃ n : Nat, findItemFrom itemName start inventory = start + n ∧
        n < inventory.length ∧
        (∃ entry, inventory[n]? = some entry ∧ entry.name = itemName) ∧
        ∀ j, j < n → ∀ entry, inventory[j]? = some entry → entry.name ≠ itemName) := by
  induction inventory with
  | nil =>
    intro start _
    exact Or.inl ⟨rfl, fun _ h => by cases h⟩
  | cons first rest ih =>
    intro start hstart
    by_cases hfirst : first.name = itemName
    · refine Or.inr ⟨0, ?_, by simp, ⟨first, List.getElem?_cons_zero, hfirst⟩,
        fun j hj => by omega⟩
      simp [findItemFrom, hfirst]
    · rcases ih (start + 1) (by omega) with ⟨hnone, hall⟩ | ⟨n, hres, hlt, hfound, hbefore⟩
      · refine Or.inl ⟨?_, ?_⟩
        · simp only [findItemFrom, if_neg hfirst, hnone]
        · intro entry hmem
          rcases List.mem_cons.1 hmem with h | h
          · rw [h]; exact hfirst
          · exact hall entry h
      · refine Or.inr ⟨n + 1, ?_, by simp; omega, ?_, ?_⟩
        · simp only [findItemFrom, if_neg hfirst, hres]
          push_cast
          omega
        · simpa using hfound
        · intro j hj entry hget
          cases j with
          | zero =>
            simp only [List.getElem?_cons_zero, Option.some.injEq] at hget
            rw [← hget]
            exact hfirst
          | succ k =>
            simp only [List.getElem?_cons_succ] at hget
            exact hbefore k (by omega) entry hget

/-- C28: `findItemInInventory` returns `-1` if and only if no entry has the name; any
other result `i` satisfies `0 ≤ i <` the size of the inventory, the entry at `i` has the
name, and no entry at a smaller index has it. -/
theorem findItemInInventory_spec (itemName : String) (inventory : List Item) :
    (findItemInInventory itemName inventory = -1 ↔
      ∀ entry ∈ inventory, entry.name ≠ itemName) ∧
    (findItemInInventory itemName inventory ≠ -1 →
      0 ≤ findItemInInventory itemName inventory ∧
      findItemInInventory itemName inventory < (inventory.length : Int) ∧
      (∃ entry, inventory[(findItemInInventory itemName inventory).toNat]? = some entry ∧
        entry.name = itemName) ∧
      ∀ j, j < (findItemInInventory itemName inventory).toNat →
        ∀ entry, inventory[j]? = some entry → entry.name ≠ itemName) := by
  unfold findItemInInventory
  rcases findItemFrom_spec itemName inventory 0 (le_refl 0) with
    ⟨hnone, hall⟩ | ⟨n, hres, hlt, hfound, hbefore⟩
  · exact ⟨⟨fun _ => hall, fun _ => hnone⟩, fun h => absurd hnone h⟩
  · rw [hres]
    have hnat : ((0 : Int) + (n : Int)).toNat = n := by omega
    refine ⟨⟨fun h => by omega, fun hall => ?_⟩, fun _ => ⟨by omega, by omega, ?_, ?_⟩⟩
    · obtain ⟨entry, hget, hname⟩ := hfound
      exact absurd hname (hall entry (List.getElem?_mem hget))
    · rw [hnat]
      exact hfound
    · rw [hnat]
      exact hbefore

/-! ## Flight and defeat -/

/-- The pass of the combat loop for the choice 3 (Flee) against an enemy that is not the
Shadow Lord. -/
theorem combatTurn_flee (enemy : Enemy) (g : Game) (input input1 : Input)
    (htype : enemy.type ≠ .SHADOW_LORD)
    (hread : getValidatedInt 1 3 input = some (3, input1)) :
    combatTurn enemy g input =
      if nextRoll g < 50 then .finished (.returned (false, enemy) (rand g).2 input1)
      else if (enemyAttack enemy (rand g).2).player.hp ≤ 0 then
        .finished (.exited (enemyAttack enemy (rand g).2))
      else .again enemy (enemyAttack enemy (rand g).2) input1 := by
  unfold combatTurn
  rw [hread]
  dsimp only
  rw [if_neg (by decide), if_neg (by decide), if_pos rfl, if_neg htype]
  by_cases hroll : nextRoll g < 50
  · rw [if_pos hroll, if_pos (show (percentChance 50 g).1 = true from decide_eq_true hroll)]
    rfl
  · rw [if_neg hroll, if_neg (show ¬ (percentChance 50 g).1 = true from
      fun h => hroll (of_decide_eq_true h))]
    rfl

/-- C21: when the enemy is not the Shadow Lord and the choice read is 3 (Flee), with
`nextRoll g` the value of `rand() % 100` the flight rolls: the pass ends the call as
fled, `startCombat` returning false, if and only if the roll is below 50; then the game
is the one before the choice but for the one call of `rand()`, with the same player
(hp, exp, level, gold and the rest) and the same inventory. When the roll is not below
50, the enemy attacks once (`enemyAttack`, the second call of `rand()`), and the call
ends in defeat if that leaves hp `≤ 0` and goes on with the next choice otherwise. -/
theorem flee_roll (enemy : Enemy) (g : Game) (input input1 : Input)
    (htype : enemy.type ≠ .SHADOW_LORD)
    (hread : getValidatedInt 1 3 input = some (3, input1)) :
    ((∃ (e1 : Enemy) (g1 : Game) (rest : Input),
        combatTurn enemy g input = .finished (.returned (false, e1) g1 rest))
      ↔ nextRoll g < 50) ∧
    (nextRoll g < 50 →
      startCombat enemy g input = .returned (false, enemy) (rand g).2 input1) ∧
    (rand g).2.player = g.player ∧ (rand g).2.inventory = g.inventory ∧
    (rand g).2.randCalls = g.randCalls + 1 ∧
    (¬ nextRoll g < 50 →
      startCombat enemy g input =
        if (enemyAttack enemy (rand g).2).player.hp ≤ 0 then
          .exited (enemyAttack enemy (rand g).2)
        else startCombat enemy (enemyAttack enemy (rand g).2) input1) ∧
    (enemyAttack enemy (rand g).2).randCalls = g.randCalls + 2 ∧
    (enemyAttack enemy (rand g).2).inventory = g.inventory ∧
    (enemyAttack enemy (rand g).2).player
      = { g.player with
          hp := max 0 (g.player.hp - (enemyAttackDamage enemy (rand g).2).1) } ∧
    nextRoll g = Int.tmod (g.randStream g.randCalls : Nat) 100 := by
  have hturn := combatTurn_flee enemy g input input1 htype hread
  have hhp : (enemyAttack enemy (rand g).2).player
      = { g.player with
          hp := max 0 (g.player.hp - (enemyAttackDamage enemy (rand g).2).1) } := by
    have hmax : max 0 (g.player.hp - (enemyAttackDamage enemy (rand g).2).1)
        = if g.player.hp - (enemyAttackDamage enemy (rand g).2).1 < 0 then 0
          else g.player.hp - (enemyAttackDamage enemy (rand g).2).1 := by
      split_ifs with h
      · exact max_eq_left (le_of_lt h)
      · exact max_eq_right (not_lt.1 h)
    rw [hmax]
    rfl
  refine ⟨⟨?_, ?_⟩, ?_, rfl, rfl, rfl, ?_, rfl, rfl, hhp, rfl⟩
  · rintro ⟨e1, g1, rest, hres⟩
    by_contra hroll
    rw [hturn, if_neg hroll] at hres
    split_ifs at hres
    cases hres
  · intro hroll
    exact ⟨enemy, (rand g).2, input1, by rw [hturn, if_pos hroll]⟩
  · intro hroll
    apply startCombat_finished
    rw [hturn, if_pos hroll]
  · intro hroll
    split_ifs with hdead
    · apply startCombat_finished
      rw [hturn, if_neg hroll, if_pos hdead]
    · apply startCombat_again
      rw [hturn, if_neg hroll, if_neg hdead]

theorem flee_roll_witness :
    (createEnemy .SLIME).type ≠ .SHADOW_LORD ∧
    getValidatedInt 1 3 [[some 3]] = some (3, []) ∧ nextRoll (sampleGame 7) < 50 ∧
    startCombat (createEnemy .SLIME) (sampleGame 7) [[some 3]]
      = .returned (false, createEnemy .SLIME) (rand (sampleGame 7)).2 [] :=
  ⟨by decide, by simp [getValidatedInt], by decide,
    (flee_roll (createEnemy .SLIME) (sampleGame 7) [[some 3]] [] (by decide)
      (by simp [getValidatedInt])).2.1 (by decide)⟩

theorem Exam.doubleTimes_data (count : Nat) (k : Nat) (c : Char) :
    Exam.doubleTimes count (String.mk (List.replicate k c))
      = String.mk (List.replicate (k * 2 ^ count) c) := by
  induction count generalizing k with
  | zero => simp [Exam.doubleTimes]
  | succ n ih =>
    have happend : String.mk (List.replicate k c) ++ String.mk (List.replicate k c)
        = String.mk (List.replicate (k + k) c) := by
      rw [List.replicate_add]
      rfl
    rw [Exam.doubleTimes, happend, ih, pow_succ]
    congr 2
    ring

/-- C29: `getRichQuick(n)` is the empty string for `n < 0` and, for `n ≥ 0`, the string
of `2 ^ n` characters `$`; so it has exactly `2 ^ n` characters, all of them `$`, and
`getRichQuick(3)` is `$$$$$$$$`. -/
theorem getRichQuick_spec (n : Int) :
    Exam.getRichQuick n
      = (if n < 0 then "" else String.mk (List.replicate (2 ^ n.toNat) '$')) ∧
    (0 ≤ n → (Exam.getRichQuick n).length = 2 ^ n.toNat ∧
      ∀ c ∈ (Exam.getRichQuick n).toList, c = '$') ∧
    (n < 0 → Exam.getRichQuick n = "") ∧
    Exam.getRichQuick 3 = "$$$$$$$$" := by
  have hmain : Exam.getRichQuick n
      = (if n < 0 then "" else String.mk (List.replicate (2 ^ n.toNat) '$')) := by
    unfold Exam.getRichQuick
    split_ifs
    · rfl
    · have h := Exam.doubleTimes_data n.toNat 1 '$'
      rw [one_mul] at h
      exact h
  refine ⟨hmain, ?_, ?_, ?_⟩
  · intro hn
    rw [hmain, if_neg (by omega)]
    refine ⟨by simp [String.length], ?_⟩
    intro c hc
    exact List.eq_of_mem_replicate hc
  · intro hn
    rw [hmain, if_pos hn]
  · rfl

/-! ## The cells of a new map -/

/-- The inner loop of `initializeWorldMap` over the first `m` columns of row `i`: it makes
`m` draws and gives the cell `(i, y)` the terrain of the draw number `y`. -/
theorem fillRow_spec (i m : Nat) (g : Game) :
    ((List.range m).foldl (fun g2 j => fillCell i j g2) g).randStream = g.randStream ∧
    ((List.range m).foldl (fun g2 j => fillCell i j g2) g).randCalls = g.randCalls + m ∧
    ∀ x y : Nat, ((List.range m).foldl (fun g2 j => fillCell i j g2) g).worldMap x y
      = if x = i ∧ y < m then
          terrainOfDraw (1 + Int.tmod (g.randStream (g.randCalls + y) : Nat) 100)
        else g.worldMap x y := by
  induction m with
  | zero => simp
  | succ m ih =>
    obtain ⟨hstream, hcalls, hmap⟩ := ih
    rw [List.range_succ, List.foldl_append, List.foldl_cons, List.foldl_nil]
    refine ⟨?_, ?_, ?_⟩
    · exact hstream
    · show _ + 1 = _
      rw [hcalls]
      rfl
    · intro x y
      show setCell _ (i : Int) (m : Int) (terrainOfDraw (randomInt 1 100 _).1) (x : Int) (y : Int)
        = _
      rw [randomInt_fst, hstream, hcalls]
      unfold setCell
      by_cases hcell : x = i ∧ y = m
      · obtain ⟨hx, hy⟩ := hcell
        subst hx hy
        rw [if_pos (And.intro rfl rfl), if_pos (And.intro rfl (Nat.lt_succ_self _))]
        rfl
      · have hne : ¬ ((x : Int) = (i : Int) ∧ (y : Int) = (m : Int)) := by
          intro h
          exact hcell ⟨by exact_mod_cast h.1, by exact_mod_cast h.2⟩
        rw [if_neg hne]
        show ((List.range m).foldl (fun g2 j => fillCell i j g2) g).worldMap x y = _
        rw [hmap]
        by_cases hin : x = i ∧ y < m
        · rw [if_pos hin, if_pos ⟨hin.1, by omega⟩]
        · have hout : ¬ (x = i ∧ y < m + 1) := by
            intro h
            have hy : y ≠ m := fun hy => hcell ⟨h.1, hy⟩
            exact hin ⟨h.1, by omega⟩
          rw [if_neg hin, if_neg hout]

/-- The nested loops of `initializeWorldMap` over the first `n` rows of `m` columns: the
cell `(x, y)` gets the terrain of the draw number `m * x + y`. -/
theorem fillRows_spec (n m : Nat) (g : Game) :
    ((List.range n).foldl
      (fun g1 i => (List.range m).foldl (fun g2 j => fillCell i j g2) g1) g).randStream
      = g.randStream ∧
    ((List.range n).foldl
      (fun g1 i => (List.range m).foldl (fun g2 j => fillCell i j g2) g1) g).randCalls
      = g.randCalls + m * n ∧
    ∀ x y : Nat, ((List.range n).foldl
      (fun g1 i => (List.range m).foldl (fun g2 j => fillCell i j g2) g1) g).worldMap x y
      = if x < n ∧ y < m then
          terrainOfDraw (1 + Int.tmod (g.randStream (g.randCalls + m * x + y) : Nat) 100)
        else g.worldMap x y := by
  induction n with
  | zero => simp
  | succ n ih =>
    obtain ⟨hstream, hcalls, hmap⟩ := ih
    rw [List.range_succ, List.foldl_append, List.foldl_cons, List.foldl_nil]
    obtain ⟨hs, hc, hm⟩ := fillRow_spec n m ((List.range n).foldl
      (fun g1 i => (List.range m).foldl (fun g2 j => fillCell i j g2) g1) g)
    refine ⟨hs.trans hstream, ?_, ?_⟩
    · rw [hc, hcalls, Nat.mul_succ, Nat.add_assoc]
    · intro x y
      rw [hm, hstream, hcalls, hmap]
      by_cases hrow : x = n
      · subst hrow
        by_cases hy : y < m
        · rw [if_pos (And.intro rfl hy), if_pos (And.intro (Nat.lt_succ_self _) hy)]
        · have h1 : ¬ (x = x ∧ y < m) := fun h => hy h.2
          have h2 : ¬ (x < x ∧ y < m) := fun h => hy h.2
          have h3 : ¬ (x < x + 1 ∧ y < m) := fun h => hy h.2
          rw [if_neg h1, if_neg h2, if_neg h3]
      · have h1 : ¬ (x = n ∧ y < m) := fun h => hrow h.1
        rw [if_neg h1]
        by_cases hin : x < n ∧ y < m
        · rw [if_pos hin, if_pos ⟨by omega, hin.2⟩]
        · have hout : ¬ (x < n + 1 ∧ y < m) := fun h => hin ⟨by omega, h.2⟩
          rw [if_neg hin, if_neg hout]

theorem terrainOfDraw_plain (r : Int) :
    terrainOfDraw r ≠ .VILLAGE ∧ terrainOfDraw r ≠ .DUNGEON ∧ terrainOfDraw r ≠ .BOSS_ROOM := by
  unfold terrainOfDraw
  split_ifs <;> exact ⟨by decide, by decide, by decide⟩

/-- C23: in the map that `initializeWorldMap` builds, (5,5) is the village, (0,0) the
dungeon and (9,9) the boss room; every other cell `(i, j)` of the 10 × 10 array holds the
terrain of its own draw `r` (the draw number `10 * i + j` of the call, a `randomInt(1, 100)`
with `1 ≤ r ≤ 100`): grass if `r ≤ 50`, forest if `50 < r ≤ 75`, mountain if `75 < r ≤ 85`,
water otherwise; so a cell is the village, the dungeon or the boss room only at (5,5),
(0,0) or (9,9), and the call makes exactly 100 draws. -/
theorem initializeWorldMap_cells (g : Game) :
    (initializeWorldMap g).worldMap 5 5 = .VILLAGE ∧
    (initializeWorldMap g).worldMap 0 0 = .DUNGEON ∧
    (initializeWorldMap g).worldMap 9 9 = .BOSS_ROOM ∧
    (initializeWorldMap g).randCalls = g.randCalls + 100 ∧
    (∀ i j : Nat, i < 10 → j < 10 → (i, j) ≠ (5, 5) → (i, j) ≠ (0, 0) → (i, j) ≠ (9, 9) →
      1 ≤ cellDraw g i j ∧ cellDraw g i j ≤ 100 ∧
      (initializeWorldMap g).worldMap i j = terrainOfDraw (cellDraw g i j) ∧
      (initializeWorldMap g).worldMap i j =
        (if cellDraw g i j ≤ 50 then Terrain.GRASS
          else if cellDraw g i j ≤ 75 then Terrain.FOREST
          else if cellDraw g i j ≤ 85 then Terrain.MOUNTAIN
          else Terrain.WATER)) ∧
    (∀ i j : Nat, i < 10 → j < 10 →
      ((initializeWorldMap g).worldMap i j = .VILLAGE ↔ (i, j) = (5, 5)) ∧
      ((initializeWorldMap g).worldMap i j = .DUNGEON ↔ (i, j) = (0, 0)) ∧
      ((initializeWorldMap g).worldMap i j = .BOSS_ROOM ↔ (i, j) = (9, 9))) := by
  obtain ⟨hstream, hcalls, hmap⟩ := fillRows_spec 10 10 g
  have hcell : ∀ i j : Nat, i < 10 → j < 10 →
      (initializeWorldMap g).worldMap i j =
        if (i : Int) = 9 ∧ (j : Int) = 9 then Terrain.BOSS_ROOM
        else if (i : Int) = 0 ∧ (j : Int) = 0 then Terrain.DUNGEON
        else if (i : Int) = 5 ∧ (j : Int) = 5 then Terrain.VILLAGE
        else terrainOfDraw (cellDraw g i j) := by
    intro i j hi hj
    have h := hmap i j
    rw [if_pos (And.intro hi hj)] at h
    unfold initializeWorldMap
    simp only [setCell]
    rw [h]
    rfl
  have hspecial := initializeWorldMap_special g
  refine ⟨hspecial.1, hspecial.2.1, hspecial.2.2, ?_, ?_, ?_⟩
  · unfold initializeWorldMap
    exact hcalls
  · intro i j hi hj h55 h00 h99
    have hbounds := tmod_rand_bounds (g.randStream (g.randCalls + 10 * i + j)) 100 (by norm_num)
    have hplain : (initializeWorldMap g).worldMap i j = terrainOfDraw (cellDraw g i j) := by
      rw [hcell i j hi hj, if_neg, if_neg, if_neg]
      · intro h
        exact h55 (by rw [Prod.mk.injEq]; omega)
      · intro h
        exact h00 (by rw [Prod.mk.injEq]; omega)
      · intro h
        exact h99 (by rw [Prod.mk.injEq]; omega)
    refine ⟨?_, ?_, hplain, ?_⟩
    · unfold cellDraw
      omega
    · unfold cellDraw
      omega
    · rw [hplain]
      rfl
  · intro i j hi hj
    rw [hcell i j hi hj]
    have hplain := terrainOfDraw_plain (cellDraw g i j)
    simp only [Prod.mk.injEq]
    by_cases h99 : (i : Int) = 9 ∧ (j : Int) = 9
    · rw [if_pos h99]
      refine ⟨?_, ?_, ?_⟩
      · constructor
        · intro h; cases h
        · intro h; omega
      · constructor
        · intro h; cases h
        · intro h; omega
      · constructor
        · intro _; omega
        · intro _; rfl
    · rw [if_neg h99]
      by_cases h00 : (i : Int) = 0 ∧ (j : Int) = 0
      · rw [if_pos h00]
        refine ⟨?_, ?_, ?_⟩
        · constructor
          · intro h; cases h
          · intro h; omega
        · constructor
          · intro _; omega
          · intro _; rfl
        · constructor
          · intro h; cases h
          · intro h; omega
      · rw [if_neg h00]
        by_cases h55 : (i : Int) = 5 ∧ (j : Int) = 5
        · rw [if_pos h55]
          refine ⟨?_, ?_, ?_⟩
          · constructor
            · intro _; omega
            · intro _; rfl
          · constructor
            · intro h; cases h
            · intro h; omega
          · constructor
            · intro h; cases h
            · intro h; omega
        · rw [if_neg h55]
          refine ⟨?_, ?_, ?_⟩
          · constructor
            · intro h; exact absurd h hplain.1
            · intro h; omega
          · constructor
            · intro h; exact absurd h hplain.2.1
            · intro h; omega
          · constructor
            · intro h; exact absurd h hplain.2.2
            · intro h; omega

/-! ## The high-score table of the two car games -/

theorem HighScores.getD_middle (pre : List Int) (a : Int) (post : List Int) :
    (pre ++ a :: post).getD pre.length 0 = a := by
  induction pre with
  | nil => rfl
  | cons b pre ih => simpa using ih

theorem HighScores.set_middle (pre : List Int) (a c : Int) (post : List Int) :
    (pre ++ a :: post).set pre.length c = pre ++ c :: post := by
  induction pre with
  | nil => rfl
  | cons b pre ih => simp [ih]

/-- The loop of `addHighScore`, started behind a sorted front `pre`: the new entry `x`
passes the entries smaller than it and stops behind the others. -/
theorem HighScores.bubbleToFront_places (x : Int) (pre : List Int) :
    ∀ post : List Int, pre.Pairwise (fun a b => a ≥ b) →
    ∃ front back : List Int, pre = front ++ back ∧ (∀ a ∈ front, a ≥ x) ∧
      (∀ b ∈ back, b < x) ∧
      HighScores.bubbleToFront pre.length (pre ++ x :: post) = front ++ x :: (back ++ post) := by
  induction pre using List.reverseRecOn with
  | nil =>
    intro post _
    exact ⟨[], [], rfl, by simp, by simp, rfl⟩
  | append_singleton pre p ih =>
    intro post hsorted
    rw [List.pairwise_append] at hsorted
    obtain ⟨hpre, _, hle⟩ := hsorted
    have hlen : (pre ++ [p]).length = pre.length + 1 := by simp
    have hlist : pre ++ [p] ++ x :: post = pre ++ p :: x :: post := by simp
    have hx : (pre ++ p :: x :: post).getD (pre.length + 1) 0 = x := by
      have h := HighScores.getD_middle (pre ++ [p]) x post
      rwa [hlen, hlist] at h
    have hp : (pre ++ p :: x :: post).getD pre.length 0 = p :=
      HighScores.getD_middle pre p (x :: post)
    rw [hlen, hlist, HighScores.bubbleToFront, hx, hp]
    by_cases hgt : x > p
    · rw [if_pos hgt]
      have hswap : HighScores.swapAt (pre ++ p :: x :: post) (pre.length + 1) pre.length
          = pre ++ x :: p :: post := by
        unfold HighScores.swapAt
        rw [hx, hp]
        have h1 := HighScores.set_middle (pre ++ [p]) x p post
        rw [hlen, hlist] at h1
        rw [h1]
        have h2 : pre ++ [p] ++ p :: post = pre ++ p :: p :: post := by simp
        rw [h2, HighScores.set_middle]
      rw [hswap]
      obtain ⟨front, back, hsplit, hfront, hback, hres⟩ := ih (p :: post) hpre
      refine ⟨front, back ++ [p], ?_, hfront, ?_, ?_⟩
      · rw [hsplit, List.append_assoc]
      · intro b hb
        rw [List.mem_append, List.mem_singleton] at hb
        rcases hb with hb | hb
        · exact hback b hb
        · rw [hb]
          exact hgt
      · rw [hres]
        simp
    · rw [if_neg hgt]
      refine ⟨pre ++ [p], [], by simp, ?_, by simp, by simp⟩
      intro a ha
      rw [List.mem_append, List.mem_singleton] at ha
      rcases ha with ha | ha
      · have h := hle a ha p (List.mem_singleton.mpr rfl)
        omega
      · omega

/-- C30: for a high-score list `hs` sorted in non-increasing order and any `score`,
`addHighScore` yields a list sorted in non-increasing order of length
`min (hs.length + 1) 10`, and it is the first `min (hs.length + 1) 10` entries (the
largest ones) of the non-increasing arrangement `full` of the old entries together with
the new score. -/
theorem addHighScore_top_ten (hs : List Int) (score : Int)
    (hsorted : hs.Pairwise (fun a b => a ≥ b)) :
    (HighScores.addHighScore hs score).Pairwise (fun a b => a ≥ b) ∧
    (HighScores.addHighScore hs score).length = min (hs.length + 1) 10 ∧
    ∃ full : List Int, full.Perm (score :: hs) ∧ full.Pairwise (fun a b => a ≥ b) ∧
      HighScores.addHighScore hs score = full.take (min (hs.length + 1) 10) := by
  obtain ⟨front, back, hsplit, hfront, hback, hres⟩ :=
    HighScores.bubbleToFront_places score hs [] hsorted
  rw [List.append_nil] at hres
  have hplaced : HighScores.bubbleToFront ((hs ++ [score]).length - 1) (hs ++ [score])
      = front ++ score :: back := by
    have hlen : (hs ++ [score]).length - 1 = hs.length := by simp
    rw [hlen]
    exact hres
  have hfull : (front ++ score :: back).Pairwise (fun a b => a ≥ b) := by
    rw [hsplit, List.pairwise_append] at hsorted
    obtain ⟨h1, h2, h3⟩ := hsorted
    rw [List.pairwise_append, List.pairwise_cons]
    refine ⟨h1, ⟨?_, h2⟩, ?_⟩
    · intro b hb
      exact le_of_lt (hback b hb)
    · intro a ha b hb
      rw [List.mem_cons] at hb
      rcases hb with hb | hb
      · rw [hb]
        exact hfront a ha
      · exact h3 a ha b hb
  have hperm : (front ++ score :: back).Perm (score :: hs) := by
    rw [hsplit]
    exact List.perm_middle
  have hlength : (front ++ score :: back).length = hs.length + 1 := by
    rw [hperm.length_eq]
    rfl
  have hvalue : HighScores.addHighScore hs score
      = (front ++ score :: back).take (min (hs.length + 1) 10) := by
    unfold HighScores.addHighScore
    simp only [hplaced]
    by_cases hlong : ((front ++ score :: back).length : Int) > 10
    · rw [if_pos hlong]
      have hmin : min (hs.length + 1) 10 = 10 := by
        rw [hlength] at hlong
        omega
      rw [hmin]
    · rw [if_neg hlong]
      have hmin : min (hs.length + 1) 10 = hs.length + 1 := by
        rw [hlength] at hlong
        omega
      rw [hmin, List.take_of_length_le (le_of_eq hlength)]
  refine ⟨?_, ?_, front ++ score :: back, hperm, hfull, hvalue⟩
  · rw [hvalue]
    exact hfull.sublist (List.take_sublist _ _)
  · rw [hvalue, List.length_take, hlength]
    omega

theorem addHighScore_top_ten_witness :
    [90, 70, 70, 50].Pairwise (fun (a b : Int) => a ≥ b) ∧
    HighScores.addHighScore [90, 70, 70, 50] 70 = [90, 70, 70, 70, 50] ∧
    (HighScores.addHighScore [90, 70, 70, 50] 70).Pairwise (fun a b => a ≥ b) ∧
    (HighScores.addHighScore [90, 70, 70, 50] 70).length = min (4 + 1) 10 ∧
    ∃ full : List Int, full.Perm [70, 90, 70, 70, 50] ∧ full.Pairwise (fun a b => a ≥ b) ∧
      HighScores.addHighScore [90, 70, 70, 50] 70 = full.take (min (4 + 1) 10) :=
  ⟨by decide, by decide, addHighScore_top_ten [90, 70, 70, 50] 70 (by decide)⟩

/-! ## Sorting the inventory -/

/-- The comparisons of one pass stay within the first `count + 1` entries. -/
theorem bubblePass_append (count : Nat) : ∀ (l back : List Item), l.length = count + 1 →
    bubblePass count (l ++ back) = bubblePass count l ++ back := by
  induction count with
  | zero =>
    intro l back _
    rw [bubblePass, bubblePass]
  | succ count ih =>
    intro l back hlen
    rcases l with _ | ⟨a, _ | ⟨b, rest⟩⟩
    · simp at hlen
    · simp at hlen
    · have hrest : (a :: rest).length = count + 1 := by simpa using hlen
      have hrest2 : (b :: rest).length = count + 1 := by simpa using hlen
      show bubblePass (count + 1) (a :: b :: (rest ++ back)) = _
      rw [bubblePass, bubblePass]
      by_cases hgt : a.name > b.name
      · rw [if_pos hgt, if_pos hgt, ← List.cons_append, ih _ _ hrest]
        rfl
      · rw [if_neg hgt, if_neg hgt, ← List.cons_append, ih _ _ hrest2]
        rfl

/-- A full pass over `count + 1` entries puts an entry of greatest name last. -/
theorem bubblePass_last (count : Nat) : ∀ l : List Item, l.length = count + 1 →
    ∃ (init : List Item) (m : Item), bubblePass count l = init ++ [m] ∧
      ∀ x ∈ l, x.name ≤ m.name := by
  induction count with
  | zero =>
    intro l hlen
    rcases l with _ | ⟨a, _ | ⟨b, rest⟩⟩
    · simp at hlen
    · refine ⟨[], a, by rw [bubblePass]; rfl, ?_⟩
      intro x hx
      rw [List.mem_singleton] at hx
      rw [hx]
    · simp at hlen
  | succ count ih =>
    intro l hlen
    rcases l with _ | ⟨a, _ | ⟨b, rest⟩⟩
    · simp at hlen
    · simp at hlen
    · have hrest : (a :: rest).length = count + 1 := by simpa using hlen
      have hrest2 : (b :: rest).length = count + 1 := by simpa using hlen
      rw [bubblePass]
      by_cases hgt : a.name > b.name
      · rw [if_pos hgt]
        obtain ⟨init, m, hpass, hmax⟩ := ih _ hrest
        refine ⟨b :: init, m, by rw [hpass]; rfl, ?_⟩
        intro x hx
        have ha : a.name ≤ m.name := hmax a (List.mem_cons_self _ _)
        rw [List.mem_cons, List.mem_cons] at hx
        rcases hx with hx | hx | hx
        · rw [hx]
          exact ha
        · rw [hx]
          exact le_trans (le_of_lt hgt) ha
        · exact hmax x (List.mem_cons_of_mem _ hx)
      · rw [if_neg hgt]
        obtain ⟨init, m, hpass, hmax⟩ := ih _ hrest2
        refine ⟨a :: init, m, by rw [hpass]; rfl, ?_⟩
        intro x hx
        have hb : b.name ≤ m.name := hmax b (List.mem_cons_self _ _)
        rw [List.mem_cons, List.mem_cons] at hx
        rcases hx with hx | hx | hx
        · rw [hx]
          exact le_trans (not_lt.mp hgt) hb
        · rw [hx]
          exact hb
        · exact hmax x (List.mem_cons_of_mem _ hx)

/-- One pass of the outer loop of `sortInventoryByName` extends the sorted tail. -/
theorem bubblePass_sortedTail (n t : Nat) (l : List Item) (hlen : l.length = n)
    (ht : t + 1 ≤ n) (h : SortedTail t l) :
    SortedTail (t + 1) (bubblePass (n - t - 1) l) := by
  obtain ⟨front, back, hsplit, hback, hsorted, hle⟩ := h
  have hfront : front.length = (n - t - 1) + 1 := by
    have h1 : front.length + back.length = n := by
      rw [← hlen, hsplit, List.length_append]
    omega
  obtain ⟨init, m, hpass, hmax⟩ := bubblePass_last (n - t - 1) front hfront
  have hperm : (init ++ [m]).Perm front := hpass ▸ bubblePass_perm (n - t - 1) front
  have hm : m ∈ front := hperm.subset (by simp)
  refine ⟨init, m :: back, ?_, by simp [hback], ?_, ?_⟩
  · rw [hsplit, bubblePass_append _ _ _ hfront, hpass]
    simp
  · rw [List.pairwise_cons]
    exact ⟨fun b hb => hle m hm b hb, hsorted⟩
  · intro a ha b hb
    have hafront : a ∈ front := hperm.subset (List.mem_append_left _ ha)
    rw [List.mem_cons] at hb
    rcases hb with hb | hb
    · rw [hb]
      exact hmax a hafront
    · exact hle a hafront b hb

theorem foldl_bubblePass_sortedTail (n : Nat) (l : List Item) (hlen : l.length = n) :
    ∀ k : Nat, k + 1 ≤ n ∨ k = 0 →
      SortedTail k ((List.range k).foldl (fun inv i => bubblePass (n - i - 1) inv) l) := by
  intro k
  induction k with
  | zero =>
    intro _
    exact ⟨l, [], by simp, rfl, List.Pairwise.nil, by simp⟩
  | succ k ih =>
    intro hk
    have hk1 : k + 1 + 1 ≤ n := by omega
    rw [List.range_succ, List.foldl_append, List.foldl_cons, List.foldl_nil]
    refine bubblePass_sortedTail n k _ ?_ (by omega) (ih (Or.inl (by omega)))
    rw [(foldl_bubblePass_perm n (List.range k) l).length_eq]
    exact hlen

/-- C27: for every inventory, `sortInventoryByName` leaves the entries in non-decreasing
order of name, and the result is a permutation of the input entries: no entry is lost,
duplicated or altered. -/
theorem sortInventoryByName_sorted (inventory : List Item) :
    (sortInventoryByName inventory).Pairwise (fun a b => a.name ≤ b.name) ∧
    (sortInventoryByName inventory).Perm inventory ∧
    (sortInventoryByName inventory).length = inventory.length := by
  have hperm : (sortInventoryByName inventory).Perm inventory :=
    foldl_bubblePass_perm _ _ _
  refine ⟨?_, hperm, hperm.length_eq⟩
  have htail := foldl_bubblePass_sortedTail inventory.length inventory rfl
    (inventory.length - 1) (by omega)
  obtain ⟨front, back, hsplit, hback, hsorted, hle⟩ := htail
  have hresult : sortInventoryByName inventory = front ++ back := hsplit
  have hfront : front.length ≤ 1 := by
    have h1 : front.length + back.length = inventory.length := by
      rw [← hperm.length_eq, hresult, List.length_append]
    omega
  rw [hresult, List.pairwise_append]
  refine ⟨?_, hsorted, hle⟩
  rcases front with _ | ⟨a, _ | ⟨b, rest⟩⟩
  · exact List.Pairwise.nil
  · exact List.pairwise_singleton _ _
  · simp at hfront

/-! ## Car Dodger -/

theorem getElem?_middle {α : Type} (pre : List α) (a : α) (post : List α) :
    (pre ++ a :: post)[pre.length]? = some a := by
  induction pre with
  | nil => simp
  | cons b pre ih => simpa using ih

theorem eraseIdx_middle {α : Type} (pre : List α) (a : α) (post : List α) :
    (pre ++ a :: post).eraseIdx pre.length = pre ++ post := by
  induction pre with
  | nil => rfl
  | cons b pre ih => simp [ih]

/-- The second loop of `updateObstacles` over the front `pre` of the list: the obstacles
of `pre` at or above the player's row stay, and `collision` is set when one of them is in
the player's cell. -/
theorem CarDodger.sweep_front (playerRow playerCol : Int) (pre : List CarDodger.Obstacle) :
    ∀ (post : List CarDodger.Obstacle) (collision : Bool),
    CarDodger.sweep playerRow playerCol pre.length (pre ++ post) collision
      = (pre.filter (fun o => decide (o.row ≤ playerRow)) ++ post,
          collision || pre.any (fun o => decide (o.row = playerRow ∧ o.col = playerCol))) := by
  induction pre using List.reverseRecOn with
  | nil =>
    intro post collision
    simp [CarDodger.sweep]
  | append_singleton pre o ih =>
    intro post collision
    have hlen : (pre ++ [o]).length = pre.length + 1 := by simp
    have hlist : pre ++ [o] ++ post = pre ++ o :: post := by simp
    rw [hlen, hlist, CarDodger.sweep, getElem?_middle]
    simp only []
    by_cases hbelow : o.row > playerRow
    · rw [if_pos hbelow, eraseIdx_middle, ih]
      have hkeep : decide (o.row ≤ playerRow) = false := decide_eq_false (by omega)
      have hcell : (decide (o.row = playerRow) && decide (o.col = playerCol)) = false := by
        rw [← Bool.decide_and]
        exact decide_eq_false (by omega)
      simp [List.filter_append, hkeep, hcell]
    · rw [if_neg hbelow]
      have hkeep : decide (o.row ≤ playerRow) = true := decide_eq_true (by omega)
      by_cases hcell : o.row = playerRow ∧ o.col = playerCol
      · rw [if_pos hcell, ih]
        simp [List.filter_append, hkeep, hcell]
      · rw [if_neg hcell, ih]
        have hcellb : (decide (o.row = playerRow) && decide (o.col = playerCol)) = false := by
          rw [← Bool.decide_and]
          exact decide_eq_false hcell
        simp [List.filter_append, hkeep, hcellb]

/-- C31: in Car Dodger, `updateObstacles` raises the row of every obstacle by 1 and keeps,
in their order, exactly the obstacles whose new row is at most `playerRow`; it returns
true if and only if the new position of some obstacle is `(playerRow, playerCol)`. -/
theorem carDodger_updateObstacles (obs : List CarDodger.Obstacle)
    (playerRow playerCol : Int) :
    (CarDodger.updateObstacles obs playerRow playerCol).1
      = (obs.map (fun o => { o with row := o.row + 1 })).filter
          (fun o => decide (o.row ≤ playerRow)) ∧
    ((CarDodger.updateObstacles obs playerRow playerCol).2 = true ↔
      ∃ o ∈ obs, o.row + 1 = playerRow ∧ o.col = playerCol) := by
  have h := CarDodger.sweep_front playerRow playerCol (CarDodger.moveDown obs) [] false
  rw [List.append_nil, List.append_nil] at h
  unfold CarDodger.updateObstacles
  simp only [h]
  refine ⟨rfl, ?_⟩
  simp [CarDodger.moveDown]

/-! ## Neon Lane Runner -/

/-- The second loop of `updatePowerUps` over the front `pre` of the list: it ends with
`-1` when no power-up of `pre` is in the player's cell, and else with an index at which
the list left holds a power-up of `pre` that is in the player's cell. -/
theorem NeonLaneRunner.collectFrom_front (playerRow playerCol : Int)
    (pre : List NeonLaneRunner.PowerUp) :
    ∀ post : List NeonLaneRunner.PowerUp,
    ∃ (rest : List NeonLaneRunner.PowerUp) (idx : Int),
      NeonLaneRunner.collectFrom playerRow playerCol pre.length (pre ++ post) = (rest, idx) ∧
      rest.Sublist (pre ++ post) ∧
      ((idx = -1 ∧ ∀ p ∈ pre, ¬ (p.row = playerRow ∧ p.col = playerCol)) ∨
        ∃ (k : Nat) (p : NeonLaneRunner.PowerUp), idx = (k : Int) ∧ rest[k]? = some p ∧
          p.row = playerRow ∧ p.col = playerCol ∧ p ∈ pre) := by
  induction pre using List.reverseRecOn with
  | nil =>
    intro post
    exact ⟨post, -1, rfl, List.Sublist.refl _, Or.inl ⟨rfl, by simp⟩⟩
  | append_singleton pre q ih =>
    intro post
    have hlen : (pre ++ [q]).length = pre.length + 1 := by simp
    have hlist : pre ++ [q] ++ post = pre ++ q :: post := by simp
    rw [hlen, hlist, NeonLaneRunner.collectFrom, getElem?_middle]
    simp only []
    by_cases hbelow : q.row > playerRow
    · rw [if_pos hbelow, eraseIdx_middle]
      obtain ⟨rest, idx, hrun, hsub, hcases⟩ := ih post
      refine ⟨rest, idx, hrun, ?_, ?_⟩
      · exact hsub.trans
          (List.Sublist.append (List.Sublist.refl pre) (List.sublist_cons_self q post))
      · rcases hcases with ⟨hidx, hnone⟩ | ⟨k, p, hidx, hget, hrow, hcol, hmem⟩
        · refine Or.inl ⟨hidx, ?_⟩
          intro p hp
          rw [List.mem_append, List.mem_singleton] at hp
          rcases hp with hp | hp
          · exact hnone p hp
          · rw [hp]
            intro h
            omega
        · exact Or.inr ⟨k, p, hidx, hget, hrow, hcol, List.mem_append_left _ hmem⟩
    · rw [if_neg hbelow]
      by_cases hcell : q.row = playerRow ∧ q.col = playerCol
      · rw [if_pos hcell]
        exact ⟨pre ++ q :: post, (pre.length : Int), rfl, List.Sublist.refl _,
          Or.inr ⟨pre.length, q, rfl, getElem?_middle pre q post, hcell.1, hcell.2,
            List.mem_append_right _ (List.mem_singleton.mpr rfl)⟩⟩
      · rw [if_neg hcell]
        obtain ⟨rest, idx, hrun, hsub, hcases⟩ := ih (q :: post)
        refine ⟨rest, idx, hrun, hsub, ?_⟩
        rcases hcases with ⟨hidx, hnone⟩ | ⟨k, p, hidx, hget, hrow, hcol, hmem⟩
        · refine Or.inl ⟨hidx, ?_⟩
          intro p hp
          rw [List.mem_append, List.mem_singleton] at hp
          rcases hp with hp | hp
          · exact hnone p hp
          · rw [hp]
            exact hcell
        · exact Or.inr ⟨k, p, hidx, hget, hrow, hcol, List.mem_append_left _ hmem⟩

/-- C32: in Neon Lane Runner, `updatePowerUps` returns `-1` if and only if no power-up is
at `(playerRow, playerCol)` after every power-up has moved down one row; any other value
returned is an index within the list left, and the power-up at that index is one of the
moved power-ups and is at `(playerRow, playerCol)`: the access `powerups[collectedIndex]`
and the erase at that index in `main` are in range. The list left holds moved power-ups
only, in their order. -/
theorem updatePowerUps_index (powerups : List NeonLaneRunner.PowerUp)
    (playerRow playerCol : Int) :
    ((NeonLaneRunner.updatePowerUps powerups playerRow playerCol).2 = -1 ↔
      ¬ ∃ p ∈ powerups, p.row + 1 = playerRow ∧ p.col = playerCol) ∧
    ((NeonLaneRunner.updatePowerUps powerups playerRow playerCol).2 ≠ -1 →
      0 ≤ (NeonLaneRunner.updatePowerUps powerups playerRow playerCol).2 ∧
      (NeonLaneRunner.updatePowerUps powerups playerRow playerCol).2
        < ((NeonLaneRunner.updatePowerUps powerups playerRow playerCol).1.length : Int) ∧
      ∃ p : NeonLaneRunner.PowerUp,
        (NeonLaneRunner.updatePowerUps powerups playerRow playerCol).1[
          (NeonLaneRunner.updatePowerUps powerups playerRow playerCol).2.toNat]? = some p ∧
        p.row = playerRow ∧ p.col = playerCol ∧
        p ∈ NeonLaneRunner.movePowerUps powerups) ∧
    (NeonLaneRunner.updatePowerUps powerups playerRow playerCol).1.Sublist
      (NeonLaneRunner.movePowerUps powerups) := by
  obtain ⟨rest, idx, hrun, hsub, hcases⟩ :=
    NeonLaneRunner.collectFrom_front playerRow playerCol
      (NeonLaneRunner.movePowerUps powerups) []
  rw [List.append_nil] at hrun hsub
  have hvalue : NeonLaneRunner.updatePowerUps powerups playerRow playerCol = (rest, idx) :=
    hrun
  rw [hvalue]
  have hmoved : (∃ p ∈ powerups, p.row + 1 = playerRow ∧ p.col = playerCol) ↔
      ∃ p ∈ NeonLaneRunner.movePowerUps powerups, p.row = playerRow ∧ p.col = playerCol := by
    simp [NeonLaneRunner.movePowerUps]
  rcases hcases with ⟨hidx, hnone⟩ | ⟨k, p, hidx, hget, hrow, hcol, hmem⟩
  · refine ⟨?_, ?_, hsub⟩
    · rw [hmoved]
      refine ⟨fun _ => ?_, fun _ => hidx⟩
      rintro ⟨p, hp, hcell⟩
      exact hnone p hp hcell
    · intro h
      exact absurd hidx h
  · have hlt : k < rest.length := by
      by_contra hge
      rw [List.getElem?_eq_none (by omega)] at hget
      cases hget
    refine ⟨?_, ?_, hsub⟩
    · rw [hmoved]
      constructor
      · intro h
        rw [hidx] at h
        omega
      · intro h
        exact absurd ⟨p, hmem, hrow, hcol⟩ h
    · intro _
      refine ⟨by rw [hidx]; omega, ?_, p, ?_, hrow, hcol, hmem⟩
      · show idx < (rest.length : Int)
        rw [hidx]
        omega
      show rest[idx.toNat]? = some p
      rw [hidx, Int.toNat_ofNat]
      exact hget

/-- C35: in Neon Lane Runner a `FAST` obstacle in the player's column, one row above the
player, is moved by `updateObstacles` (slow not active) by two rows, to the row below
the player, and erased, and the call returns false: the obstacle passes the player's cell
and no collision is reported. A `NORMAL` obstacle at the same place is reported. -/
theorem fast_obstacle_passes_player (playerRow playerCol : Int) :
    NeonLaneRunner.obstacleStep .FAST false = 2 ∧
    NeonLaneRunner.moveObstacles [{ row := playerRow - 1, col := playerCol, type := .FAST }]
      false = [{ row := playerRow + 1, col := playerCol, type := .FAST }] ∧
    NeonLaneRunner.updateObstacles
      [{ row := playerRow - 1, col := playerCol, type := .FAST }] playerRow playerCol false
      = ([], false) ∧
    NeonLaneRunner.updateObstacles
      [{ row := playerRow - 1, col := playerCol, type := .NORMAL }] playerRow playerCol false
      = ([{ row := playerRow, col := playerCol, type := .NORMAL }], true) := by
  have hmove : NeonLaneRunner.moveObstacles
      [{ row := playerRow - 1, col := playerCol, type := .FAST }] false
      = [{ row := playerRow + 1, col := playerCol, type := .FAST }] := by
    simp only [NeonLaneRunner.moveObstacles, NeonLaneRunner.obstacleStep, List.map_cons,
      List.map_nil, if_true, Bool.false_eq_true, if_false]
    congr 2
    omega
  have hmove1 : NeonLaneRunner.moveObstacles
      [{ row := playerRow - 1, col := playerCol, type := .NORMAL }] false
      = [{ row := playerRow, col := playerCol, type := .NORMAL }] := by
    simp [NeonLaneRunner.moveObstacles, NeonLaneRunner.obstacleStep]
  refine ⟨rfl, hmove, ?_, ?_⟩
  · unfold NeonLaneRunner.updateObstacles
    simp only [hmove]
    simp [NeonLaneRunner.sweepObstacles, NeonLaneRunner.obstacleHit]
  · unfold NeonLaneRunner.updateObstacles
    simp only [hmove1]
    simp [NeonLaneRunner.sweepObstacles, NeonLaneRunner.obstacleHit]

/-! ## One call of `gainExperience` -/

/-- C33: for a player of level at least 1 and any amount, one call of `gainExperience`
leaves the level or raises it by exactly one; when it raises the level, the experience
after the call is 0, whatever the excess of `exp + amount` over the threshold was. -/
theorem gainExperience_one_level (p : Player) (amount : Int) (hl : 1 ≤ p.level) :
    ((gainExperience amount p).level = p.level ∨
      (gainExperience amount p).level = p.level + 1) ∧
    ((gainExperience amount p).level ≠ p.level →
      (gainExperience amount p).exp = 0 ∧ p.exp + amount ≥ 100 * p.level) := by
  rw [gainExperience_eq amount p hl]
  split_ifs with h
  · exact ⟨Or.inr rfl, fun _ => ⟨rfl, h⟩⟩
  · exact ⟨Or.inl rfl, fun hne => absurd rfl hne⟩

theorem gainExperience_one_level_witness :
    1 ≤ (createCharacter "Hero").level ∧
    ((gainExperience 250 (createCharacter "Hero")).level = (createCharacter "Hero").level ∨
      (gainExperience 250 (createCharacter "Hero")).level
        = (createCharacter "Hero").level + 1) ∧
    ((gainExperience 250 (createCharacter "Hero")).level ≠ (createCharacter "Hero").level →
      (gainExperience 250 (createCharacter "Hero")).exp = 0 ∧
      (createCharacter "Hero").exp + 250 ≥ 100 * (createCharacter "Hero").level) :=
  ⟨by decide, gainExperience_one_level (createCharacter "Hero") 250 (by decide)⟩

/-- The loop of `gainExperience` ends within as many passes as the measure of the state
says, and on exit the test of the loop fails. -/
theorem gainExperienceWithin_enough : ∀ (fuel : Nat) (p : Player),
    (1 - p.level).toNat + (if p.exp = 0 then 0 else 1) ≤ fuel →
    gainExperienceWithin fuel p = some (gainExperienceLoop p) ∧
    (gainExperienceLoop p).exp < 100 * (gainExperienceLoop p).level := by
  intro fuel
  induction fuel with
  | zero =>
    intro p hfuel
    have hlt : p.exp < 100 * p.level := by
      split_ifs at hfuel <;> omega
    rw [gainExperienceLoop_of_lt p hlt, gainExperienceWithin, if_neg (by omega)]
    exact ⟨rfl, hlt⟩
  | succ fuel ih =>
    intro p hfuel
    by_cases hge : p.exp ≥ 100 * p.level
    · have hnext : (1 - (levelUp p).level).toNat + (if (levelUp p).exp = 0 then 0 else 1)
          ≤ fuel := by
        have hlevel : (levelUp p).level = p.level + 1 := rfl
        have hexp : (levelUp p).exp = 0 := rfl
        rw [hlevel, hexp, if_pos rfl]
        split_ifs at hfuel <;> omega
      rw [gainExperienceWithin, if_pos hge, gainExperienceLoop, if_pos hge]
      exact ih (levelUp p) hnext
    · have hlt : p.exp < 100 * p.level := by omega
      rw [gainExperienceLoop_of_lt p hlt, gainExperienceWithin, if_neg hge]
      exact ⟨rfl, hlt⟩

/-- C34: the level-up loop of `gainExperience` ends for every player state and every
amount, also at levels `≤ 0`: it makes at most `(1 - level) + 1` passes (at most one at a
level `≥ 1`), the call returns the state reached then, and in it
`exp < 100 * level`. -/
theorem gainExperience_terminates (p : Player) (amount : Int) :
    gainExperienceWithin ((1 - p.level).toNat + 1) { p with exp := p.exp + amount }
      = some (gainExperience amount p) ∧
    (gainExperience amount p).exp < 100 * (gainExperience amount p).level := by
  have h := gainExperienceWithin_enough ((1 - p.level).toNat + 1)
    { p with exp := p.exp + amount } (by
      show (1 - p.level).toNat + (if p.exp + amount = 0 then 0 else 1) ≤ _
      split_ifs <;> omega)
  exact ⟨h.1, h.2⟩

end ShadowQuest
